import Mathlib

/-!
# goLib: the DNS stub resolver (`src/dns/dns.go`)

A shallow embedding of `parseDomainName` and `Dig`.

* A Go `byte` is a `Fin 256`; `uint16` / `uint32` values are natural numbers,
  reduced `% 65536` / `% 4294967296` wherever Go would wrap.
* A Go `string` that is looked at byte by byte (the domain) is a `List Byte`;
  strings that are only carried around or compared (error texts, addresses)
  are Lean strings.
* `bytes.Buffer` is the list of its unread bytes.
* Everything `Dig` gets from the outside world (the random id, the results of
  `net.Dial`, `conn.Write` and the successive `conn.Read` calls, the measured
  time) is collected in `Env`.
-/

set_option linter.unusedVariables false

namespace Dns

/-! ## Bytes and big-endian words -/

abbrev Byte := Fin 256

/-- Go conversion `byte(n)`: keeps the low eight bits. -/
def toByte (n : Nat) : Byte := ⟨n % 256, Nat.mod_lt n (by decide)⟩

/-- `binary.BigEndian.PutUint16`. -/
def putUint16 (v : Nat) : List Byte := [toByte (v / 256), toByte v]

/-- `binary.BigEndian.PutUint32`. -/
def putUint32 (v : Nat) : List Byte :=
  [toByte (v / 16777216), toByte (v / 65536), toByte (v / 256), toByte v]

/-- `binary.BigEndian.Uint16`. -/
def uint16 (b0 b1 : Byte) : Nat := b0.val * 256 + b1.val

/-- `binary.BigEndian.Uint32`. -/
def uint32 (b0 b1 b2 b3 : Byte) : Nat :=
  b0.val * 16777216 + b1.val * 65536 + b2.val * 256 + b3.val

/-- `strconv.Itoa` on a non-negative argument: the decimal rendering. -/
def Itoa (n : Nat) : String := String.mk (Nat.toDigits 10 n)

/-- Reads a decimal numeral back (the inverse of `Itoa`), digit by digit. -/
def Atoi (s : List Char) : Nat := s.foldl (fun acc c => acc * 10 + (c.toNat - 48)) 0

/-- `strings.Contains`. -/
def Contains (s substr : String) : Bool :=
  s.data.tails.any (fun t => substr.data.isPrefixOf t)

/-- `strings.Split(s, ".")`: the pieces of `s` between the `'.'` bytes (byte 46);
a string without `'.'` (also the empty one) is its own single piece. -/
def Split : List Byte → List (List Byte)
  | [] => [[]]
  | b :: rest =>
    if b = 46 then [] :: Split rest
    else
      match Split rest with
      | [] => [[b]]
      | seg :: segs => (b :: seg) :: segs

/-- `binary.Read(&buffer, order, &data)` for a `data` of `n` bytes, as far as the
buffer is concerned: `io.ReadFull` either gets the `n` bytes, or drains the
buffer and reports an error, in which case `data` is left as it was. -/
def binaryRead (buffer : List Byte) (n : Nat) : Option (List Byte) × List Byte :=
  if n ≤ buffer.length then (some (buffer.take n), buffer.drop n) else (none, [])

/-! ## The message structures -/

structure dnsHeader where
  Id : Nat
  Bits : Nat
  Qdcount : Nat
  Ancount : Nat
  Nscount : Nat
  Arcount : Nat
deriving DecidableEq, Repr

/-- The zero value `dnsHeader{}`. -/
def dnsHeader.zero : dnsHeader := ⟨0, 0, 0, 0, 0, 0⟩

/-- `SetFlag`, lines 86-90: shifts and ors on `uint16`. -/
def dnsHeader.SetFlag (header : dnsHeader) (QR OperationCode AuthoritativeAnswer
    Truncation RecursionDesired RecursionAvailable ResponseCode : Nat) : dnsHeader :=
  { header with
    Bits := (QR <<< 15) % 65536 ||| (OperationCode <<< 11) % 65536 |||
      (AuthoritativeAnswer <<< 10) % 65536 ||| (Truncation <<< 9) % 65536 |||
      (RecursionDesired <<< 8) % 65536 ||| (RecursionAvailable <<< 7) % 65536 |||
      ResponseCode % 65536 }

/-- `ResponseCode`, lines 92-94. -/
def dnsHeader.ResponseCode (header : dnsHeader) : Nat := header.Bits &&& 0x000F

structure dnsQuery where
  QuestionType : Nat
  QuestionClass : Nat
deriving DecidableEq, Repr

structure dnsRR where
  Name : Nat
  Type_ : Nat
  Class : Nat
  TTL : Nat
  DataLen : Nat
deriving DecidableEq, Repr

/-- The zero value `dnsRR{}`. -/
def dnsRR.zero : dnsRR := ⟨0, 0, 0, 0, 0⟩

structure response where
  ips : List String
  ttl : Nat
  time : Nat
deriving DecidableEq, Repr

/-- The fields of `net.DNSError` that `Dig` sets. -/
structure DNSError where
  Err : String
  Name : List Byte
  Server : String
  IsTimeout : Bool
  IsTemporary : Bool
deriving DecidableEq, Repr

/-- `binary.Write(&buffer, binary.BigEndian, header)`. -/
def writeHeader (h : dnsHeader) : List Byte :=
  putUint16 h.Id ++ putUint16 h.Bits ++ putUint16 h.Qdcount ++ putUint16 h.Ancount ++
    putUint16 h.Nscount ++ putUint16 h.Arcount

/-- `binary.Write(&buffer, binary.BigEndian, query)`. -/
def writeQuery (q : dnsQuery) : List Byte :=
  putUint16 q.QuestionType ++ putUint16 q.QuestionClass

/-- The decoding half of `binary.Read(&buffer, binary.BigEndian, &header)`:
the twelve bytes read, or `none` when the read failed and the old value stays. -/
def readHeader (old : dnsHeader) : Option (List Byte) → dnsHeader
  | some [i0, i1, f0, f1, q0, q1, a0, a1, n0, n1, r0, r1] =>
    ⟨uint16 i0 i1, uint16 f0 f1, uint16 q0 q1, uint16 a0 a1, uint16 n0 n1, uint16 r0 r1⟩
  | _ => old

/-- The decoding half of `binary.Read(&buffer, binary.BigEndian, &responseQuery)`. -/
def readQuery (old : dnsQuery) : Option (List Byte) → dnsQuery
  | some [t0, t1, c0, c1] => ⟨uint16 t0 t1, uint16 c0 c1⟩
  | _ => old

/-- The decoding half of `binary.Read(&buffer, binary.BigEndian, &rr)`. -/
def readRR (old : dnsRR) : Option (List Byte) → dnsRR
  | some [n0, n1, t0, t1, c0, c1, l0, l1, l2, l3, d0, d1] =>
    ⟨uint16 n0 n1, uint16 t0 t1, uint16 c0 c1, uint32 l0 l1 l2 l3, uint16 d0 d1⟩
  | _ => old

/-- The decoding half of `binary.Read` into a byte slice of fixed length. -/
def readBytes (old : List Byte) : Option (List Byte) → List Byte
  | some bs => bs
  | none => old

/-- `net.IPv4(ip[0], ip[1], ip[2], ip[3]).String()`: the dotted quad. -/
def IPv4String (ip : List Byte) : String :=
  Itoa (ip.getD 0 0).val ++ "." ++ Itoa (ip.getD 1 0).val ++ "." ++
    Itoa (ip.getD 2 0).val ++ "." ++ Itoa (ip.getD 3 0).val

/-! ## `parseDomainName`, lines 135-147 -/

def parseDomainName (domain : List Byte) : List Byte :=
  let segments := Split domain
  let buffer := segments.foldl (fun buffer seg => buffer ++ [toByte seg.length] ++ seg) []
  buffer ++ [toByte 0x00]

/-! ## `Dig`, lines 150-273 -/

/-- What one call of `Dig` gets from the outside world. -/
structure Env where
  /-- the value `id()` returns -/
  id : Nat
  /-- `net.Dial("udp", addr)`: the error text, or `none` when it succeeds -/
  dial : String → Option String
  /-- `conn.Write`: the error text, or `none` when it succeeds -/
  write : Option String
  /-- the results of the successive `conn.Read(buf)` calls: an error text, or the
  datagram received (of which `buf` takes the first 1024 bytes) -/
  reads : List (Except String (List Byte))
  /-- the time measured between the write and the end of the read loop -/
  digTime : Nat

deriving instance DecidableEq for Except

/-- What a call of `Dig` does: the bytes handed to `conn.Write` (when the dial
succeeded) and what is returned; `ret = none` when the call does not return
because the reads are used up before the loop ends. -/
structure DigRun where
  sent : Option (List Byte)
  ret : Option (Except DNSError response)
deriving DecidableEq

/-- The request header, lines 151-158. -/
def requestHeader (id : Nat) : dnsHeader :=
  ({ Id := id % 65536, Bits := 0, Qdcount := 1, Ancount := 0, Nscount := 0, Arcount := 0 } :
    dnsHeader).SetFlag 0 0 0 0 1 0 0

/-- The request question, lines 160-163. -/
def requestQuery : dnsQuery := { QuestionType := 1, QuestionClass := 1 }

/-- The read loop, lines 198-213: `buf` is the 1024-byte receive buffer, `buffer`
the accumulation, `resLen` the running total. Returns the error text of a
failed read, or the accumulated buffer and `resLen`. -/
def readLoop : List (Except String (List Byte)) → List Byte → List Byte → Nat →
    Option (Except String (List Byte × Nat))
  | [], _, _, _ => none
  | Except.error e :: _, _, _, _ => some (Except.error e)
  | Except.ok data :: rest, buf, buffer, resLen =>
    let length := min data.length 1024
    let buf := data.take 1024 ++ buf.drop length
    let resLen := resLen + length
    let buffer := buffer ++ buf
    if length < 1024 then some (Except.ok (buffer, resLen))
    else readLoop rest buf buffer resLen

/-- The question loop, lines 241-244, run `n` more times. -/
def questionLoop (nameLen : Nat) : Nat → List Byte × List Byte × dnsQuery →
    List Byte × List Byte × dnsQuery
  | 0, s => s
  | n + 1, (buffer, name, responseQuery) =>
    let (got, buffer) := binaryRead buffer nameLen
    let name := readBytes name got
    let (got, buffer) := binaryRead buffer 4
    let responseQuery := readQuery responseQuery got
    questionLoop nameLen n (buffer, name, responseQuery)

/-- The variables of the answer loop. -/
structure AnswerState where
  buffer : List Byte
  rr : dnsRR
  ip : List Byte
  res : response
deriving DecidableEq

/-- One pass of the body of the answer loop, lines 254-269. -/
def answerStep (s : AnswerState) : AnswerState :=
  let (got, buffer) := binaryRead s.buffer 12
  let rr := readRR s.rr got
  let res := if rr.TTL < s.res.ttl then { s.res with ttl := rr.TTL } else s.res
  if rr.Type_ ≠ 1 then
    -- not ipv4
    let (_, buffer) := binaryRead buffer rr.DataLen
    { buffer := buffer, rr := rr, ip := s.ip, res := res }
  else if rr.DataLen ≠ 4 then
    -- DNS response invalid ip
    { buffer := buffer, rr := rr, ip := s.ip, res := res }
  else
    let (got, buffer) := binaryRead buffer 4
    let ip := readBytes s.ip got
    { buffer := buffer, rr := rr, ip := ip,
      res := { res with ips := res.ips ++ [IPv4String ip] } }

/-- The answer loop, lines 253-270, run `n` more times. -/
def answerLoop : Nat → AnswerState → AnswerState
  | 0, s => s
  | n + 1, s => answerLoop n (answerStep s)

/-- The decoding of the accumulated reply, lines 216-272. -/
def decode (requestHeader : dnsHeader) (dnsErr : DNSError) (domainBytes : List Byte)
    (digTime : Nat) (buffer : List Byte) : Except DNSError response :=
  let (got, buffer) := binaryRead buffer 12
  let responseHeader := readHeader dnsHeader.zero got
  if requestHeader.Id ≠ responseHeader.Id then
    Except.error { dnsErr with Err := "DNS response id and request id is not eq" }
  else if responseHeader.ResponseCode ≠ 0 then
    Except.error { dnsErr with
      Err := "DNS response error, code: " ++ Itoa responseHeader.ResponseCode }
  else if responseHeader.Qdcount ≠ 1 then
    Except.error { dnsErr with Err := "DNS response question number != 1" }
  else if responseHeader.Ancount < 1 then
    Except.error { dnsErr with Err := "DNS response answer number < 1" }
  else
    let name := List.replicate domainBytes.length (0 : Byte)
    let (buffer, _, _) :=
      questionLoop domainBytes.length responseHeader.Qdcount (buffer, name, ⟨0, 0⟩)
    let s := answerLoop responseHeader.Ancount
      { buffer := buffer, rr := dnsRR.zero, ip := [0, 0, 0, 0],
        res := { ips := [], ttl := 4294967295, time := digTime } }
    Except.ok s.res

/-- `Dig`, lines 150-273. -/
def Dig (env : Env) (dnsServer : String) (domain : List Byte) (timeout : Int) : DigRun :=
  let requestHeader := requestHeader env.id
  let dnsErr : DNSError := ⟨"", domain, dnsServer, false, false⟩
  match env.dial (dnsServer ++ ":53") with
  | some e => { sent := none, ret := some (Except.error { dnsErr with Err := e }) }
  | none =>
    let domainBytes := parseDomainName domain
    let buffer := writeHeader requestHeader ++ domainBytes ++ writeQuery requestQuery
    match env.write with
    | some e => { sent := some buffer, ret := some (Except.error { dnsErr with Err := e }) }
    | none =>
      match readLoop env.reads (List.replicate 1024 0) [] 0 with
      | none => { sent := some buffer, ret := none }
      | some (Except.error e) =>
        { sent := some buffer,
          ret := some (Except.error { dnsErr with Err := e, IsTimeout := Contains e "timeout" }) }
      | some (Except.ok (reply, resLen)) =>
        { sent := some buffer,
          ret := some (decode requestHeader dnsErr domainBytes env.digTime reply) }

/-! ## Replies on the wire (for stating the properties) -/

/-- The twelve bytes of a resource-record header on the wire. -/
def writeRR (rr : dnsRR) : List Byte :=
  putUint16 rr.Name ++ putUint16 rr.Type_ ++ putUint16 rr.Class ++ putUint32 rr.TTL ++
    putUint16 rr.DataLen

/-- An answer record on the wire: its header and its data bytes. -/
structure Record where
  rr : dnsRR
  data : List Byte
deriving DecidableEq

def Record.wire (r : Record) : List Byte := writeRR r.rr ++ r.data

/-- The header fields fit their wire widths. -/
def dnsHeader.WF (h : dnsHeader) : Prop :=
  h.Id < 65536 ∧ h.Bits < 65536 ∧ h.Qdcount < 65536 ∧ h.Ancount < 65536 ∧
    h.Nscount < 65536 ∧ h.Arcount < 65536

/-- The record-header fields fit their wire widths. -/
def dnsRR.WF (rr : dnsRR) : Prop :=
  rr.Name < 65536 ∧ rr.Type_ < 65536 ∧ rr.Class < 65536 ∧ rr.TTL < 4294967296 ∧
    rr.DataLen < 65536

instance (h : dnsHeader) : Decidable h.WF := by unfold dnsHeader.WF; infer_instance
instance (rr : dnsRR) : Decidable rr.WF := by unfold dnsRR.WF; infer_instance

/-- An answer record as the decoder expects it: a record of another type than A
followed by as many data bytes as its rdlength says, or an A record with
rdlength 4 and its four data bytes. -/
def Record.Complete (r : Record) : Prop :=
  r.rr.WF ∧ ((r.rr.Type_ ≠ 1 ∧ r.data.length = r.rr.DataLen) ∨
    (r.rr.Type_ = 1 ∧ r.rr.DataLen = 4 ∧ r.data.length = 4))

instance (r : Record) : Decidable r.Complete := by unfold Record.Complete; infer_instance

/-- A valid A record: type 1, rdlength 4, four data bytes. -/
def Record.ValidA (r : Record) : Prop :=
  r.rr.WF ∧ r.rr.Type_ = 1 ∧ r.rr.DataLen = 4 ∧ r.data.length = 4

instance (r : Record) : Decidable r.ValidA := by unfold Record.ValidA; infer_instance

/-- The running minimum the answer loop keeps, started at `t`. -/
def minTTL (t : Nat) (recs : List Record) : Nat :=
  recs.foldl (fun t r => if r.rr.TTL < t then r.rr.TTL else t) t

/-- The dotted quad of four bytes, written out. -/
def dottedQuad (a b c d : Byte) : String :=
  Itoa a.val ++ "." ++ Itoa b.val ++ "." ++ Itoa c.val ++ "." ++ Itoa d.val

/-- The addresses of the A records of a list of records, in order. -/
def addrs (recs : List Record) : List String :=
  (recs.filter (fun r => r.rr.Type_ = 1)).map (fun r => IPv4String r.data)

/-- The bytes of an ASCII string literal. -/
def ascii (s : String) : List Byte := s.data.map (fun c => toByte c.toNat)

/-- The dial and the write succeed and the read loop ends with `reply` as the
accumulated buffer. -/
def Received (env : Env) (dnsServer : String) (reply : List Byte) : Prop :=
  env.dial (dnsServer ++ ":53") = none ∧ env.write = none ∧
    ∃ resLen, readLoop env.reads (List.replicate 1024 0) [] 0 = some (Except.ok (reply, resLen))

/-- An env in which the dial and the write succeed and one datagram arrives. -/
def Env.oneDatagram (id : Nat) (datagram : List Byte) : Env :=
  { id := id, dial := fun _ => none, write := none, reads := [Except.ok datagram], digTime := 0 }

/-! ## Sample replies -/

/-- The question echo of a reply to a query for `domain`. -/
def echo (domain : List Byte) : List Byte := parseDomainName domain ++ [0, 1, 0, 1]

/-- The receive buffer after one datagram shorter than 1024 bytes: the datagram
and the zero bytes left in the buffer. -/
def padded (datagram : List Byte) : List Byte :=
  datagram ++ List.replicate (1024 - datagram.length) 0

/-- A reply of a header only. -/
def headerOnly (h : dnsHeader) : List Byte := writeHeader h

/-- A full reply to a query for `domain`. -/
def replyOf (h : dnsHeader) (domain : List Byte) (recs : List Record) : List Byte :=
  writeHeader h ++ echo domain ++ recs.flatMap Record.wire

/-- An A record for the address `a.b.c.d`. -/
def recA (ttl : Nat) (a b c d : Byte) : Record := ⟨⟨0xc00c, 1, 1, ttl, 4⟩, [a, b, c, d]⟩

/-- A record of another type with `n` zero data bytes. -/
def recOther (type ttl n : Nat) : Record := ⟨⟨0xc00c, type, 1, ttl, n⟩, List.replicate n 0⟩

/-- The domain of the sample queries. -/
def sampleDomain : List Byte := ascii "a.b.com"

/-- Three answers with TTLs 300, 120, 600: an A record, a CNAME-type record
with 16 data bytes, an A record. -/
def mixedRecs : List Record := [recA 300 1 2 3 4, recOther 5 120 16, recA 600 5 6 7 8]

/-- Two A answers, 1.2.3.4 then 5.6.7.8. -/
def twoARecs : List Record := [recA 300 1 2 3 4, recA 300 5 6 7 8]

/-- A CNAME-type record with 16 data bytes, then an A record for 1.2.3.4. -/
def cnameThenA : List Record := [recOther 5 300 16, recA 300 1 2 3 4]

/-- A type-1 record with rdlength 2 and its two data bytes, then a valid A
record for 1.2.3.4. -/
def badAThenA : List Record := [⟨⟨0xc00c, 1, 1, 300, 2⟩, [9, 9]⟩, recA 300 1 2 3 4]

/-- A type-1 record with rdlength 12 and twelve data bytes, then a valid A
record for 1.2.3.4. -/
def badA12ThenA : List Record :=
  [⟨⟨0xc00c, 1, 1, 300, 12⟩, writeRR ⟨0xc00c, 1, 1, 300, 4⟩⟩, recA 300 1 2 3 4]

/-- The run of `Dig` for `sampleDomain` with request id 7 in which the reply
with the given answer count and records arrives in one datagram. -/
def sampleRun (ancount : Nat) (recs : List Record) : DigRun :=
  Dig (Env.oneDatagram 7 (replyOf ⟨7, 0x8180, 1, ancount, 0, 0⟩ sampleDomain recs))
    "8.8.8.8" sampleDomain 3

/-! ## Counting labels on the wire -/

/-- The wire rule for counting the labels of an encoded name, `fuel` steps of it:
read a length byte, stop if it is 0, otherwise skip that many bytes and count one
label. A buffer that ends where a length byte should be has no further label. -/
def countLabelsFuel : Nat → List Byte → Nat
  | 0, _ => 0
  | _ + 1, [] => 0
  | fuel + 1, len :: rest =>
    if len.val = 0 then 0 else 1 + countLabelsFuel fuel (rest.drop len.val)

/-- The number of labels of an encoded name by the wire rule, from offset 0. Every
step consumes at least one byte, so `wire.length` steps are enough
(`countLabelsFuel_enough`). -/
def countLabels (wire : List Byte) : Nat := countLabelsFuel wire.length wire


/-! ## Error texts of the outside world -/

/-- The error texts the network gives are not empty (every error of Go's `net`
package renders as the failed operation followed by its cause). -/
def Env.TextsNonEmpty (env : Env) : Prop :=
  (∀ addr e, env.dial addr = some e → e ≠ "") ∧ (∀ e, env.write = some e → e ≠ "") ∧
    ∀ e, Except.error e ∈ env.reads → e ≠ ""

/-- An env in which the dial and the write succeed and the first read fails. -/
def Env.readFails (id : Nat) (e : String) : Env :=
  { id := id, dial := fun _ => none, write := none, reads := [Except.error e], digTime := 0 }

/-- The text of the error a UDP read gives when the deadline passes. -/
def timeoutText : String := "read udp 10.0.0.2:40000->8.8.8.8:53: i/o timeout"

/-- The chunk the read loop appends last: the short datagram and, after it, what
the receive buffer still holds from before. -/
def lastChunk (buf : List Byte) (pre : List (List Byte)) (d : List Byte) : List Byte :=
  d ++ ((pre.getLast?.map (List.take 1024)).getD buf).drop d.length

/-- A reply whose header passes the four checks and announces 200 answers, with
nothing after the question echo but the zero bytes of the receive buffer. -/
def overrunReply : List Byte := writeHeader ⟨7, 0x8180, 1, 200, 0, 0⟩ ++ echo sampleDomain


/-! ## Outcomes -/

/-- What a call of `Dig` returns, the measured time left out: the error, or the
ips and the ttl of the response. -/
def outcome : Option (Except DNSError response) → Option (Except DNSError (List String × Nat))
  | none => none
  | some (Except.error e) => some (Except.error e)
  | some (Except.ok r) => some (Except.ok (r.ips, r.ttl))

/-- The state in which the answer loop starts on `buffer`. -/
def answerStart (buffer : List Byte) (digTime : Nat) : AnswerState :=
  { buffer := buffer, rr := dnsRR.zero, ip := [0, 0, 0, 0],
    res := { ips := [], ttl := 4294967295, time := digTime } }

/-- The sample reply with one A record, and the same reply with other bytes in
the place of the question echo. -/
def echoReply : List Byte := replyOf ⟨7, 0x8180, 1, 1, 0, 0⟩ sampleDomain [recA 300 1 2 3 4]

def otherEchoReply : List Byte :=
  writeHeader ⟨7, 0x8180, 1, 1, 0, 0⟩ ++ List.replicate 13 0xff ++ (recA 300 1 2 3 4).wire

/-- The sample reply with one A record, followed by an authority section that
the header announces. -/
def replyWithAuthority : List Byte :=
  replyOf ⟨7, 0x8180, 1, 1, 2, 1⟩ sampleDomain [recA 300 1 2 3 4] ++ (recOther 2 60 4).wire

end Dns

/-!
# goLib: the priority queue (`src/priorityqueue/priorityqueue.go`)

A `PriorityQueue` (a slice of pointers to `Item`s, each pointer held once) is the
list of its items. `priority` and `index` are Go `int`s: integers, with the sum
in `UpdatePriorityQueue` wrapped to 64 bits. The functions of `container/heap`
that the package calls (`Init`, `Push`, `Pop`, `Fix`, with their `up` and `down`)
are transcribed from the Go standard library; their loops take a step count that
the callers set high enough for the loop to end by itself.
-/

namespace Priorityqueue

structure Item where
  value : String
  priority : Int
  index : Int
deriving DecidableEq, Repr

abbrev PriorityQueue := List Item

/-- The sum of two Go `int`s: wrapped to 64 bits. -/
def wrapInt (x : Int) : Int := (x + 9223372036854775808) % 18446744073709551616 - 9223372036854775808

/-- The item `pq[i]`. Go panics when `i` is out of range; here the zero item is
read, and no call below passes an index out of range. -/
def at_ (pq : PriorityQueue) (i : Nat) : Item := pq.getD i ⟨"", 0, 0⟩

/-- `Len`, line 18. -/
def Len (pq : PriorityQueue) : Nat := pq.length

/-- `Less`, lines 20-23. -/
def Less (pq : PriorityQueue) (i j : Nat) : Bool :=
  decide ((at_ pq i).priority > (at_ pq j).priority)

/-- `Swap`, lines 25-29: the two items change places and each gets its new
position as its index. -/
def Swap (pq : PriorityQueue) (i j : Nat) : PriorityQueue :=
  (pq.set i { at_ pq j with index := i }).set j { at_ pq i with index := j }

/-- `Push`, lines 31-36. -/
def Push (pq : PriorityQueue) (item : Item) : PriorityQueue :=
  pq ++ [{ item with index := pq.length }]

/-- `Pop`, lines 38-46: the last item, its index set to -1, and the queue
without it. -/
def Pop (pq : PriorityQueue) : Item × PriorityQueue :=
  ({ at_ pq (pq.length - 1) with index := -1 }, pq.dropLast)

/-- The loop of `heap.down`, at most `fuel` passes: the queue and the position
reached. -/
def downLoop : Nat → PriorityQueue → Nat → Nat → PriorityQueue × Nat
  | 0, pq, i, _ => (pq, i)
  | fuel + 1, pq, i, n =>
    let j1 := 2 * i + 1
    if j1 ≥ n then (pq, i)
    else
      let j := if j1 + 1 < n ∧ Less pq (j1 + 1) j1 = true then j1 + 1 else j1
      if Less pq j i = false then (pq, i)
      else downLoop fuel (Swap pq i j) j n

/-- `heap.down(h, i0, n)`: the queue and whether the item moved. Every pass
moves to a child, so `n` passes are never used up. -/
def down (pq : PriorityQueue) (i0 n : Nat) : PriorityQueue × Bool :=
  ((downLoop n pq i0 n).1, decide ((downLoop n pq i0 n).2 > i0))

/-- The loop of `heap.up`, at most `fuel` passes. The parent of `j` is
`(j - 1) / 2`, which for `j = 0` is 0 in Go as well. -/
def upLoop : Nat → PriorityQueue → Nat → PriorityQueue
  | 0, pq, _ => pq
  | fuel + 1, pq, j =>
    let i := (j - 1) / 2
    if i = j ∨ Less pq j i = false then pq
    else upLoop fuel (Swap pq i j) i

/-- `heap.up(h, j)`. Every pass moves to the parent, so `j` passes are never
used up. -/
def up (pq : PriorityQueue) (j : Nat) : PriorityQueue := upLoop j pq j

/-- The loop of `heap.Init`: `down(h, i, n)` for `i = k - 1, ..., 0`. -/
def initLoop (n : Nat) : Nat → PriorityQueue → PriorityQueue
  | 0, pq => pq
  | k + 1, pq => initLoop n k (down pq k n).1

/-- `heap.Init(h)`. -/
def heapInit (pq : PriorityQueue) : PriorityQueue := initLoop pq.length (pq.length / 2) pq

/-- `heap.Push(h, x)`. -/
def heapPush (pq : PriorityQueue) (item : Item) : PriorityQueue :=
  let pq := Push pq item
  up pq (Len pq - 1)

/-- `heap.Pop(h)`. -/
def heapPop (pq : PriorityQueue) : Item × PriorityQueue :=
  let n := Len pq - 1
  let pq := Swap pq 0 n
  let pq := (down pq 0 n).1
  Pop pq

/-- `heap.Fix(h, i)`. -/
def heapFix (pq : PriorityQueue) (i : Nat) : PriorityQueue :=
  let r := down pq i (Len pq)
  if r.2 = false then up r.1 i else r.1

/-- The position of the first item with the given value (the `range` loop of
`UpdatePriorityQueue`, lines 52-57). -/
def findValue (value : String) : PriorityQueue → Option Nat
  | [] => none
  | item :: rest =>
    if item.value = value then some 0 else (findValue value rest).map (· + 1)

/-- `UpdatePriorityQueue`, lines 50-71: the queue afterwards and the value
returned. `heap.Fix` is called with the index stored in the item found: an index
of -1 makes it do nothing, any other index that is not a position of the queue
makes it panic (`none`). -/
def UpdatePriorityQueue (pq : PriorityQueue) (value : String) (priority : Int) :
    Option (PriorityQueue × Bool) :=
  match findValue value pq with
  | some k =>
    let found := at_ pq k
    let pq := pq.set k { found with priority := wrapInt (found.priority + priority) }
    if 0 ≤ found.index ∧ found.index < pq.length then
      some (heapFix pq found.index.toNat, false)
    else if found.index = -1 then some (pq, false)
    else none
  | none =>
    let item : Item := { value := value, priority := priority, index := pq.length }
    some (heapPush pq item, true)

/-- `Take`, lines 73-78: the item returned (`none` for nil) and the queue
afterwards. -/
def Take (pq : PriorityQueue) : Option Item × PriorityQueue :=
  if Len pq < 1 then (none, pq)
  else
    let r := heapPop pq
    (some r.1, r.2)

/-- The loop of `InitPriorityQueue` and `InitPriorityQueueMap`: the item built
at each index. -/
def buildItems : Nat → List (String × Int) → PriorityQueue
  | _, [] => []
  | i, (value, priority) :: rest =>
    { value := value, priority := priority, index := i } :: buildItems (i + 1) rest

/-- `InitPriorityQueue`, lines 81-92: all priorities are 0. -/
def InitPriorityQueue (items : List String) : PriorityQueue :=
  heapInit (buildItems 0 (items.map (fun value => (value, 0))))

/-- `InitPriorityQueueMap`, lines 94-107. `items` lists the entries of the map in
the order the `range` loop visits them, which Go does not fix. -/
def InitPriorityQueueMap (items : List (String × Int)) : PriorityQueue :=
  heapInit (buildItems 0 items)

/-! ## Stating the properties -/

/-- What an item is apart from its place in the heap: its value and priority. -/
def Item.key (item : Item) : String × Int := (item.value, item.priority)

/-- The values and priorities of the queued items. -/
def keys (pq : PriorityQueue) : List (String × Int) := pq.map Item.key

/-- The priority of the item at position `i`. -/
def prio (pq : PriorityQueue) (i : Nat) : Int := (at_ pq i).priority

/-- Position `c` is a child of position `p`. -/
def Child (p c : Nat) : Prop := c = 2 * p + 1 ∨ c = 2 * p + 2

/-- The slice is a max-heap on priority: the item at position `k` has a priority
at least those at positions `2k+1` and `2k+2`, when they exist. -/
def IsHeap (pq : PriorityQueue) : Prop :=
  ∀ k, (2 * k + 1 < pq.length → prio pq (2 * k + 1) ≤ prio pq k) ∧
    (2 * k + 2 < pq.length → prio pq (2 * k + 2) ≤ prio pq k)

/-- The heap order between the positions from `lo` on and their children below
`n`. -/
def HeapRange (pq : PriorityQueue) (lo n : Nat) : Prop :=
  ∀ p c, lo ≤ p → c < n → Child p c → prio pq c ≤ prio pq p

/-- The heap order as `HeapRange`, but for the pairs that position `i` is part
of; the children of `i` are at most the parent of `i`. -/
def HeapExcept (pq : PriorityQueue) (lo n i : Nat) : Prop :=
  (∀ p c, lo ≤ p → c < n → Child p c → c ≠ i → p ≠ i → prio pq c ≤ prio pq p) ∧
    ∀ g c, lo ≤ g → c < n → Child g i → Child i c → prio pq c ≤ prio pq g

/-- The child that one pass of `heap.down` compares position `i` with: the right
one when it is below `n` and `Less` than the left one, the left one otherwise. -/
def greaterChild (pq : PriorityQueue) (i n : Nat) : Nat :=
  if 2 * i + 1 + 1 < n ∧ Less pq (2 * i + 1 + 1) (2 * i + 1) = true then 2 * i + 1 + 1
  else 2 * i + 1

/-- Position `i` is in order with its parent. -/
def UpOK (pq : PriorityQueue) (lo i : Nat) : Prop :=
  ∀ p, lo ≤ p → Child p i → prio pq i ≤ prio pq p

/-- Position `i` is in order with its children below `n`. -/
def DownOK (pq : PriorityQueue) (n i : Nat) : Prop :=
  ∀ c, c < n → Child i c → prio pq c ≤ prio pq i

/-- Every item's index is its position in the slice. -/
def IndexOK (pq : PriorityQueue) : Prop :=
  ∀ i, i < pq.length → (at_ pq i).index = i

/-- The invariant of the queue: it is a max-heap and the index fields are the
positions. -/
def Inv (pq : PriorityQueue) : Prop := IsHeap pq ∧ IndexOK pq

/-- The queues the package builds: by `InitPriorityQueue` or
`InitPriorityQueueMap`, then by `UpdatePriorityQueue` and `Take`. -/
inductive Reachable : PriorityQueue → Prop
  | init (items : List String) : Reachable (InitPriorityQueue items)
  | initMap (items : List (String × Int)) : Reachable (InitPriorityQueueMap items)
  | update (pq pq2 : PriorityQueue) (value : String) (priority : Int) (added : Bool) :
      Reachable pq → UpdatePriorityQueue pq value priority = some (pq2, added) → Reachable pq2
  | take (pq : PriorityQueue) : Reachable pq → Reachable (Take pq).2

/-- Repeated `Take`, at most `n` times, until nil is returned: the items
returned, in order. -/
def takeAll : Nat → PriorityQueue → List Item
  | 0, _ => []
  | n + 1, pq =>
    match Take pq with
    | (none, _) => []
    | (some item, rest) => item :: takeAll n rest

/-- The map of the package's test, in one of the orders a `range` may visit it. -/
def sampleItems : List (String × Int) := [("banana", 3), ("apple", 2), ("pear", 4)]

/-- The six orders in which a `range` may visit the map of the package's test. -/
def sampleOrders : List (List (String × Int)) :=
  [[("banana", 3), ("apple", 2), ("pear", 4)], [("banana", 3), ("pear", 4), ("apple", 2)],
   [("apple", 2), ("banana", 3), ("pear", 4)], [("apple", 2), ("pear", 4), ("banana", 3)],
   [("pear", 4), ("banana", 3), ("apple", 2)], [("pear", 4), ("apple", 2), ("banana", 3)]]

/-- The queue of the package's test after `UpdatePriorityQueue("orange", 5)`. -/
def sampleQueue : PriorityQueue :=
  [⟨"orange", 5, 0⟩, ⟨"pear", 4, 1⟩, ⟨"banana", 3, 2⟩, ⟨"apple", 2, 3⟩]

/-- A heap whose index fields are not the positions: those of "b" and "c" are
exchanged. -/
def wrongIndexQueue : PriorityQueue := [⟨"a", 5, 0⟩, ⟨"b", 3, 2⟩, ⟨"c", 4, 1⟩]

end Priorityqueue

/-!
# goLib: the leveled logger (`src/log/log.go`)

The logger is followed one step at a time: a call of `Debug`, ..., `Fatal` (with
`writeMesg`) is one step, and so is one pass of the loop of `run`, which takes a
message from the channel and hands it to the handlers. The channel is the list of
the messages queued, oldest first. Of a handler the model keeps the level,
whether `h.logger` is set, and the arguments of the `h.logger.Println` calls made
so far (the standard logger puts the date and time before each of them). What
`Rotate` finds on the disk and the clock is given from outside as a
`RotateOutcome`; `fmt.Sprintf` is a parameter.
-/

namespace Log

def DebugLevel : Int := 0
def InfoLevel : Int := 1
def WarnLevel : Int := 2
def ErrorLevel : Int := 3
def FatalLevel : Int := 4

structure logMesg where
  Level : Int
  Mesg : String
deriving DecidableEq, Repr

structure consoleHandler where
  level : Int
  /-- the arguments of the `h.logger.Println` calls so far -/
  printed : List String
deriving DecidableEq, Repr

structure fileHandler where
  level : Int
  /-- whether `h.logger` is set (not nil) -/
  logger : Bool
  isRollingFile : Bool
  /-- the arguments of the `h.logger.Println` calls so far -/
  printed : List String
deriving DecidableEq, Repr

/-- What a call of `fileHandler.Rotate` finds: `isRotate()` false; `rotate()`
returning nil, with the new log file open; `rotate()` returning an error, with
`h.logger` as it was. -/
inductive RotateOutcome
  | notDue
  | done
  | failed (err : String)
deriving DecidableEq, Repr

/-- Whether the rotation failed. -/
def RotateOutcome.isFailed : RotateOutcome → Bool
  | RotateOutcome.failed _ => true
  | _ => false

/-- `consoleHandler.Write`, lines 163-167. -/
def consoleHandler.Write (h : consoleHandler) (lm : logMesg) : consoleHandler :=
  if h.level ≤ lm.Level then { h with printed := h.printed ++ [lm.Mesg] } else h

/-- `consoleHandler.Rotate`, lines 169-171. -/
def consoleHandler.Rotate (h : consoleHandler) : consoleHandler := h

/-- `fileHandler.Write`, lines 264-272. -/
def fileHandler.Write (h : fileHandler) (lm : logMesg) : fileHandler :=
  if h.logger = false then h
  else if h.level ≤ lm.Level then { h with printed := h.printed ++ [lm.Mesg] } else h

/-- `fileHandler.write`, lines 274-283. -/
def fileHandler.write (Sprintf : String → List String → String) (h : fileHandler) (level : Int)
    (format : String) (v : List String) : fileHandler :=
  if h.logger = false then h
  else if h.level ≤ level then
    { h with printed := h.printed ++ [Sprintf ("[DEBUG] " ++ format) v] }
  else h

/-- `fileHandler.Rotate`, lines 301-311. -/
def fileHandler.Rotate (Sprintf : String → List String → String) (h : fileHandler)
    (outcome : RotateOutcome) : fileHandler :=
  if h.isRollingFile = false then h
  else
    match outcome with
    | RotateOutcome.notDue => h
    | RotateOutcome.done => { h with logger := true }
    | RotateOutcome.failed err => h.write Sprintf ErrorLevel "rotate log file err %s" [err]

/-- The two implementations of the `loggerHandler` interface. -/
inductive loggerHandler
  | console (h : consoleHandler)
  | file (h : fileHandler)
deriving DecidableEq, Repr

def loggerHandler.Write : loggerHandler → logMesg → loggerHandler
  | loggerHandler.console h, lm => loggerHandler.console (h.Write lm)
  | loggerHandler.file h, lm => loggerHandler.file (h.Write lm)

def loggerHandler.Rotate (Sprintf : String → List String → String) :
    loggerHandler → RotateOutcome → loggerHandler
  | loggerHandler.console h, _ => loggerHandler.console h.Rotate
  | loggerHandler.file h, outcome => loggerHandler.file (h.Rotate Sprintf outcome)

/-- The arguments of the `Println` calls of a handler so far. -/
def loggerHandler.printed : loggerHandler → List String
  | loggerHandler.console h => h.printed
  | loggerHandler.file h => h.printed

structure LoggerImp where
  level : Int
  /-- the messages in the channel, oldest first -/
  mesgs : List logMesg
  /-- the handlers of the map `outputs` -/
  outputs : List loggerHandler
deriving DecidableEq, Repr

/-- The loop of `writeMesg` over the handlers, lines 106-108, each `Rotate` with
what it finds (nothing due when the list of outcomes is used up). -/
def rotateAll (Sprintf : String → List String → String) :
    List loggerHandler → List RotateOutcome → List loggerHandler
  | [], _ => []
  | h :: hs, [] => h.Rotate Sprintf RotateOutcome.notDue :: rotateAll Sprintf hs []
  | h :: hs, o :: os => h.Rotate Sprintf o :: rotateAll Sprintf hs os

/-- `writeMesg`, lines 101-118. -/
def LoggerImp.writeMesg (Sprintf : String → List String → String) (l : LoggerImp)
    (outcomes : List RotateOutcome) (mesg : String) (level : Int) : LoggerImp :=
  if l.level > level then l
  else
    { l with
      outputs := rotateAll Sprintf l.outputs outcomes
      mesgs := l.mesgs ++ [{ Level := level, Mesg := mesg }] }

/-- `Debug`, lines 120-123. -/
def LoggerImp.Debug (Sprintf : String → List String → String) (l : LoggerImp)
    (outcomes : List RotateOutcome) (format : String) (v : List String) : LoggerImp :=
  l.writeMesg Sprintf outcomes (Sprintf ("[DEBUG] " ++ format) v) DebugLevel

/-- `Info`, lines 125-128. -/
def LoggerImp.Info (Sprintf : String → List String → String) (l : LoggerImp)
    (outcomes : List RotateOutcome) (format : String) (v : List String) : LoggerImp :=
  l.writeMesg Sprintf outcomes (Sprintf ("[INFO] " ++ format) v) InfoLevel

/-- `Warn`, lines 130-133. -/
def LoggerImp.Warn (Sprintf : String → List String → String) (l : LoggerImp)
    (outcomes : List RotateOutcome) (format : String) (v : List String) : LoggerImp :=
  l.writeMesg Sprintf outcomes (Sprintf ("[WARN] " ++ format) v) WarnLevel

/-- `Error`, lines 135-138. -/
def LoggerImp.Error (Sprintf : String → List String → String) (l : LoggerImp)
    (outcomes : List RotateOutcome) (format : String) (v : List String) : LoggerImp :=
  l.writeMesg Sprintf outcomes (Sprintf ("[ERROR] " ++ format) v) ErrorLevel

/-- `Fatal`, lines 140-143. -/
def LoggerImp.Fatal (Sprintf : String → List String → String) (l : LoggerImp)
    (outcomes : List RotateOutcome) (format : String) (v : List String) : LoggerImp :=
  l.writeMesg Sprintf outcomes (Sprintf ("[FATAL] " ++ format) v) FatalLevel

/-- One pass of the loop of `run`, lines 90-99: with the channel empty it waits. -/
def LoggerImp.runStep (l : LoggerImp) : LoggerImp :=
  match l.mesgs with
  | [] => l
  | mesg :: rest => { l with mesgs := rest, outputs := l.outputs.map (fun h => h.Write mesg) }

/-- `k` passes of the loop of `run`. -/
def LoggerImp.runSteps : Nat → LoggerImp → LoggerImp
  | 0, l => l
  | k + 1, l => LoggerImp.runSteps k l.runStep

/-! ## Stating the properties -/

/-- `fmt.Sprintf` copies a level tag, which has no verb in it, to the front of
what it makes of the rest of the format. -/
def CopiesTags (Sprintf : String → List String → String) : Prop :=
  ∀ tag ∈ ["[DEBUG] ", "[INFO] ", "[WARN] ", "[ERROR] ", "[FATAL] "],
    ∀ format v, Sprintf (tag ++ format) v = tag ++ Sprintf format v

/-- A handler of level Debug that prints: a console handler, or a file handler
whose logger is set. -/
def loggerHandler.DebugOpen : loggerHandler → Prop
  | loggerHandler.console h => h.level = DebugLevel
  | loggerHandler.file h => h.level = DebugLevel ∧ h.logger = true

/-- No rotation of the list fails. -/
def NoneFailed (outcomes : List RotateOutcome) : Prop := ∀ o ∈ outcomes, o.isFailed = false

/-- The test of the package: one call each of `Debug`, `Info`, `Warn`, `Error`
and `Fatal`, with `k0`, ..., `k4` passes of `run` before them and `k5` after. -/
def fiveCalls (Sprintf : String → List String → String) (l : LoggerImp)
    (k0 k1 k2 k3 k4 k5 : Nat) (r1 r2 r3 r4 r5 : List RotateOutcome)
    (f1 f2 f3 f4 f5 : String) (v1 v2 v3 v4 v5 : List String) : LoggerImp :=
  let l := (LoggerImp.runSteps k0 l).Debug Sprintf r1 f1 v1
  let l := (LoggerImp.runSteps k1 l).Info Sprintf r2 f2 v2
  let l := (LoggerImp.runSteps k2 l).Warn Sprintf r3 f3 v3
  let l := (LoggerImp.runSteps k3 l).Error Sprintf r4 f4 v4
  let l := (LoggerImp.runSteps k4 l).Fatal Sprintf r5 f5 v5
  LoggerImp.runSteps k5 l

/-- `fmt.Sprintf` on the characters of a format whose only verbs are `%s`, with
a string argument for each of them. -/
def sprintfChars : List Char → List String → List Char
  | [], _ => []
  | [c], _ => [c]
  | c :: d :: rest, v =>
    if c = '%' ∧ d = 's' then
      match v with
      | a :: v => a.data ++ sprintfChars rest v
      | [] => c :: sprintfChars (d :: rest) v
    else c :: sprintfChars (d :: rest) v

/-- `fmt.Sprintf` for the formats of the examples. -/
def sampleSprintf (format : String) (v : List String) : String :=
  String.mk (sprintfChars format.data v)

end Log

/-! # Properties of the DNS resolver -/

namespace Dns

/-! ## Basic facts about the wire primitives -/

theorem uint16_toByte (v : Nat) (h : v < 65536) : uint16 (toByte (v / 256)) (toByte v) = v := by
  simp only [uint16, toByte]
  omega

theorem uint32_toByte (v : Nat) (h : v < 4294967296) :
    uint32 (toByte (v / 16777216)) (toByte (v / 65536)) (toByte (v / 256)) (toByte v) = v := by
  simp only [uint32, toByte]
  omega

theorem writeHeader_length (h : dnsHeader) : (writeHeader h).length = 12 := rfl

theorem writeRR_length (rr : dnsRR) : (writeRR rr).length = 12 := rfl

theorem binaryRead_append (xs rest : List Byte) :
    binaryRead (xs ++ rest) xs.length = (some xs, rest) := by
  simp [binaryRead]

theorem binaryRead_append_len (xs rest : List Byte) (n : Nat) (h : xs.length = n) :
    binaryRead (xs ++ rest) n = (some xs, rest) := by
  subst h
  exact binaryRead_append xs rest

theorem readHeader_writeHeader (old h : dnsHeader) (hwf : h.WF) :
    readHeader old (some (writeHeader h)) = h := by
  obtain ⟨h1, h2, h3, h4, h5, h6⟩ := hwf
  cases h
  simp only [writeHeader, putUint16, List.cons_append, List.nil_append, readHeader] at *
  simp only [uint16_toByte, *]

theorem readRR_writeRR (old rr : dnsRR) (hwf : rr.WF) : readRR old (some (writeRR rr)) = rr := by
  obtain ⟨h1, h2, h3, h4, h5⟩ := hwf
  cases rr
  simp only [writeRR, putUint16, putUint32, List.cons_append, List.nil_append, readRR] at *
  simp only [uint16_toByte, uint32_toByte, *]

theorem foldl_segments (segs : List (List Byte)) (acc : List Byte) :
    segs.foldl (fun buffer seg => buffer ++ [toByte seg.length] ++ seg) acc =
      acc ++ segs.flatMap (fun seg => toByte seg.length :: seg) := by
  induction segs generalizing acc with
  | nil => simp
  | cons seg segs ih =>
    simp only [List.foldl_cons, List.flatMap_cons]
    rw [ih]
    simp [List.append_assoc]

theorem Split_ne_nil (s : List Byte) : Split s ≠ [] := by
  cases s with
  | nil => simp [Split]
  | cons b rest =>
    simp only [Split]
    split
    · simp
    · split <;> simp

/-- `Split` cuts at every `'.'` and nowhere else: joining the pieces with `'.'`
gives the string back. -/
theorem Split_intercalate (s : List Byte) : List.intercalate [46] (Split s) = s := by
  induction s with
  | nil => simp [Split, List.intercalate]
  | cons b rest ih =>
    simp only [Split]
    split
    · rename_i hb
      have hne := Split_ne_nil rest
      cases hs : Split rest with
      | nil => exact absurd hs hne
      | cons seg segs =>
        rw [hs] at ih
        simp only [List.intercalate, List.intersperse, List.flatten, List.nil_append] at ih ⊢
        rw [hb]
        simpa using ih
    · cases hs : Split rest with
      | nil => exact absurd hs (Split_ne_nil rest)
      | cons seg segs =>
        rw [hs] at ih
        cases segs with
        | nil => simpa [List.intercalate] using ih
        | cons seg2 segs2 =>
          simp only [List.intercalate, List.intersperse, List.flatten, List.cons_append] at ih ⊢
          rw [ih]

/-- No piece of `Split` contains a `'.'`. -/
theorem Split_no_dot (s : List Byte) : ∀ seg ∈ Split s, (46 : Byte) ∉ seg := by
  induction s with
  | nil => simp [Split]
  | cons b rest ih =>
    simp only [Split]
    split
    · intro seg hseg
      rcases List.mem_cons.1 hseg with h | h
      · simp [h]
      · exact ih seg h
    · rename_i hb
      cases hs : Split rest with
      | nil => exact absurd hs (Split_ne_nil rest)
      | cons seg0 segs =>
        rw [hs] at ih
        intro seg hseg
        rcases List.mem_cons.1 hseg with h | h
        · subst h
          intro hmem
          rcases List.mem_cons.1 hmem with h1 | h1
          · exact hb h1.symm
          · exact ih seg0 (List.mem_cons_self _ _) h1
        · exact ih seg (List.mem_cons_of_mem _ h)

theorem Dig_ret_of_Received (env : Env) (dnsServer : String) (domain : List Byte)
    (timeout : Int) (reply : List Byte) (h : Received env dnsServer reply) :
    (Dig env dnsServer domain timeout).ret =
      some (decode (requestHeader env.id) ⟨"", domain, dnsServer, false, false⟩
        (parseDomainName domain) env.digTime reply) := by
  obtain ⟨hd, hw, resLen, hr⟩ := h
  simp only [Dig, hd, hw, hr]

theorem Received_oneDatagram (id : Nat) (dnsServer : String) (datagram : List Byte)
    (h : datagram.length < 1024) :
    Received (Env.oneDatagram id datagram) dnsServer
      (datagram ++ List.replicate (1024 - datagram.length) 0) := by
  refine ⟨rfl, rfl, datagram.length, ?_⟩
  have h1 : min datagram.length 1024 = datagram.length := by omega
  have h2 : List.take 1024 datagram = datagram := List.take_of_length_le (by omega)
  simp only [Env.oneDatagram, readLoop, h1, h2, if_pos h, List.nil_append, List.drop_replicate,
    Nat.zero_add]

theorem requestHeader_eq (id : Nat) :
    requestHeader id = ⟨id % 65536, 0x0100, 1, 0, 0, 0⟩ := by
  simp [requestHeader, dnsHeader.SetFlag]

/-- The decoder on a reply that starts with a well-formed header: the header
checks are made on that header, the rest is decoded from the bytes after it. -/
theorem decode_writeHeader (rq : dnsHeader) (dnsErr : DNSError) (domainBytes : List Byte)
    (digTime : Nat) (h : dnsHeader) (rest : List Byte) (hwf : h.WF) :
    decode rq dnsErr domainBytes digTime (writeHeader h ++ rest) =
      if rq.Id ≠ h.Id then
        Except.error { dnsErr with Err := "DNS response id and request id is not eq" }
      else if h.ResponseCode ≠ 0 then
        Except.error { dnsErr with Err := "DNS response error, code: " ++ Itoa h.ResponseCode }
      else if h.Qdcount ≠ 1 then
        Except.error { dnsErr with Err := "DNS response question number != 1" }
      else if h.Ancount < 1 then
        Except.error { dnsErr with Err := "DNS response answer number < 1" }
      else
        Except.ok (answerLoop h.Ancount
          { buffer := (questionLoop domainBytes.length h.Qdcount
              (rest, List.replicate domainBytes.length 0, ⟨0, 0⟩)).1,
            rr := dnsRR.zero, ip := [0, 0, 0, 0],
            res := { ips := [], ttl := 4294967295, time := digTime } }).res := by
  unfold decode
  rw [binaryRead_append_len (writeHeader h) rest 12 (writeHeader_length h)]
  simp only [readHeader_writeHeader _ h hwf]

theorem ResponseCode_eq_mod (h : dnsHeader) : h.ResponseCode = h.Bits % 16 :=
  Nat.and_pow_two_sub_one_eq_mod h.Bits 4

/-! ## Every received buffer starts with a header -/

theorem toByte_uint16_hi (a b : Byte) : toByte (uint16 a b / 256) = a := by
  apply Fin.ext
  have ha := a.isLt
  have hb := b.isLt
  simp only [toByte, uint16]
  omega

theorem toByte_uint16_lo (a b : Byte) : toByte (uint16 a b) = b := by
  apply Fin.ext
  have ha := a.isLt
  have hb := b.isLt
  simp only [toByte, uint16]
  omega

theorem uint16_lt (a b : Byte) : uint16 a b < 65536 := by
  have ha := a.isLt
  have hb := b.isLt
  simp only [uint16]
  omega

theorem header_of_twelve (l : List Byte) (hl : l.length = 12) :
    ∃ h : dnsHeader, h.WF ∧ l = writeHeader h := by
  match l, hl with
  | [i0, i1, f0, f1, q0, q1, a0, a1, n0, n1, r0, r1], _ =>
    refine ⟨⟨uint16 i0 i1, uint16 f0 f1, uint16 q0 q1, uint16 a0 a1, uint16 n0 n1,
      uint16 r0 r1⟩, ⟨uint16_lt _ _, uint16_lt _ _, uint16_lt _ _, uint16_lt _ _,
      uint16_lt _ _, uint16_lt _ _⟩, ?_⟩
    simp only [writeHeader, putUint16, toByte_uint16_hi, toByte_uint16_lo, List.cons_append,
      List.nil_append]

/-- A buffer of at least twelve bytes is a well-formed header followed by the rest. -/
theorem header_of_reply (reply : List Byte) (hl : 12 ≤ reply.length) :
    ∃ (h : dnsHeader) (rest : List Byte), h.WF ∧ reply = writeHeader h ++ rest := by
  obtain ⟨h, hwf, hh⟩ := header_of_twelve (reply.take 12) (by simp; omega)
  exact ⟨h, reply.drop 12, hwf, by rw [← hh, List.take_append_drop]⟩

theorem readLoop_length (reads : List (Except String (List Byte))) :
    ∀ (buf buffer : List Byte) (resLen : Nat) (reply : List Byte) (n : Nat),
      buf.length = 1024 → readLoop reads buf buffer resLen = some (Except.ok (reply, n)) →
      buffer.length + 1024 ≤ reply.length := by
  induction reads with
  | nil => intro buf buffer resLen reply n _ h; simp [readLoop] at h
  | cons r reads ih =>
    intro buf buffer resLen reply n hbuf h
    cases r with
    | error e => simp [readLoop] at h
    | ok data =>
      have hlen : (data.take 1024 ++ buf.drop (min data.length 1024)).length = 1024 := by
        simp only [List.length_append, List.length_take, List.length_drop, hbuf]
        omega
      simp only [readLoop] at h
      split at h
      · simp only [Option.some.injEq, Except.ok.injEq, Prod.mk.injEq] at h
        rw [← h.1, List.length_append, hlen]
      · have := ih _ _ _ reply n hlen h
        rw [List.length_append, hlen] at this
        omega

/-- The buffer the decoder gets holds at least 1024 bytes: every read appends
the whole receive buffer. -/
theorem Received_length (env : Env) (dnsServer : String) (reply : List Byte)
    (h : Received env dnsServer reply) : 1024 ≤ reply.length := by
  obtain ⟨_, _, n, hr⟩ := h
  have := readLoop_length env.reads _ [] 0 reply n (List.length_replicate 1024 0) hr
  simpa using this

/-! ## The loops on well-formed input -/

theorem questionLoop_one (nameLen : Nat) (q rest name : List Byte) (rq : dnsQuery)
    (hq : q.length = nameLen + 4) :
    (questionLoop nameLen 1 (q ++ rest, name, rq)).1 = rest := by
  have h1 : (q.take nameLen).length = nameLen := by simp [hq]
  have h2 : (q.drop nameLen).length = 4 := by simp [hq]
  have hsplit : q ++ rest = q.take nameLen ++ (q.drop nameLen ++ rest) := by
    rw [← List.append_assoc, List.take_append_drop]
  simp only [questionLoop]
  rw [hsplit, binaryRead_append_len _ _ nameLen h1]
  simp only [binaryRead_append_len _ rest 4 h2]

/-- A record of another type than A: its twelve header bytes and its data bytes
are consumed, nothing is added to `ips`. -/
theorem answerStep_other (s : AnswerState) (rr : dnsRR) (data rest : List Byte)
    (hwf : rr.WF) (ht : rr.Type_ ≠ 1) (hd : data.length = rr.DataLen)
    (hb : s.buffer = writeRR rr ++ data ++ rest) :
    answerStep s =
      { buffer := rest, rr := rr, ip := s.ip,
        res := { s.res with ttl := if rr.TTL < s.res.ttl then rr.TTL else s.res.ttl } } := by
  unfold answerStep
  rw [hb, List.append_assoc, binaryRead_append_len (writeRR rr) _ 12 (writeRR_length rr)]
  simp only [readRR_writeRR _ rr hwf, ne_eq, ht, not_false_eq_true, if_true]
  rw [binaryRead_append_len data rest _ hd]
  split <;> rfl

/-- An A record with rdlength 4: header and address are consumed and the dotted
quad is appended to `ips`. -/
theorem answerStep_A (s : AnswerState) (rr : dnsRR) (a b c d : Byte) (rest : List Byte)
    (hwf : rr.WF) (ht : rr.Type_ = 1) (hl : rr.DataLen = 4)
    (hb : s.buffer = writeRR rr ++ [a, b, c, d] ++ rest) :
    answerStep s =
      { buffer := rest, rr := rr, ip := [a, b, c, d],
        res := { ips := s.res.ips ++ [dottedQuad a b c d],
                 ttl := if rr.TTL < s.res.ttl then rr.TTL else s.res.ttl,
                 time := s.res.time } } := by
  unfold answerStep
  rw [hb, List.append_assoc, binaryRead_append_len (writeRR rr) _ 12 (writeRR_length rr)]
  simp only [readRR_writeRR _ rr hwf, ne_eq, ht, hl, not_true_eq_false, if_false]
  rw [binaryRead_append_len [a, b, c, d] rest 4 rfl]
  simp only [readBytes, IPv4String, dottedQuad, List.getD_cons_zero, List.getD_cons_succ]
  split <;> rfl

/-- An A record whose rdlength is not 4: only the twelve header bytes are
consumed, the data bytes stay in the buffer. -/
theorem answerStep_badA (s : AnswerState) (rr : dnsRR) (rest : List Byte)
    (hwf : rr.WF) (ht : rr.Type_ = 1) (hl : rr.DataLen ≠ 4)
    (hb : s.buffer = writeRR rr ++ rest) :
    answerStep s =
      { buffer := rest, rr := rr, ip := s.ip,
        res := { s.res with ttl := if rr.TTL < s.res.ttl then rr.TTL else s.res.ttl } } := by
  unfold answerStep
  rw [hb, binaryRead_append_len (writeRR rr) _ 12 (writeRR_length rr)]
  simp only [readRR_writeRR _ rr hwf, ne_eq, ht, hl, not_true_eq_false, not_false_eq_true,
    if_false, if_true]
  split <;> rfl

theorem length_four (l : List Byte) (h : l.length = 4) : ∃ a b c d, l = [a, b, c, d] := by
  match l, h with
  | [a, b, c, d], _ => exact ⟨a, b, c, d, rfl⟩

theorem minTTL_cons (t : Nat) (r : Record) (recs : List Record) :
    minTTL t (r :: recs) = minTTL (if r.rr.TTL < t then r.rr.TTL else t) recs := rfl

theorem addrs_cons_A (r : Record) (recs : List Record) (h : r.rr.Type_ = 1) :
    addrs (r :: recs) = IPv4String r.data :: addrs recs := by
  simp [addrs, h]

theorem addrs_cons_other (r : Record) (recs : List Record) (h : r.rr.Type_ ≠ 1) :
    addrs (r :: recs) = addrs recs := by
  simp [addrs, h]

/-- The answer loop over complete records: all of them are consumed, the A
records give their addresses in order and the running minimum is taken over all
of them. -/
theorem answerLoop_complete (recs : List Record) :
    ∀ (s : AnswerState) (rest : List Byte), (∀ r ∈ recs, r.Complete) →
      s.buffer = recs.flatMap Record.wire ++ rest →
      (answerLoop recs.length s).buffer = rest ∧
        (answerLoop recs.length s).res =
          { ips := s.res.ips ++ addrs recs, ttl := minTTL s.res.ttl recs, time := s.res.time } := by
  induction recs with
  | nil =>
    intro s rest _ hb
    simp only [List.flatMap_nil, List.nil_append] at hb
    simp [answerLoop, hb, addrs, minTTL]
  | cons r recs ih =>
    intro s rest hall hb
    have hr : r.Complete := hall r (List.mem_cons_self _ _)
    have hrest : ∀ x ∈ recs, x.Complete := fun x hx => hall x (List.mem_cons_of_mem _ hx)
    simp only [List.flatMap_cons, Record.wire, List.append_assoc] at hb
    simp only [List.length_cons, answerLoop]
    obtain ⟨hwf, hcase⟩ := hr
    rcases hcase with ⟨ht, hd⟩ | ⟨ht, hl, hd⟩
    · have hstep := answerStep_other s r.rr r.data (recs.flatMap Record.wire ++ rest) hwf ht hd
        (by rw [hb, List.append_assoc])
      have := ih (answerStep s) rest hrest (by rw [hstep])
      rw [this.1, this.2, hstep, minTTL_cons, addrs_cons_other r recs ht]
      exact ⟨rfl, rfl⟩
    · obtain ⟨a, b, c, d, hdata⟩ := length_four r.data hd
      have hstep := answerStep_A s r.rr a b c d (recs.flatMap Record.wire ++ rest) hwf ht hl
        (by rw [hb, hdata, List.append_assoc])
      have := ih (answerStep s) rest hrest (by rw [hstep])
      rw [this.1, this.2, hstep, minTTL_cons, addrs_cons_A r recs ht, hdata]
      refine ⟨rfl, ?_⟩
      simp only [List.append_assoc, List.singleton_append]
      rfl

theorem minTTL_le_init (recs : List Record) : ∀ t, minTTL t recs ≤ t := by
  induction recs with
  | nil => intro t; exact Nat.le_refl t
  | cons r recs ih =>
    intro t
    rw [minTTL_cons]
    by_cases hlt : r.rr.TTL < t
    · rw [if_pos hlt]
      have := ih r.rr.TTL
      omega
    · rw [if_neg hlt]
      exact ih t

theorem minTTL_le (recs : List Record) : ∀ t, ∀ r ∈ recs, minTTL t recs ≤ r.rr.TTL := by
  induction recs with
  | nil => intro t r hr; cases hr
  | cons x recs ih =>
    intro t r hr
    rw [minTTL_cons]
    rcases List.mem_cons.1 hr with h | h
    · subst h
      by_cases hlt : r.rr.TTL < t
      · rw [if_pos hlt]
        exact minTTL_le_init recs r.rr.TTL
      · rw [if_neg hlt]
        have := minTTL_le_init recs t
        omega
    · exact ih _ r h

theorem minTTL_mem (recs : List Record) :
    ∀ t, minTTL t recs = t ∨ ∃ r ∈ recs, minTTL t recs = r.rr.TTL := by
  induction recs with
  | nil => intro t; exact Or.inl rfl
  | cons x recs ih =>
    intro t
    rw [minTTL_cons]
    rcases ih (if x.rr.TTL < t then x.rr.TTL else t) with h | ⟨r, hr, h⟩
    · by_cases hlt : x.rr.TTL < t
      · rw [if_pos hlt] at h ⊢
        exact Or.inr ⟨x, List.mem_cons_self _ _, h⟩
      · rw [if_neg hlt] at h ⊢
        exact Or.inl h
    · exact Or.inr ⟨r, List.mem_cons_of_mem _ hr, h⟩

/-- `Dig` on a reply that passes the four header checks and whose question echo
and answer records are complete. -/
theorem Dig_complete (env : Env) (dnsServer : String) (domain : List Byte) (timeout : Int)
    (reply : List Byte) (h : dnsHeader) (q : List Byte) (recs : List Record) (rest : List Byte)
    (hrecv : Received env dnsServer reply) (hwf : h.WF)
    (hreply : reply = writeHeader h ++ q ++ recs.flatMap Record.wire ++ rest)
    (hid : h.Id = env.id % 65536) (hc : h.Bits % 16 = 0) (hqd : h.Qdcount = 1)
    (han : h.Ancount = recs.length) (hne : 1 ≤ recs.length)
    (hq : q.length = (parseDomainName domain).length + 4)
    (hrecs : ∀ r ∈ recs, r.Complete) :
    (Dig env dnsServer domain timeout).ret =
      some (Except.ok
        { ips := addrs recs, ttl := minTTL 4294967295 recs, time := env.digTime }) := by
  have hrc : h.ResponseCode = 0 := by rw [ResponseCode_eq_mod, hc]
  rw [Dig_ret_of_Received env dnsServer domain timeout reply hrecv, hreply,
    List.append_assoc, List.append_assoc,
    decode_writeHeader _ _ _ _ h _ hwf, requestHeader_eq]
  rw [if_neg (fun hh => hh hid.symm), if_neg (fun hh => hh hrc), if_neg (fun hh => hh hqd),
    if_neg (by omega), hqd, questionLoop_one _ q _ _ _ hq, han]
  have := answerLoop_complete recs
    { buffer := recs.flatMap Record.wire ++ rest, rr := dnsRR.zero, ip := [0, 0, 0, 0],
      res := { ips := [], ttl := 4294967295, time := env.digTime } } rest hrecs rfl
  rw [this.2]
  simp

/-! ## The claims -/

/-- C1: for a domain whose segments are each at most 255 bytes long,
`parseDomainName` gives, segment by segment, one byte holding the segment's
length followed by the segment's bytes, and one zero byte at the end;
`"a.b.com"` becomes `01 'a' 01 'b' 03 'c' 'o' 'm' 00`. -/
theorem C1_parseDomainName_labels (domain : List Byte)
    (hseg : ∀ seg ∈ Split domain, seg.length ≤ 255) :
    (parseDomainName domain).map Fin.val =
        (Split domain).flatMap (fun seg => seg.length :: seg.map Fin.val) ++ [0] ∧
      parseDomainName (ascii "a.b.com") = [1, 97, 1, 98, 3, 99, 111, 109, 0] := by
  refine ⟨?_, by decide⟩
  simp only [parseDomainName, foldl_segments, List.nil_append, List.map_append,
    List.map_flatMap, List.map_cons, List.map_nil]
  congr 1
  · generalize Split domain = segs at hseg
    induction segs with
    | nil => rfl
    | cons seg segs ih =>
      have h1 : seg.length ≤ 255 := hseg seg (List.mem_cons_self _ _)
      have h2 : (toByte seg.length).val = seg.length := by
        simp only [toByte]
        omega
      simp only [List.flatMap_cons, h2]
      rw [ih (fun s hs => hseg s (List.mem_cons_of_mem _ hs))]

theorem C1_parseDomainName_labels_witness :
    (parseDomainName (ascii "www.example.com")).map Fin.val =
      (Split (ascii "www.example.com")).flatMap (fun seg => seg.length :: seg.map Fin.val) ++ [0]
    ∧ parseDomainName (ascii "www.example.com") =
      [3, 119, 119, 119, 7, 101, 120, 97, 109, 112, 108, 101, 3, 99, 111, 109, 0] :=
  ⟨(C1_parseDomainName_labels (ascii "www.example.com") (by decide)).1, by decide⟩

/-- C2: the query handed to the socket is the 12-byte header (id, flags 0x0100,
qdcount 1, the other counts 0, big-endian), then `parseDomainName domain`, then
`00 01 00 01`; it is `16 + len(parseDomainName domain)` bytes long. -/
theorem C2_query_bytes (env : Env) (dnsServer : String) (domain : List Byte) (timeout : Int)
    (hdial : env.dial (dnsServer ++ ":53") = none) (hid : env.id < 65536) :
    ∃ query, (Dig env dnsServer domain timeout).sent = some query ∧
      query = [toByte (env.id / 256), toByte env.id, 0x01, 0x00, 0x00, 0x01,
          0x00, 0x00, 0x00, 0x00, 0x00, 0x00] ++ parseDomainName domain ++ [0x00, 0x01, 0x00, 0x01] ∧
      query = writeHeader ⟨env.id, 0x0100, 1, 0, 0, 0⟩ ++ parseDomainName domain ++
          writeQuery ⟨1, 1⟩ ∧
      query.length = 16 + (parseDomainName domain).length := by
  have hmod : env.id % 65536 = env.id := Nat.mod_eq_of_lt hid
  have hsent : (Dig env dnsServer domain timeout).sent =
      some (writeHeader ⟨env.id, 0x0100, 1, 0, 0, 0⟩ ++ parseDomainName domain ++
        writeQuery ⟨1, 1⟩) := by
    simp only [Dig, hdial, requestHeader_eq, hmod, requestQuery]
    cases env.write with
    | some e => rfl
    | none =>
      cases readLoop env.reads (List.replicate 1024 0) [] 0 with
      | none => rfl
      | some r =>
        cases r with
        | error e => rfl
        | ok v => rfl
  have e1 : putUint16 256 = [1, 0] := by decide
  have e2 : putUint16 1 = [0, 1] := by decide
  have e3 : putUint16 0 = [0, 0] := by decide
  refine ⟨_, hsent, ?_, rfl, ?_⟩
  · simp only [writeHeader, writeQuery, e1, e2, e3]
    simp only [putUint16, List.cons_append, List.nil_append]
  · simp only [List.length_append, writeHeader_length, writeQuery, e2, List.length_cons,
      List.length_nil]
    omega

theorem C2_query_bytes_witness :
    ∃ query, (Dig (Env.oneDatagram 0x1234 []) "8.8.8.8" (ascii "a.b.com") 3).sent = some query ∧
      query = [toByte (0x1234 / 256), toByte 0x1234, 0x01, 0x00, 0x00, 0x01,
          0x00, 0x00, 0x00, 0x00, 0x00, 0x00] ++ parseDomainName (ascii "a.b.com") ++
          [0x00, 0x01, 0x00, 0x01] ∧
      query = writeHeader ⟨0x1234, 0x0100, 1, 0, 0, 0⟩ ++ parseDomainName (ascii "a.b.com") ++
          writeQuery ⟨1, 1⟩ ∧
      query.length = 16 + (parseDomainName (ascii "a.b.com")).length :=
  C2_query_bytes (Env.oneDatagram 0x1234 []) "8.8.8.8" (ascii "a.b.com") 3 rfl (by decide)

/-- C3: a reply whose header id differs from the request id makes `Dig` fail
with "DNS response id and request id is not eq" and return no response,
whatever else the reply holds. -/
theorem C3_id_mismatch (env : Env) (dnsServer : String) (domain : List Byte) (timeout : Int)
    (reply : List Byte) (h : dnsHeader) (rest : List Byte)
    (hrecv : Received env dnsServer reply) (hwf : h.WF) (hreply : reply = writeHeader h ++ rest)
    (hid : h.Id ≠ env.id % 65536) :
    (Dig env dnsServer domain timeout).ret =
      some (Except.error
        ⟨"DNS response id and request id is not eq", domain, dnsServer, false, false⟩) := by
  rw [Dig_ret_of_Received env dnsServer domain timeout reply hrecv, hreply,
    decode_writeHeader _ _ _ _ h rest hwf, requestHeader_eq]
  rw [if_pos (fun hh => hid hh.symm)]

set_option maxRecDepth 100000 in
theorem C3_id_mismatch_witness :
    (Dig (Env.oneDatagram 7 (replyOf ⟨8, 0x8180, 1, 1, 0, 0⟩ (ascii "a.b.com") [recA 300 1 2 3 4]))
        "8.8.8.8" (ascii "a.b.com") 3).ret =
      some (Except.error
        ⟨"DNS response id and request id is not eq", ascii "a.b.com", "8.8.8.8", false, false⟩) :=
  C3_id_mismatch (Env.oneDatagram 7 (replyOf ⟨8, 0x8180, 1, 1, 0, 0⟩ (ascii "a.b.com") [recA 300 1 2 3 4]))
    "8.8.8.8" (ascii "a.b.com") 3
    (padded (replyOf ⟨8, 0x8180, 1, 1, 0, 0⟩ (ascii "a.b.com") [recA 300 1 2 3 4]))
    ⟨8, 0x8180, 1, 1, 0, 0⟩
    ((padded (replyOf ⟨8, 0x8180, 1, 1, 0, 0⟩ (ascii "a.b.com") [recA 300 1 2 3 4])).drop 12)
    (Received_oneDatagram 7 "8.8.8.8" _ (by decide)) (by decide) (by decide) (by decide)

/-- C4: a reply whose header id matches and whose Rcode (the low four bits of
the flags) is `c ≠ 0` makes `Dig` fail with the message "DNS response error,
code: " followed by `c` in decimal; `c` is between 1 and 15 and is read back
from the message. -/
theorem C4_response_code (env : Env) (dnsServer : String) (domain : List Byte) (timeout : Int)
    (reply : List Byte) (h : dnsHeader) (rest : List Byte) (c : Nat)
    (hrecv : Received env dnsServer reply) (hwf : h.WF) (hreply : reply = writeHeader h ++ rest)
    (hid : h.Id = env.id % 65536) (hc : h.Bits % 16 = c) (hc0 : c ≠ 0) :
    (Dig env dnsServer domain timeout).ret =
        some (Except.error
          ⟨"DNS response error, code: " ++ Itoa c, domain, dnsServer, false, false⟩) ∧
      1 ≤ c ∧ c ≤ 15 ∧
      Atoi (("DNS response error, code: " ++ Itoa c).data.drop 26) = c := by
  have hrc : h.ResponseCode = c := by rw [ResponseCode_eq_mod, hc]
  have hlt : c < 16 := by omega
  refine ⟨?_, by omega, by omega, ?_⟩
  · rw [Dig_ret_of_Received env dnsServer domain timeout reply hrecv, hreply,
      decode_writeHeader _ _ _ _ h rest hwf, requestHeader_eq]
    rw [if_neg (fun hh => hh hid.symm), hrc, if_pos hc0]
  · clear hrc hc
    interval_cases c <;> decide

set_option maxRecDepth 100000 in
theorem C4_response_code_witness :
    (Dig (Env.oneDatagram 7 (headerOnly ⟨7, 0x8183, 1, 0, 0, 0⟩)) "8.8.8.8" (ascii "a.b.com") 3).ret =
        some (Except.error
          ⟨"DNS response error, code: 3", ascii "a.b.com", "8.8.8.8", false, false⟩) ∧
      Atoi ("DNS response error, code: 3".data.drop 26) = 3 :=
  have h := C4_response_code (Env.oneDatagram 7 (headerOnly ⟨7, 0x8183, 1, 0, 0, 0⟩))
    "8.8.8.8" (ascii "a.b.com") 3 (padded (headerOnly ⟨7, 0x8183, 1, 0, 0, 0⟩))
    ⟨7, 0x8183, 1, 0, 0, 0⟩ (List.replicate 1012 0) 3
    (Received_oneDatagram 7 "8.8.8.8" _ (by decide)) (by decide) (by decide) (by decide)
    (by decide) (by decide)
  ⟨h.1, h.2.2.2⟩

/-- C5 as stated fails: a reply with matching id, Rcode 0 and ancount 0 but
qdcount 0 is answered with the question-count error, not the no-answers one. -/
theorem C5_no_answers_counterexample :
    (⟨7, 0x8180, 0, 0, 0, 0⟩ : dnsHeader).Id = (requestHeader 7).Id ∧
      (⟨7, 0x8180, 0, 0, 0, 0⟩ : dnsHeader).ResponseCode = 0 ∧
      (⟨7, 0x8180, 0, 0, 0, 0⟩ : dnsHeader).Ancount = 0 ∧
      (Dig (Env.oneDatagram 7 (headerOnly ⟨7, 0x8180, 0, 0, 0, 0⟩)) "8.8.8.8" (ascii "a.b.com") 3).ret =
        some (Except.error
          ⟨"DNS response question number != 1", ascii "a.b.com", "8.8.8.8", false, false⟩) ∧
      (Dig (Env.oneDatagram 7 (headerOnly ⟨7, 0x8180, 0, 0, 0, 0⟩)) "8.8.8.8" (ascii "a.b.com") 3).ret ≠
        some (Except.error
          ⟨"DNS response answer number < 1", ascii "a.b.com", "8.8.8.8", false, false⟩) := by
  set_option maxRecDepth 100000 in decide

/-- C5 (amended): a reply whose header id matches, whose Rcode is 0 and whose
qdcount is 1 makes `Dig` fail with "DNS response answer number < 1" when its
ancount is 0. -/
theorem C5_no_answers (env : Env) (dnsServer : String) (domain : List Byte) (timeout : Int)
    (reply : List Byte) (h : dnsHeader) (rest : List Byte)
    (hrecv : Received env dnsServer reply) (hwf : h.WF) (hreply : reply = writeHeader h ++ rest)
    (hid : h.Id = env.id % 65536) (hc : h.Bits % 16 = 0) (hqd : h.Qdcount = 1)
    (han : h.Ancount = 0) :
    (Dig env dnsServer domain timeout).ret =
      some (Except.error
        ⟨"DNS response answer number < 1", domain, dnsServer, false, false⟩) := by
  have hrc : h.ResponseCode = 0 := by rw [ResponseCode_eq_mod, hc]
  rw [Dig_ret_of_Received env dnsServer domain timeout reply hrecv, hreply,
    decode_writeHeader _ _ _ _ h rest hwf, requestHeader_eq]
  rw [if_neg (fun hh => hh hid.symm), if_neg (fun hh => hh hrc), if_neg (fun hh => hh hqd),
    if_pos (by omega)]

set_option maxRecDepth 100000 in
theorem C5_no_answers_witness :
    (Dig (Env.oneDatagram 7 (writeHeader ⟨7, 0x8180, 1, 0, 0, 0⟩ ++ echo (ascii "a.b.com")))
        "8.8.8.8" (ascii "a.b.com") 3).ret =
      some (Except.error
        ⟨"DNS response answer number < 1", ascii "a.b.com", "8.8.8.8", false, false⟩) :=
  C5_no_answers (Env.oneDatagram 7 (writeHeader ⟨7, 0x8180, 1, 0, 0, 0⟩ ++ echo (ascii "a.b.com")))
    "8.8.8.8" (ascii "a.b.com") 3
    (padded (writeHeader ⟨7, 0x8180, 1, 0, 0, 0⟩ ++ echo (ascii "a.b.com")))
    ⟨7, 0x8180, 1, 0, 0, 0⟩
    ((padded (writeHeader ⟨7, 0x8180, 1, 0, 0, 0⟩ ++ echo (ascii "a.b.com"))).drop 12)
    (Received_oneDatagram 7 "8.8.8.8" _ (by decide)) (by decide) (by decide) (by decide)
    (by decide) (by decide) (by decide)

/-- C6: a reply whose header id matches, whose Rcode is 0 and whose qdcount is
not 1 makes `Dig` fail with "DNS response question number != 1", whatever its
ancount and records are. -/
theorem C6_question_count (env : Env) (dnsServer : String) (domain : List Byte) (timeout : Int)
    (reply : List Byte) (h : dnsHeader) (rest : List Byte)
    (hrecv : Received env dnsServer reply) (hwf : h.WF) (hreply : reply = writeHeader h ++ rest)
    (hid : h.Id = env.id % 65536) (hc : h.Bits % 16 = 0) (hqd : h.Qdcount ≠ 1) :
    (Dig env dnsServer domain timeout).ret =
      some (Except.error
        ⟨"DNS response question number != 1", domain, dnsServer, false, false⟩) := by
  have hrc : h.ResponseCode = 0 := by rw [ResponseCode_eq_mod, hc]
  rw [Dig_ret_of_Received env dnsServer domain timeout reply hrecv, hreply,
    decode_writeHeader _ _ _ _ h rest hwf, requestHeader_eq]
  rw [if_neg (fun hh => hh hid.symm), if_neg (fun hh => hh hrc), if_pos hqd]

set_option maxRecDepth 100000 in
theorem C6_question_count_witness :
    (Dig (Env.oneDatagram 7 (replyOf ⟨7, 0x8180, 2, 1, 0, 0⟩ (ascii "a.b.com") [recA 300 1 2 3 4]))
        "8.8.8.8" (ascii "a.b.com") 3).ret =
      some (Except.error
        ⟨"DNS response question number != 1", ascii "a.b.com", "8.8.8.8", false, false⟩) :=
  C6_question_count
    (Env.oneDatagram 7 (replyOf ⟨7, 0x8180, 2, 1, 0, 0⟩ (ascii "a.b.com") [recA 300 1 2 3 4]))
    "8.8.8.8" (ascii "a.b.com") 3
    (padded (replyOf ⟨7, 0x8180, 2, 1, 0, 0⟩ (ascii "a.b.com") [recA 300 1 2 3 4]))
    ⟨7, 0x8180, 2, 1, 0, 0⟩
    ((padded (replyOf ⟨7, 0x8180, 2, 1, 0, 0⟩ (ascii "a.b.com") [recA 300 1 2 3 4])).drop 12)
    (Received_oneDatagram 7 "8.8.8.8" _ (by decide)) (by decide) (by decide) (by decide)
    (by decide) (by decide)

/-- C7: on a reply that passes the four header checks and whose answer section
is `ancount` complete records (records of another type with their data bytes, or
A records with rdlength 4), the ttl returned is the minimum of the TTLs of all
the records; TTLs 300, 120, 600 of mixed types give 120. -/
theorem C7_min_ttl (env : Env) (dnsServer : String) (domain : List Byte) (timeout : Int)
    (reply : List Byte) (h : dnsHeader) (q : List Byte) (recs : List Record) (rest : List Byte)
    (hrecv : Received env dnsServer reply) (hwf : h.WF)
    (hreply : reply = writeHeader h ++ q ++ recs.flatMap Record.wire ++ rest)
    (hid : h.Id = env.id % 65536) (hc : h.Bits % 16 = 0) (hqd : h.Qdcount = 1)
    (han : h.Ancount = recs.length) (hne : 1 ≤ recs.length)
    (hq : q.length = (parseDomainName domain).length + 4)
    (hrecs : ∀ r ∈ recs, r.Complete) :
    (∃ resp, (Dig env dnsServer domain timeout).ret = some (Except.ok resp) ∧
      (∃ r ∈ recs, resp.ttl = r.rr.TTL) ∧ ∀ r ∈ recs, resp.ttl ≤ r.rr.TTL) ∧
    ∃ ips, (sampleRun 3 mixedRecs).ret = some (Except.ok ⟨ips, 120, 0⟩) := by
  refine ⟨⟨_, Dig_complete env dnsServer domain timeout reply h q recs rest hrecv hwf hreply hid hc
    hqd han hne hq hrecs, ?_, minTTL_le recs _⟩, ⟨["1.2.3.4", "5.6.7.8"], ?_⟩⟩
  · rcases minTTL_mem recs 4294967295 with hm | hm
    · obtain ⟨r, hr⟩ := List.exists_mem_of_length_pos (by omega : 0 < recs.length)
      refine ⟨r, hr, ?_⟩
      have h1 := minTTL_le recs 4294967295 r hr
      have h2 := (hrecs r hr).1.2.2.2.1
      show minTTL 4294967295 recs = r.rr.TTL
      omega
    · exact hm
  · set_option maxRecDepth 100000 in decide

set_option maxRecDepth 100000 in
theorem C7_min_ttl_witness :
    ∃ resp, (sampleRun 3 mixedRecs).ret = some (Except.ok resp) ∧
      (∃ r ∈ mixedRecs, resp.ttl = r.rr.TTL) ∧ ∀ r ∈ mixedRecs, resp.ttl ≤ r.rr.TTL :=
  (C7_min_ttl (Env.oneDatagram 7 (replyOf ⟨7, 0x8180, 1, 3, 0, 0⟩ sampleDomain mixedRecs))
    "8.8.8.8" sampleDomain 3 (padded (replyOf ⟨7, 0x8180, 1, 3, 0, 0⟩ sampleDomain mixedRecs))
    ⟨7, 0x8180, 1, 3, 0, 0⟩ (echo sampleDomain) mixedRecs
    (List.replicate (1024 - (replyOf ⟨7, 0x8180, 1, 3, 0, 0⟩ sampleDomain mixedRecs).length) 0)
    (Received_oneDatagram 7 "8.8.8.8" _ (by decide)) (by decide) (by decide) (by decide)
    (by decide) (by decide) (by decide) (by decide) (by decide) (by decide)).1

theorem ValidA.complete (r : Record) (h : r.ValidA) : r.Complete :=
  ⟨h.1, Or.inr h.2⟩

theorem addrs_of_validA (recs : List Record) (h : ∀ r ∈ recs, r.ValidA) :
    addrs recs = recs.map (fun r => IPv4String r.data) := by
  unfold addrs
  rw [List.filter_eq_self.2 (fun r hr => by simp [(h r hr).2.1])]

/-- C8: on a reply that passes the four header checks and whose `ancount` answers
are all A records with rdlength 4, `ips` has `ancount` entries and the k-th is
the dotted quad of the four data bytes of the k-th answer; 1.2.3.4 then 5.6.7.8
give ["1.2.3.4", "5.6.7.8"]. -/
theorem C8_ips_in_answer_order (env : Env) (dnsServer : String) (domain : List Byte)
    (timeout : Int) (reply : List Byte) (h : dnsHeader) (q : List Byte) (recs : List Record)
    (rest : List Byte)
    (hrecv : Received env dnsServer reply) (hwf : h.WF)
    (hreply : reply = writeHeader h ++ q ++ recs.flatMap Record.wire ++ rest)
    (hid : h.Id = env.id % 65536) (hc : h.Bits % 16 = 0) (hqd : h.Qdcount = 1)
    (han : h.Ancount = recs.length) (hne : 1 ≤ recs.length)
    (hq : q.length = (parseDomainName domain).length + 4)
    (hrecs : ∀ r ∈ recs, r.ValidA) :
    (∃ resp, (Dig env dnsServer domain timeout).ret = some (Except.ok resp) ∧
      resp.ips.length = h.Ancount ∧
      ∀ (k : Nat) (r : Record), recs[k]? = some r → ∃ a b c d, r.data = [a, b, c, d] ∧
        resp.ips[k]? = some (dottedQuad a b c d)) ∧
    ∃ ttl, (sampleRun 2 twoARecs).ret = some (Except.ok ⟨["1.2.3.4", "5.6.7.8"], ttl, 0⟩) := by
  refine ⟨⟨_, Dig_complete env dnsServer domain timeout reply h q recs rest hrecv hwf hreply hid hc
    hqd han hne hq (fun r hr => ValidA.complete r (hrecs r hr)), ?_, ?_⟩, ⟨300, ?_⟩⟩
  · simp [addrs_of_validA recs hrecs, han]
  · intro k r hk
    obtain ⟨a, b, c, d, hdata⟩ := length_four r.data (hrecs r (List.getElem?_mem hk)).2.2.2
    refine ⟨a, b, c, d, hdata, ?_⟩
    simp only [addrs_of_validA recs hrecs, List.getElem?_map, hk, Option.map_some', hdata]
    rfl
  · set_option maxRecDepth 100000 in decide

set_option maxRecDepth 100000 in
theorem C8_ips_in_answer_order_witness :
    ∃ resp, (sampleRun 2 twoARecs).ret = some (Except.ok resp) ∧
      resp.ips.length = 2 ∧
      ∀ (k : Nat) (r : Record), twoARecs[k]? = some r → ∃ a b c d, r.data = [a, b, c, d] ∧
        resp.ips[k]? = some (dottedQuad a b c d) :=
  (C8_ips_in_answer_order
    (Env.oneDatagram 7 (replyOf ⟨7, 0x8180, 1, 2, 0, 0⟩ sampleDomain twoARecs))
    "8.8.8.8" sampleDomain 3 (padded (replyOf ⟨7, 0x8180, 1, 2, 0, 0⟩ sampleDomain twoARecs))
    ⟨7, 0x8180, 1, 2, 0, 0⟩ (echo sampleDomain) twoARecs
    (List.replicate (1024 - (replyOf ⟨7, 0x8180, 1, 2, 0, 0⟩ sampleDomain twoARecs).length) 0)
    (Received_oneDatagram 7 "8.8.8.8" _ (by decide)) (by decide) (by decide) (by decide)
    (by decide) (by decide) (by decide) (by decide) (by decide) (by decide)).1

/-- C9: decoding a record of another type than A with rdlength `n` consumes
exactly its 12 header bytes and its `n` data bytes and adds nothing to `ips`, so
a valid A record right after it is decoded from its own first byte and its
address is appended; a CNAME-type record of rdlength 16 followed by an A record
for 1.2.3.4 gives ips = ["1.2.3.4"]. -/
theorem C9_skip_other_record (s : AnswerState) (rr : dnsRR) (data rest : List Byte) (n : Nat)
    (hwf : rr.WF) (ht : rr.Type_ ≠ 1) (hn : rr.DataLen = n) (hd : data.length = n)
    (hb : s.buffer = writeRR rr ++ data ++ rest) :
    (answerStep s).buffer = rest ∧
    s.buffer.length = (answerStep s).buffer.length + (12 + n) ∧
    (answerStep s).res.ips = s.res.ips ∧
    (∀ (rrA : dnsRR) (a b c d : Byte) (rest2 : List Byte), rrA.WF → rrA.Type_ = 1 →
      rrA.DataLen = 4 → rest = writeRR rrA ++ [a, b, c, d] ++ rest2 →
      (answerStep (answerStep s)).res.ips = s.res.ips ++ [dottedQuad a b c d] ∧
        (answerStep (answerStep s)).buffer = rest2) ∧
    ∃ ttl, (sampleRun 2 cnameThenA).ret = some (Except.ok ⟨["1.2.3.4"], ttl, 0⟩) := by
  have hstep := answerStep_other s rr data rest hwf ht (hd.trans hn.symm) hb
  refine ⟨by rw [hstep], ?_, by rw [hstep], ?_, ⟨300, ?_⟩⟩
  · rw [hstep, hb]
    simp only [List.length_append, writeRR_length, hd]
    omega
  · intro rrA a b c d rest2 hwfA htA hlA hrest
    have hstep2 := answerStep_A (answerStep s) rrA a b c d rest2 hwfA htA hlA
      (by rw [hstep]; exact hrest)
    rw [hstep2, hstep]
    exact ⟨rfl, rfl⟩
  · set_option maxRecDepth 100000 in decide

theorem C9_skip_other_record_witness :
    (answerStep ⟨(cnameThenA.flatMap Record.wire), dnsRR.zero, [0, 0, 0, 0],
        ⟨[], 4294967295, 0⟩⟩).buffer = (recA 300 1 2 3 4).wire ∧
      (answerStep (answerStep ⟨(cnameThenA.flatMap Record.wire), dnsRR.zero, [0, 0, 0, 0],
        ⟨[], 4294967295, 0⟩⟩)).res.ips = ["1.2.3.4"] :=
  have h := C9_skip_other_record
    ⟨(cnameThenA.flatMap Record.wire), dnsRR.zero, [0, 0, 0, 0], ⟨[], 4294967295, 0⟩⟩
    ⟨0xc00c, 5, 1, 300, 16⟩ (List.replicate 16 0) (recA 300 1 2 3 4).wire 16
    (by decide) (by decide) rfl (by decide) (by decide)
  ⟨h.1, (h.2.2.2.1 ⟨0xc00c, 1, 1, 300, 4⟩ 1 2 3 4 [] (by decide) rfl rfl (by decide)).1⟩

/-- C10 (what the code does): a type-1 record whose rdlength is not 4 has only its
header consumed, so the record after it is decoded from the unread data bytes.
With such a record of rdlength 2 followed by a valid A record for 1.2.3.4, `Dig`
succeeds with no address at all; with one of rdlength 12 whose data look like a
record header, the address returned is made of the first bytes of the valid
record's header. -/
theorem C10_malformed_A_desynchronizes :
    (∀ r ∈ badAThenA, r.rr.WF ∧ r.data.length = r.rr.DataLen) ∧
    (recA 300 1 2 3 4).ValidA ∧
    (sampleRun 2 badAThenA).ret = some (Except.ok ⟨[], 300, 0⟩) ∧
    (sampleRun 2 badA12ThenA).ret = some (Except.ok ⟨["192.12.0.1"], 300, 0⟩) ∧
    (answerStep ⟨badAThenA.flatMap Record.wire, dnsRR.zero, [0, 0, 0, 0],
        ⟨[], 4294967295, 0⟩⟩).buffer = [9, 9] ++ (recA 300 1 2 3 4).wire := by
  set_option maxRecDepth 100000 in decide

/-! ## Counting the labels of an encoded name -/

/-- More steps than the buffer has bytes change nothing. -/
theorem countLabelsFuel_enough (fuel : Nat) :
    ∀ (wire : List Byte), wire.length ≤ fuel → countLabelsFuel fuel wire = countLabels wire := by
  induction fuel using Nat.strong_induction_on with
  | _ fuel ih =>
    intro wire hlen
    cases wire with
    | nil => cases fuel <;> rfl
    | cons len rest =>
      cases fuel with
      | zero => simp at hlen
      | succ fuel =>
        simp only [countLabels, List.length_cons, countLabelsFuel]
        split
        · rfl
        · have h1 : (rest.drop len.val).length ≤ rest.length := by simp
          simp only [List.length_cons] at hlen
          rw [ih fuel (by omega) _ (by omega), ih rest.length (by omega) _ h1]

theorem countLabels_nil_label (rest : List Byte) : countLabels ((0 : Byte) :: rest) = 0 := by
  simp [countLabels, countLabelsFuel]

theorem countLabels_label (seg rest : List Byte) (h1 : 1 ≤ seg.length) (h2 : seg.length ≤ 255) :
    countLabels (toByte seg.length :: (seg ++ rest)) = 1 + countLabels rest := by
  have hv : (toByte seg.length).val = seg.length := by
    simp only [toByte]
    omega
  have hne : ¬ (toByte seg.length).val = 0 := by omega
  simp only [countLabels, List.length_cons, countLabelsFuel, hne, if_false, hv,
    List.drop_left]
  rw [countLabelsFuel_enough _ rest (by simp)]
  rw [if_neg (by omega)]
  rfl

theorem parseDomainName_eq (domain : List Byte) :
    parseDomainName domain =
      (Split domain).flatMap (fun seg => toByte seg.length :: seg) ++ [0] := by
  simp only [parseDomainName, foldl_segments, List.nil_append]
  rfl

theorem countLabels_segments (segs : List (List Byte))
    (h : ∀ seg ∈ segs, 1 ≤ seg.length ∧ seg.length ≤ 255) :
    countLabels (segs.flatMap (fun seg => toByte seg.length :: seg) ++ [0]) = segs.length := by
  induction segs with
  | nil => exact countLabels_nil_label []
  | cons seg segs ih =>
    have hs := h seg (List.mem_cons_self _ _)
    simp only [List.flatMap_cons, List.cons_append, List.append_assoc, List.length_cons]
    rw [countLabels_label seg _ hs.1 hs.2, ih (fun s hs => h s (List.mem_cons_of_mem _ hs))]
    omega

/-- C11 as stated fails on a name with an empty label: `"a.b.com."` splits into
four segments (the last one empty, of length 0 ≤ 255), and its encoding
`01 a 01 b 03 c o m 00 00` has three labels by the wire rule. -/
theorem C11_label_count_counterexample :
    (∀ seg ∈ Split (ascii "a.b.com."), seg.length ≤ 255) ∧
      parseDomainName (ascii "a.b.com.") = [1, 97, 1, 98, 3, 99, 111, 109, 0, 0] ∧
      countLabels (parseDomainName (ascii "a.b.com.")) = 3 ∧
      (Split (ascii "a.b.com.")).length = 4 := by
  decide

/-- C11 (amended): for a domain name whose '.'-separated labels are each between
1 and 255 bytes long, counting the labels of `parseDomainName name` by the wire
rule gives the number of segments of the name split on '.'. -/
theorem C11_label_count (domain : List Byte)
    (hseg : ∀ seg ∈ Split domain, 1 ≤ seg.length ∧ seg.length ≤ 255) :
    countLabels (parseDomainName domain) = (Split domain).length := by
  rw [parseDomainName_eq]
  exact countLabels_segments (Split domain) hseg

theorem C11_label_count_witness :
    countLabels (parseDomainName (ascii "www.example.com")) = 3 ∧
      (Split (ascii "www.example.com")).length = 3 :=
  ⟨(C11_label_count (ascii "www.example.com") (by decide)).trans (by decide), by decide⟩


/-! ## The flags word -/

theorem or_eq_add_of_lt (i a b : Nat) (hb : b < 2 ^ i) : a * 2 ^ i ||| b = a * 2 ^ i + b := by
  rw [Nat.mul_comm]
  exact (Nat.mul_add_lt_is_or hb a).symm

theorem and_mask (x i : Nat) : x &&& (2 ^ i - 1) = x % 2 ^ i :=
  Nat.and_pow_two_sub_one_eq_mod x i

/-- The word `SetFlag` stores, as a sum of the fields at their bit positions. -/
theorem SetFlag_Bits (header : dnsHeader) (QR Opcode AA TC RD RA Rcode : Nat)
    (hQR : QR ≤ 1) (hOp : Opcode ≤ 15) (hAA : AA ≤ 1) (hTC : TC ≤ 1) (hRD : RD ≤ 1)
    (hRA : RA ≤ 1) (hRc : Rcode ≤ 15) :
    (header.SetFlag QR Opcode AA TC RD RA Rcode).Bits =
      QR * 2 ^ 15 + Opcode * 2 ^ 11 + AA * 2 ^ 10 + TC * 2 ^ 9 + RD * 2 ^ 8 + RA * 2 ^ 7 +
        Rcode := by
  simp only [dnsHeader.SetFlag, Nat.shiftLeft_eq]
  rw [Nat.mod_eq_of_lt (by omega : QR * 2 ^ 15 < 65536),
    Nat.mod_eq_of_lt (by omega : Opcode * 2 ^ 11 < 65536),
    Nat.mod_eq_of_lt (by omega : AA * 2 ^ 10 < 65536),
    Nat.mod_eq_of_lt (by omega : TC * 2 ^ 9 < 65536),
    Nat.mod_eq_of_lt (by omega : RD * 2 ^ 8 < 65536),
    Nat.mod_eq_of_lt (by omega : RA * 2 ^ 7 < 65536),
    Nat.mod_eq_of_lt (by omega : Rcode < 65536)]
  simp only [Nat.or_assoc]
  rw [or_eq_add_of_lt 7 RA Rcode (by omega),
    or_eq_add_of_lt 8 RD _ (by omega),
    or_eq_add_of_lt 9 TC _ (by omega),
    or_eq_add_of_lt 10 AA _ (by omega),
    or_eq_add_of_lt 11 Opcode _ (by omega),
    or_eq_add_of_lt 15 QR _ (by omega)]
  omega

/-- C12: for one-bit QR, AA, TC, RD, RA and four-bit Opcode, Rcode, `SetFlag`
stores the 16-bit word with QR in bit 15, Opcode in bits 14..11, AA in bit 10, TC
in bit 9, RD in bit 8, RA in bit 7, zero in bits 6..4 and Rcode in bits 3..0; each
field is recovered by shifting and masking, and `ResponseCode` gives the Rcode
back. -/
theorem C12_SetFlag_layout (header : dnsHeader) (QR Opcode AA TC RD RA Rcode : Nat)
    (hQR : QR ≤ 1) (hOp : Opcode ≤ 15) (hAA : AA ≤ 1) (hTC : TC ≤ 1) (hRD : RD ≤ 1)
    (hRA : RA ≤ 1) (hRc : Rcode ≤ 15) :
    (header.SetFlag QR Opcode AA TC RD RA Rcode).Bits =
        QR * 2 ^ 15 + Opcode * 2 ^ 11 + AA * 2 ^ 10 + TC * 2 ^ 9 + RD * 2 ^ 8 + RA * 2 ^ 7 +
          Rcode ∧
      (header.SetFlag QR Opcode AA TC RD RA Rcode).Bits < 65536 ∧
      (header.SetFlag QR Opcode AA TC RD RA Rcode).Bits >>> 15 = QR ∧
      ((header.SetFlag QR Opcode AA TC RD RA Rcode).Bits >>> 11) &&& 0xF = Opcode ∧
      ((header.SetFlag QR Opcode AA TC RD RA Rcode).Bits >>> 10) &&& 1 = AA ∧
      ((header.SetFlag QR Opcode AA TC RD RA Rcode).Bits >>> 9) &&& 1 = TC ∧
      ((header.SetFlag QR Opcode AA TC RD RA Rcode).Bits >>> 8) &&& 1 = RD ∧
      ((header.SetFlag QR Opcode AA TC RD RA Rcode).Bits >>> 7) &&& 1 = RA ∧
      ((header.SetFlag QR Opcode AA TC RD RA Rcode).Bits >>> 4) &&& 7 = 0 ∧
      (header.SetFlag QR Opcode AA TC RD RA Rcode).Bits &&& 0xF = Rcode ∧
      (header.SetFlag QR Opcode AA TC RD RA Rcode).ResponseCode = Rcode := by
  have hb := SetFlag_Bits header QR Opcode AA TC RD RA Rcode hQR hOp hAA hTC hRD hRA hRc
  have m4 : ∀ x, x &&& 0xF = x % 16 := fun x => and_mask x 4
  have m3 : ∀ x, x &&& 7 = x % 8 := fun x => and_mask x 3
  have m1 : ∀ x, x &&& 1 = x % 2 := fun x => and_mask x 1
  simp only [dnsHeader.ResponseCode, Nat.shiftRight_eq_div_pow, m4, m3, m1, hb, Nat.reducePow]
  clear hb
  refine ⟨trivial, ?_, ?_, ?_, ?_, ?_, ?_, ?_, ?_, ?_, ?_⟩ <;> omega

theorem C12_SetFlag_layout_witness :
    (dnsHeader.zero.SetFlag 1 0 0 0 1 1 3).Bits = 0x8183 ∧
      (dnsHeader.zero.SetFlag 1 0 0 0 1 1 3).ResponseCode = 3 :=
  have h := C12_SetFlag_layout dnsHeader.zero 1 0 0 0 1 1 3 (by decide) (by decide) (by decide)
    (by decide) (by decide) (by decide) (by decide)
  ⟨h.1.trans (by decide), h.2.2.2.2.2.2.2.2.2.2⟩


/-! ## The errors of `Dig` -/

theorem append_ne_empty (a b : String) (h : a.data ≠ []) : a ++ b ≠ "" := by
  intro hab
  have := congrArg String.data hab
  rw [String.data_append] at this
  exact h (List.append_eq_nil.1 this).1

/-- An error of the decoder is `dnsErr` with a message of its own. -/
theorem decode_error (rq : dnsHeader) (dnsErr : DNSError) (domainBytes : List Byte)
    (digTime : Nat) (buffer : List Byte) (e : DNSError)
    (h : decode rq dnsErr domainBytes digTime buffer = Except.error e) :
    e.Name = dnsErr.Name ∧ e.Server = dnsErr.Server ∧ e.IsTimeout = dnsErr.IsTimeout ∧
      e.IsTemporary = dnsErr.IsTemporary ∧ e.Err ≠ "" := by
  unfold decode at h
  simp only at h
  split at h
  · cases h
    exact ⟨rfl, rfl, rfl, rfl, by simp⟩
  · split at h
    · cases h
      exact ⟨rfl, rfl, rfl, rfl, append_ne_empty _ _ (by decide)⟩
    · split at h
      · cases h
        exact ⟨rfl, rfl, rfl, rfl, by simp⟩
      · split at h
        · cases h
          exact ⟨rfl, rfl, rfl, rfl, by simp⟩
        · cases h

theorem readLoop_error_mem (reads : List (Except String (List Byte))) :
    ∀ (buf buffer : List Byte) (resLen : Nat) (e : String),
      readLoop reads buf buffer resLen = some (Except.error e) → Except.error e ∈ reads := by
  induction reads with
  | nil => intro buf buffer resLen e h; simp [readLoop] at h
  | cons r reads ih =>
    intro buf buffer resLen e h
    cases r with
    | error e2 =>
      simp only [readLoop, Option.some.injEq, Except.error.injEq] at h
      rw [h]
      exact List.mem_cons_self _ _
    | ok data =>
      simp only [readLoop] at h
      split at h
      · simp at h
      · exact List.mem_cons_of_mem _ (ih _ _ _ e h)

theorem TextsNonEmpty_oneDatagram (id : Nat) (datagram : List Byte) :
    (Env.oneDatagram id datagram).TextsNonEmpty := by
  refine ⟨fun addr e h => by simp [Env.oneDatagram] at h,
    fun e h => by simp [Env.oneDatagram] at h, fun e h => by simp [Env.oneDatagram] at h⟩

/-- C13: every error value `Dig` returns carries the domain as its name and
`dnsServer` as its server, has is_temporary false and (the network's error texts
being non-empty) a non-empty message; an error of the decoding stage has
is_timeout false. -/
theorem C13_error_fields (env : Env) (dnsServer : String) (domain : List Byte) (timeout : Int)
    (err : DNSError) (hret : (Dig env dnsServer domain timeout).ret = some (Except.error err))
    (htexts : env.TextsNonEmpty) :
    err.Name = domain ∧ err.Server = dnsServer ∧ err.IsTemporary = false ∧ err.Err ≠ "" ∧
      ∀ reply, Received env dnsServer reply → err.IsTimeout = false := by
  obtain ⟨hd, hw, hr⟩ := htexts
  unfold Dig at hret
  simp only at hret
  cases hdial : env.dial (dnsServer ++ ":53") with
  | some e =>
    rw [hdial] at hret
    simp only [Option.some.injEq, Except.error.injEq] at hret
    subst hret
    refine ⟨rfl, rfl, rfl, hd _ e hdial, ?_⟩
    rintro reply ⟨h1, _⟩
    rw [hdial] at h1
  | none =>
    rw [hdial] at hret
    cases hwrite : env.write with
    | some e =>
      rw [hwrite] at hret
      simp only [Option.some.injEq, Except.error.injEq] at hret
      subst hret
      refine ⟨rfl, rfl, rfl, hw e hwrite, ?_⟩
      rintro reply ⟨_, h2, _⟩
      rw [hwrite] at h2
    | none =>
      rw [hwrite] at hret
      cases hread : readLoop env.reads (List.replicate 1024 0) [] 0 with
      | none =>
        rw [hread] at hret
        cases hret
      | some r =>
        rw [hread] at hret
        cases r with
        | error e =>
          simp only [Option.some.injEq, Except.error.injEq] at hret
          subst hret
          refine ⟨rfl, rfl, rfl, hr e (readLoop_error_mem _ _ _ _ e hread), ?_⟩
          rintro reply ⟨_, _, n, h3⟩
          rw [hread] at h3
          cases h3
        | ok v =>
          obtain ⟨reply, resLen⟩ := v
          simp only [Option.some.injEq] at hret
          obtain ⟨h1, h2, h3, h4, h5⟩ := decode_error _ _ _ _ _ err hret
          exact ⟨h1, h2, h4, h5, fun _ _ => h3⟩

set_option maxRecDepth 100000 in
theorem C13_error_fields_witness :
    (Dig (Env.oneDatagram 7 (headerOnly ⟨7, 0x8183, 1, 0, 0, 0⟩)) "8.8.8.8" sampleDomain 3).ret =
        some (Except.error ⟨"DNS response error, code: 3", sampleDomain, "8.8.8.8", false, false⟩) ∧
      (⟨"DNS response error, code: 3", sampleDomain, "8.8.8.8", false, false⟩ : DNSError).Err ≠ "" :=
  ⟨by decide,
    (C13_error_fields (Env.oneDatagram 7 (headerOnly ⟨7, 0x8183, 1, 0, 0, 0⟩)) "8.8.8.8"
      sampleDomain 3 ⟨"DNS response error, code: 3", sampleDomain, "8.8.8.8", false, false⟩
      (by decide) (TextsNonEmpty_oneDatagram _ _)).2.2.2.1⟩

/-- `Contains s substr` holds exactly when `substr` occurs in `s`. -/
theorem Contains_iff (s substr : String) :
    Contains s substr = true ↔ substr.data <:+: s.data := by
  simp only [Contains, List.any_eq_true, List.mem_tails, List.isPrefixOf_iff_prefix]
  rw [List.infix_iff_prefix_suffix]
  constructor
  · rintro ⟨t, h1, h2⟩
    exact ⟨t, h2, h1⟩
  · rintro ⟨t, h1, h2⟩
    exact ⟨t, h2, h1⟩

theorem readLoop_error (pre : List (List Byte)) (e : String)
    (post : List (Except String (List Byte))) (hfull : ∀ d ∈ pre, 1024 ≤ d.length) :
    ∀ (buf buffer : List Byte) (resLen : Nat),
      readLoop (pre.map Except.ok ++ Except.error e :: post) buf buffer resLen =
        some (Except.error e) := by
  induction pre with
  | nil => intro buf buffer resLen; rfl
  | cons d pre ih =>
    intro buf buffer resLen
    have hd := hfull d (List.mem_cons_self _ _)
    have hmin : ¬ min d.length 1024 < 1024 := by omega
    simp only [List.map_cons, List.cons_append, readLoop, hmin, if_false]
    exact ih (fun x hx => hfull x (List.mem_cons_of_mem _ hx)) _ _ _

/-- C14: when a read fails (after any number of full reads), `Dig` returns an
error whose message is the text of the read error and whose is_timeout flag is
true exactly when that text contains "timeout"; a read that fails with the
deadline's "i/o timeout" gives is_timeout = true. -/
theorem C14_read_failure (env : Env) (dnsServer : String) (domain : List Byte) (timeout : Int)
    (pre : List (List Byte)) (e : String) (post : List (Except String (List Byte)))
    (hdial : env.dial (dnsServer ++ ":53") = none) (hwrite : env.write = none)
    (hreads : env.reads = pre.map Except.ok ++ Except.error e :: post)
    (hfull : ∀ d ∈ pre, 1024 ≤ d.length) :
    (∃ err, (Dig env dnsServer domain timeout).ret = some (Except.error err) ∧
      err.Err = e ∧ (err.IsTimeout = true ↔ "timeout".data <:+: e.data) ∧
      err.Name = domain ∧ err.Server = dnsServer ∧ err.IsTemporary = false) ∧
    (Dig (Env.readFails 7 timeoutText) "8.8.8.8" sampleDomain 3).ret =
      some (Except.error ⟨timeoutText, sampleDomain, "8.8.8.8", true, false⟩) := by
  refine ⟨⟨⟨e, domain, dnsServer, Contains e "timeout", false⟩, ?_, rfl, Contains_iff _ _,
    rfl, rfl, rfl⟩, by decide⟩
  simp only [Dig, hdial, hwrite, hreads, readLoop_error pre e post hfull]

theorem C14_read_failure_witness :
    ∃ err, (Dig (Env.readFails 7 "read udp 10.0.0.2:40000->8.8.8.8:53: connection refused")
        "8.8.8.8" sampleDomain 3).ret = some (Except.error err) ∧
      err.Err = "read udp 10.0.0.2:40000->8.8.8.8:53: connection refused" ∧
      (err.IsTimeout = true ↔
        "timeout".data <:+: "read udp 10.0.0.2:40000->8.8.8.8:53: connection refused".data) ∧
      err.Name = sampleDomain ∧ err.Server = "8.8.8.8" ∧ err.IsTemporary = false :=
  (C14_read_failure (Env.readFails 7 "read udp 10.0.0.2:40000->8.8.8.8:53: connection refused")
    "8.8.8.8" sampleDomain 3 [] _ [] rfl rfl rfl (by simp)).1

/-- C19: once the reply has been read, `Dig` returns a response exactly when the
reply's header id equals the request id, its Rcode is 0, its qdcount is 1 and its
ancount is at least 1, whatever follows the header; when checks fail, the error
is that of the first failing one in the order id, Rcode, qdcount, ancount. -/
theorem C19_decode_outcome (env : Env) (dnsServer : String) (domain : List Byte)
    (timeout : Int) (reply : List Byte) (h : dnsHeader) (rest : List Byte)
    (hrecv : Received env dnsServer reply) (hwf : h.WF) (hreply : reply = writeHeader h ++ rest) :
    ((∃ resp, (Dig env dnsServer domain timeout).ret = some (Except.ok resp)) ↔
      (h.Id = env.id % 65536 ∧ h.Bits % 16 = 0 ∧ h.Qdcount = 1 ∧ 1 ≤ h.Ancount)) ∧
    (h.Id ≠ env.id % 65536 →
      (Dig env dnsServer domain timeout).ret = some (Except.error
        ⟨"DNS response id and request id is not eq", domain, dnsServer, false, false⟩)) ∧
    (h.Id = env.id % 65536 → h.Bits % 16 ≠ 0 →
      (Dig env dnsServer domain timeout).ret = some (Except.error
        ⟨"DNS response error, code: " ++ Itoa (h.Bits % 16), domain, dnsServer, false, false⟩)) ∧
    (h.Id = env.id % 65536 → h.Bits % 16 = 0 → h.Qdcount ≠ 1 →
      (Dig env dnsServer domain timeout).ret = some (Except.error
        ⟨"DNS response question number != 1", domain, dnsServer, false, false⟩)) ∧
    (h.Id = env.id % 65536 → h.Bits % 16 = 0 → h.Qdcount = 1 → h.Ancount = 0 →
      (Dig env dnsServer domain timeout).ret = some (Except.error
        ⟨"DNS response answer number < 1", domain, dnsServer, false, false⟩)) := by
  rw [Dig_ret_of_Received env dnsServer domain timeout reply hrecv, hreply,
    decode_writeHeader _ _ _ _ h rest hwf, requestHeader_eq, ResponseCode_eq_mod]
  simp only [ne_eq]
  by_cases h1 : h.Id = env.id % 65536
  · by_cases h2 : h.Bits % 16 = 0
    · by_cases h3 : h.Qdcount = 1
      · by_cases h4 : h.Ancount = 0
        · have h4b : h.Ancount < 1 := by omega
          simp [h1, h2, h3, h4]
        · have h4b : ¬ h.Ancount < 1 := by omega
          have h4c : 1 ≤ h.Ancount := by omega
          simp [h1, h2, h3, h4, h4b, h4c]
      · simp [h1, h2, h3]
    · simp [h1, h2]
  · have h1b : ¬ env.id % 65536 = h.Id := fun hh => h1 hh.symm
    simp [h1, h1b]

set_option maxRecDepth 100000 in
theorem C19_decode_outcome_witness :
    ∃ resp, (Dig (Env.oneDatagram 7 overrunReply) "8.8.8.8" sampleDomain 3).ret =
      some (Except.ok resp) :=
  (C19_decode_outcome (Env.oneDatagram 7 overrunReply) "8.8.8.8" sampleDomain 3
    (padded overrunReply) ⟨7, 0x8180, 1, 200, 0, 0⟩ ((padded overrunReply).drop 12)
    (Received_oneDatagram 7 "8.8.8.8" _ (by decide)) (by decide) (by decide)).1.2
    ⟨by decide, by decide, by decide, by decide⟩

/-- The read loop over full reads followed by a short one: every read appends
the whole receive buffer, while `resLen` adds up what the reads returned. -/
theorem readLoop_short (pre : List (List Byte)) (d : List Byte)
    (post : List (Except String (List Byte))) (hfull : ∀ x ∈ pre, 1024 ≤ x.length)
    (hshort : d.length < 1024) :
    ∀ (buf buffer : List Byte) (resLen : Nat), buf.length = 1024 →
      readLoop (pre.map Except.ok ++ Except.ok d :: post) buf buffer resLen =
        some (Except.ok (buffer ++ (pre.map (List.take 1024)).flatten ++ lastChunk buf pre d,
          resLen + 1024 * pre.length + d.length)) := by
  induction pre with
  | nil =>
    intro buf buffer resLen hbuf
    have h1 : min d.length 1024 = d.length := by omega
    have h2 : List.take 1024 d = d := List.take_of_length_le (by omega)
    simp only [List.map_nil, List.nil_append, readLoop, h1, h2, if_pos hshort, lastChunk,
      List.getLast?_nil, Option.map_none', Option.getD_none, List.flatten_nil, List.append_nil,
      List.length_nil, Nat.mul_zero, Nat.add_zero]
  | cons x pre ih =>
    intro buf buffer resLen hbuf
    have hx := hfull x (List.mem_cons_self _ _)
    have h1 : min x.length 1024 = 1024 := by omega
    have h2 : List.drop 1024 buf = [] := List.drop_of_length_le (by omega)
    have h3 : (List.take 1024 x).length = 1024 := by
      rw [List.length_take]
      omega
    rw [List.map_cons, List.cons_append, readLoop]
    simp only [h1, Nat.lt_irrefl, if_false, h2, List.append_nil]
    rw [ih (fun y hy => hfull y (List.mem_cons_of_mem _ hy)) _ _ _ h3]
    have hlast : lastChunk (List.take 1024 x) pre d = lastChunk buf (x :: pre) d := by
      cases pre with
      | nil => simp only [lastChunk, List.getLast?_nil, Option.map_none', Option.getD_none,
          List.getLast?_singleton, Option.map_some', Option.getD_some]
      | cons y pre =>
        simp only [lastChunk, List.getLast?_cons_cons]
        rw [List.getLast?_eq_getLast _ (List.cons_ne_nil y pre)]
        rfl
    rw [hlast]
    simp only [List.map_cons, List.flatten_cons, List.append_assoc, List.length_cons]
    congr 3
    omega

theorem lastChunk_length (buf : List Byte) (pre : List (List Byte)) (d : List Byte)
    (hbuf : buf.length = 1024) (hfull : ∀ x ∈ pre, x.length = 1024) (hshort : d.length < 1024) :
    (lastChunk buf pre d).length = 1024 := by
  unfold lastChunk
  cases hl : pre.getLast? with
  | none =>
    simp only [Option.map_none', Option.getD_none, List.length_append, List.length_drop, hbuf]
    omega
  | some x =>
    have := hfull x (List.mem_of_getLast?_eq_some hl)
    simp only [Option.map_some', Option.getD_some, List.length_append, List.length_drop,
      List.length_take, this]
    omega

theorem full_chunks (l : List (List Byte)) (hl : ∀ x ∈ l, x.length = 1024) :
    l.map (List.take 1024) = l ∧ l.flatten.length = 1024 * l.length := by
  induction l with
  | nil => exact ⟨rfl, rfl⟩
  | cons x l ih =>
    have hx := hl x (List.mem_cons_self _ _)
    have := ih (fun y hy => hl y (List.mem_cons_of_mem _ hy))
    refine ⟨?_, ?_⟩
    · rw [List.map_cons, this.1, List.take_of_length_le (by omega)]
    · simp only [List.flatten_cons, List.length_append, this.2, hx, List.length_cons]
      omega

/-- C20 (what the code does): after full reads and a short one, the buffer handed
to the decoder holds 1024 bytes for every read made, the short datagram being
followed by what the receive buffer held before (zero bytes, or the tail of the
read before it), while the lengths the reads returned add up to `resLen`. -/
theorem C20_read_loop_appends_whole_buffer (pre : List (List Byte)) (d : List Byte)
    (post : List (Except String (List Byte))) (hfull : ∀ x ∈ pre, x.length = 1024)
    (hshort : d.length < 1024) :
    ∃ reply, readLoop (pre.map Except.ok ++ Except.ok d :: post) (List.replicate 1024 0) [] 0 =
        some (Except.ok (reply, 1024 * pre.length + d.length)) ∧
      reply = pre.flatten ++ lastChunk (List.replicate 1024 0) pre d ∧
      reply.length = 1024 * (pre.length + 1) ∧
      reply.length ≠ 1024 * pre.length + d.length := by
  have hlen := lastChunk_length (List.replicate 1024 0) pre d (List.length_replicate 1024 0)
    hfull hshort
  have hrun := readLoop_short pre d post (fun x hx => by rw [hfull x hx]) hshort
    (List.replicate 1024 0) [] 0 (List.length_replicate 1024 0)
  rw [(full_chunks pre hfull).1, List.nil_append, Nat.zero_add] at hrun
  refine ⟨_, hrun, rfl, ?_, ?_⟩
  · rw [List.length_append, (full_chunks pre hfull).2, hlen]
    omega
  · rw [List.length_append, (full_chunks pre hfull).2, hlen]
    omega

set_option maxRecDepth 100000 in
theorem C20_read_loop_appends_whole_buffer_witness :
    ∃ reply, readLoop [Except.ok [1, 2, 3]] (List.replicate 1024 0) [] 0 =
        some (Except.ok (reply, 3)) ∧
      reply = [1, 2, 3] ++ List.replicate 1021 0 ∧ reply.length = 1024 ∧ reply.length ≠ 3 := by
  obtain ⟨reply, h1, h2, h3, h4⟩ :=
    C20_read_loop_appends_whole_buffer [] [1, 2, 3] [] (fun x hx => by cases hx) (by decide)
  exact ⟨reply, h1, h2.trans (by decide), h3, h4⟩


/-! ## The question echo and what follows the answers -/

/-- The one pass of the question loop leaves the buffer `nameLen + 4` bytes
further, or empty when it has fewer. -/
theorem questionLoop_one_drop (nameLen : Nat) (buf name : List Byte) (rq : dnsQuery) :
    (questionLoop nameLen 1 (buf, name, rq)).1 = buf.drop (nameLen + 4) := by
  simp only [questionLoop, binaryRead]
  by_cases h1 : nameLen ≤ buf.length
  · rw [if_pos h1]
    by_cases h2 : 4 ≤ (buf.drop nameLen).length
    · simp only [if_pos h2, List.drop_drop]
    · simp only [if_neg h2]
      rw [List.length_drop] at h2
      exact (List.drop_of_length_le (by omega)).symm
  · rw [if_neg h1]
    simp only [List.length_nil, Nat.not_succ_le_zero, if_false]
    exact (List.drop_of_length_le (by omega)).symm

/-- `Dig` on a reply that passes the header checks: the answers are decoded from
the bytes after the header and `len(domainBytes) + 4` more. -/
theorem Dig_answers_offset (env : Env) (dnsServer : String) (domain : List Byte) (timeout : Int)
    (reply : List Byte) (h : dnsHeader) (rest : List Byte)
    (hrecv : Received env dnsServer reply) (hwf : h.WF) (hreply : reply = writeHeader h ++ rest)
    (hid : h.Id = env.id % 65536) (hc : h.Bits % 16 = 0) (hqd : h.Qdcount = 1)
    (han : 1 ≤ h.Ancount) :
    (Dig env dnsServer domain timeout).ret =
      some (Except.ok (answerLoop h.Ancount
        (answerStart (reply.drop (12 + (parseDomainName domain).length + 4)) env.digTime)).res) := by
  have hrc : h.ResponseCode = 0 := by rw [ResponseCode_eq_mod, hc]
  have hdrop : reply.drop (12 + (parseDomainName domain).length + 4) =
      rest.drop ((parseDomainName domain).length + 4) := by
    rw [hreply, Nat.add_assoc, ← List.drop_drop, ← writeHeader_length h, List.drop_left]
  rw [Dig_ret_of_Received env dnsServer domain timeout reply hrecv, hreply,
    decode_writeHeader _ _ _ _ h rest hwf, requestHeader_eq]
  rw [if_neg (fun hh => hh hid.symm), if_neg (fun hh => hh hrc), if_neg (fun hh => hh hqd),
    if_neg (by omega), hqd, questionLoop_one_drop, ← hreply, hdrop]
  rfl

/-- `Dig` on a reply that fails a header check: the error depends on the header
and the arguments only. -/
theorem Dig_header_error (env : Env) (dnsServer : String) (domain : List Byte) (timeout : Int)
    (reply : List Byte) (h : dnsHeader) (rest : List Byte)
    (hrecv : Received env dnsServer reply) (hwf : h.WF) (hreply : reply = writeHeader h ++ rest)
    (hfail : ¬ (h.Id = env.id % 65536 ∧ h.Bits % 16 = 0 ∧ h.Qdcount = 1 ∧ 1 ≤ h.Ancount)) :
    (Dig env dnsServer domain timeout).ret =
      some (decode ⟨env.id % 65536, 0x0100, 1, 0, 0, 0⟩ ⟨"", domain, dnsServer, false, false⟩ []
        0 (writeHeader h)) := by
  have hrc : h.ResponseCode = h.Bits % 16 := ResponseCode_eq_mod h
  have e := decode_writeHeader ⟨env.id % 65536, 0x0100, 1, 0, 0, 0⟩
    ⟨"", domain, dnsServer, false, false⟩ [] 0 h [] hwf
  rw [List.append_nil] at e
  rw [Dig_ret_of_Received env dnsServer domain timeout reply hrecv, hreply,
    decode_writeHeader _ _ _ _ h rest hwf, requestHeader_eq, e]
  by_cases h1 : h.Id = env.id % 65536
  · by_cases h2 : h.Bits % 16 = 0
    · by_cases h3 : h.Qdcount = 1
      · have h4 : h.Ancount < 1 := by
          by_contra hh
          exact hfail ⟨h1, h2, h3, by omega⟩
        simp [h1, h2, h3, h4, hrc]
      · simp [h1, h2, h3, hrc]
    · simp [h1, h2, hrc]
  · have h1b : ¬ env.id % 65536 = h.Id := fun hh => h1 hh.symm
    simp [h1b]

theorem writeHeader_inj (h1 h2 : dnsHeader) (hw1 : h1.WF) (hw2 : h2.WF)
    (h : writeHeader h1 = writeHeader h2) : h1 = h2 := by
  rw [← readHeader_writeHeader dnsHeader.zero h1 hw1, ← readHeader_writeHeader dnsHeader.zero h2 hw2,
    h]

/-- The time a state carries has no part in the decoding of the answers. -/
theorem answerStep_time (s : AnswerState) (t : Nat) :
    answerStep { s with res := { s.res with time := t } } =
      { answerStep s with res := { (answerStep s).res with time := t } } := by
  unfold answerStep
  simp only
  split <;> split <;> first | rfl | (split <;> rfl)

theorem answerLoop_time : ∀ (n : Nat) (s : AnswerState) (t : Nat),
    answerLoop n { s with res := { s.res with time := t } } =
      { answerLoop n s with res := { (answerLoop n s).res with time := t } } := by
  intro n
  induction n with
  | zero => intro s t; rfl
  | succ n ih =>
    intro s t
    simp only [answerLoop]
    rw [answerStep_time, ih]

theorem answerLoop_start_time (n : Nat) (buffer : List Byte) (t1 t2 : Nat) :
    (answerLoop n (answerStart buffer t1)).res.ips = (answerLoop n (answerStart buffer t2)).res.ips ∧
      (answerLoop n (answerStart buffer t1)).res.ttl =
        (answerLoop n (answerStart buffer t2)).res.ttl := by
  have h := answerLoop_time n (answerStart buffer t1) t2
  have e : ({ answerStart buffer t1 with
      res := { (answerStart buffer t1).res with time := t2 } } : AnswerState) =
      answerStart buffer t2 := rfl
  rw [e] at h
  rw [h]
  exact ⟨rfl, rfl⟩


/-- C21: two replies that agree on the 12 header bytes and on everything from
byte `12 + len(parseDomainName(domain)) + 4` on, whatever stands between, give the
same outcome (the same error, or the same ips and ttl); on a reply that passes the
header checks the answer records are decoded from that offset on. -/
theorem C21_question_echo_skipped (env1 env2 : Env) (dnsServer : String) (domain : List Byte)
    (timeout : Int) (reply1 reply2 : List Byte)
    (hid : env1.id % 65536 = env2.id % 65536)
    (hr1 : Received env1 dnsServer reply1) (hr2 : Received env2 dnsServer reply2)
    (hhead : reply1.take 12 = reply2.take 12)
    (htail : reply1.drop (12 + (parseDomainName domain).length + 4) =
      reply2.drop (12 + (parseDomainName domain).length + 4)) :
    outcome (Dig env1 dnsServer domain timeout).ret =
        outcome (Dig env2 dnsServer domain timeout).ret ∧
    ∀ h rest, h.WF → reply1 = writeHeader h ++ rest → h.Id = env1.id % 65536 →
      h.Bits % 16 = 0 → h.Qdcount = 1 → 1 ≤ h.Ancount →
      (Dig env1 dnsServer domain timeout).ret =
        some (Except.ok (answerLoop h.Ancount
          (answerStart (reply1.drop (12 + (parseDomainName domain).length + 4))
            env1.digTime)).res) := by
  refine ⟨?_, fun h rest hwf hreply hi hc hq ha =>
    Dig_answers_offset env1 dnsServer domain timeout reply1 h rest hr1 hwf hreply hi hc hq ha⟩
  have hl1 := Received_length env1 dnsServer reply1 hr1
  have hl2 := Received_length env2 dnsServer reply2 hr2
  obtain ⟨h1, rest1, hw1, e1⟩ := header_of_reply reply1 (by omega)
  obtain ⟨h2, rest2, hw2, e2⟩ := header_of_reply reply2 (by omega)
  have hh : h1 = h2 := by
    apply writeHeader_inj h1 h2 hw1 hw2
    have t1 : reply1.take 12 = writeHeader h1 := by
      rw [e1, ← writeHeader_length h1, List.take_left]
    have t2 : reply2.take 12 = writeHeader h2 := by
      rw [e2, ← writeHeader_length h2, List.take_left]
    rw [← t1, ← t2, hhead]
  subst hh
  by_cases hpass : h1.Id = env1.id % 65536 ∧ h1.Bits % 16 = 0 ∧ h1.Qdcount = 1 ∧ 1 ≤ h1.Ancount
  · obtain ⟨p1, p2, p3, p4⟩ := hpass
    rw [Dig_answers_offset env1 dnsServer domain timeout reply1 h1 rest1 hr1 hw1 e1 p1 p2 p3 p4,
      Dig_answers_offset env2 dnsServer domain timeout reply2 h1 rest2 hr2 hw1 e2 (p1.trans hid)
        p2 p3 p4, htail]
    obtain ⟨a1, a2⟩ := answerLoop_start_time h1.Ancount
      (reply2.drop (12 + (parseDomainName domain).length + 4)) env1.digTime env2.digTime
    simp only [outcome, a1, a2]
  · have hpass2 : ¬ (h1.Id = env2.id % 65536 ∧ h1.Bits % 16 = 0 ∧ h1.Qdcount = 1 ∧
        1 ≤ h1.Ancount) := by
      rw [← hid]
      exact hpass
    rw [Dig_header_error env1 dnsServer domain timeout reply1 h1 rest1 hr1 hw1 e1 hpass,
      Dig_header_error env2 dnsServer domain timeout reply2 h1 rest2 hr2 hw1 e2 hpass2, hid]

set_option maxRecDepth 100000 in
theorem C21_question_echo_skipped_witness :
    outcome (Dig (Env.oneDatagram 7 echoReply) "8.8.8.8" sampleDomain 3).ret =
        outcome (Dig (Env.oneDatagram 7 otherEchoReply) "8.8.8.8" sampleDomain 3).ret ∧
      outcome (Dig (Env.oneDatagram 7 otherEchoReply) "8.8.8.8" sampleDomain 3).ret =
        some (Except.ok (["1.2.3.4"], 300)) :=
  ⟨(C21_question_echo_skipped (Env.oneDatagram 7 echoReply) (Env.oneDatagram 7 otherEchoReply)
      "8.8.8.8" sampleDomain 3 (padded echoReply) (padded otherEchoReply) rfl
      (Received_oneDatagram 7 "8.8.8.8" _ (by decide))
      (Received_oneDatagram 7 "8.8.8.8" _ (by decide)) (by decide) (by decide)).1,
    by decide⟩

/-- C22: two replies that pass the header checks, have the same question echo and
the same `ancount` complete answer records, and differ in nscount, arcount and
the bytes after the last answer record, give the same ips and the same ttl. -/
theorem C22_authority_additional_ignored (env1 env2 : Env) (dnsServer : String)
    (domain : List Byte) (timeout : Int) (reply1 reply2 : List Byte) (h : dnsHeader)
    (ns2 ar2 : Nat) (q : List Byte) (recs : List Record) (rest1 rest2 : List Byte)
    (hid : env1.id % 65536 = env2.id % 65536)
    (hr1 : Received env1 dnsServer reply1) (hr2 : Received env2 dnsServer reply2)
    (hwf : h.WF) (hns : ns2 < 65536) (har : ar2 < 65536)
    (he1 : reply1 = writeHeader h ++ q ++ recs.flatMap Record.wire ++ rest1)
    (he2 : reply2 = writeHeader { h with Nscount := ns2, Arcount := ar2 } ++ q ++
      recs.flatMap Record.wire ++ rest2)
    (hi : h.Id = env1.id % 65536) (hc : h.Bits % 16 = 0) (hqd : h.Qdcount = 1)
    (han : h.Ancount = recs.length) (hne : 1 ≤ recs.length)
    (hq : q.length = (parseDomainName domain).length + 4)
    (hrecs : ∀ r ∈ recs, r.Complete) :
    ∃ r1 r2, (Dig env1 dnsServer domain timeout).ret = some (Except.ok r1) ∧
      (Dig env2 dnsServer domain timeout).ret = some (Except.ok r2) ∧
      r1.ips = r2.ips ∧ r1.ttl = r2.ttl ∧ r1.ips = addrs recs ∧ r1.ttl = minTTL 4294967295 recs := by
  have hwf2 : ({ h with Nscount := ns2, Arcount := ar2 } : dnsHeader).WF :=
    ⟨hwf.1, hwf.2.1, hwf.2.2.1, hwf.2.2.2.1, hns, har⟩
  exact ⟨_, _,
    Dig_complete env1 dnsServer domain timeout reply1 h q recs rest1 hr1 hwf he1 hi hc hqd han
      hne hq hrecs,
    Dig_complete env2 dnsServer domain timeout reply2 _ q recs rest2 hr2 hwf2 he2 (hi.trans hid)
      hc hqd han hne hq hrecs, rfl, rfl, rfl, rfl⟩

set_option maxRecDepth 100000 in
theorem C22_authority_additional_ignored_witness :
    ∃ r1 r2, (Dig (Env.oneDatagram 7 echoReply) "8.8.8.8" sampleDomain 3).ret =
        some (Except.ok r1) ∧
      (Dig (Env.oneDatagram 7 replyWithAuthority) "8.8.8.8" sampleDomain 3).ret =
        some (Except.ok r2) ∧
      r1.ips = r2.ips ∧ r1.ttl = r2.ttl ∧ r1.ips = ["1.2.3.4"] ∧ r1.ttl = 300 :=
  (C22_authority_additional_ignored (Env.oneDatagram 7 echoReply)
    (Env.oneDatagram 7 replyWithAuthority) "8.8.8.8" sampleDomain 3 (padded echoReply)
    (padded replyWithAuthority) ⟨7, 0x8180, 1, 1, 0, 0⟩ 2 1 (echo sampleDomain)
    [recA 300 1 2 3 4] (List.replicate (1024 - echoReply.length) 0)
    ((recOther 2 60 4).wire ++ List.replicate (1024 - replyWithAuthority.length) 0) rfl
    (Received_oneDatagram 7 "8.8.8.8" _ (by decide))
    (Received_oneDatagram 7 "8.8.8.8" _ (by decide)) (by decide) (by decide) (by decide)
    (by decide) (by decide) (by decide) (by decide) (by decide) (by decide) (by decide)
    (by decide) (by decide)).imp fun r1 hx => hx.imp fun r2 hy =>
      ⟨hy.1, hy.2.1, hy.2.2.1, hy.2.2.2.1, hy.2.2.2.2.1.trans (by decide),
        hy.2.2.2.2.2.trans (by decide)⟩

theorem segments_length (s : List Byte) :
    ((Split s).flatMap (fun seg => toByte seg.length :: seg)).length = s.length + 1 := by
  induction s with
  | nil => rfl
  | cons b rest ih =>
    simp only [Split]
    split
    · simp only [List.flatMap_cons, List.length_cons, List.length_nil, List.cons_append,
        List.nil_append, ih]
    · cases hs : Split rest with
      | nil => exact absurd hs (Split_ne_nil rest)
      | cons seg segs =>
        rw [hs] at ih
        simp only [List.flatMap_cons, List.cons_append, List.length_cons, List.length_append]
          at ih ⊢
        omega

/-- C24: for every domain string, `parseDomainName domain` has `len(domain) + 2`
bytes, the last of them 0; and the answer records of a reply that passes the
header checks are decoded from the bytes after the 12 of the header and
`len(domain) + 2 + 4` more. -/
theorem C24_parseDomainName_length (domain : List Byte) :
    (parseDomainName domain).length = domain.length + 2 ∧
    (parseDomainName domain).getLast? = some 0 ∧
    ∀ (env : Env) (dnsServer : String) (timeout : Int) (reply : List Byte) (h : dnsHeader)
      (rest : List Byte), Received env dnsServer reply → h.WF → reply = writeHeader h ++ rest →
      h.Id = env.id % 65536 → h.Bits % 16 = 0 → h.Qdcount = 1 → 1 ≤ h.Ancount →
      (Dig env dnsServer domain timeout).ret =
        some (Except.ok (answerLoop h.Ancount
          (answerStart (reply.drop (12 + (domain.length + 2) + 4)) env.digTime)).res) := by
  have hlen : (parseDomainName domain).length = domain.length + 2 := by
    rw [parseDomainName_eq, List.length_append, segments_length]
    rfl
  refine ⟨hlen, ?_, fun env dnsServer timeout reply h rest hr hwf he hi hc hq ha => ?_⟩
  · rw [parseDomainName_eq, List.getLast?_append]
    rfl
  · rw [← hlen]
    exact Dig_answers_offset env dnsServer domain timeout reply h rest hr hwf he hi hc hq ha

theorem C24_parseDomainName_length_witness :
    (parseDomainName (ascii ".a..b.")).length = 8 ∧
      parseDomainName (ascii ".a..b.") = [0, 1, 97, 0, 1, 98, 0, 0] ∧
      (parseDomainName []).length = 2 ∧
      (parseDomainName (List.replicate 300 97)).length = 302 :=
  ⟨(C24_parseDomainName_length (ascii ".a..b.")).1.trans (by decide), by decide,
    (C24_parseDomainName_length []).1,
    (C24_parseDomainName_length (List.replicate 300 97)).1.trans
      (by rw [List.length_replicate])⟩

end Dns

/-! # Properties of the priority queue -/

namespace Priorityqueue

/-! ## Items, `Swap` and the keys -/

theorem at_set (pq : PriorityQueue) (i k : Nat) (a : Item) :
    at_ (pq.set i a) k = if k = i ∧ i < pq.length then a else at_ pq k := by
  unfold at_
  by_cases hk : k = i
  · subst hk
    by_cases hl : k < pq.length
    · simp [hl, List.getD_eq_getElem?_getD]
    · have h1 : (pq.set k a)[k]? = none := List.getElem?_eq_none (by simp; omega)
      have h2 : pq[k]? = none := List.getElem?_eq_none (by omega)
      simp [hl, List.getD_eq_getElem?_getD, h1, h2]
  · have : ¬ i = k := fun h => hk h.symm
    simp [hk, this, List.getD_eq_getElem?_getD, List.getElem?_set]

theorem length_Swap (pq : PriorityQueue) (i j : Nat) : (Swap pq i j).length = pq.length := by
  simp [Swap]

theorem at_Swap (pq : PriorityQueue) (i j k : Nat) (hi : i < pq.length) (hj : j < pq.length) :
    at_ (Swap pq i j) k =
      if k = j then { at_ pq i with index := j }
      else if k = i then { at_ pq j with index := i } else at_ pq k := by
  unfold Swap
  rw [at_set, at_set]
  simp only [List.length_set, hi, hj, and_true]

theorem prio_Swap (pq : PriorityQueue) (i j k : Nat) (hi : i < pq.length) (hj : j < pq.length) :
    prio (Swap pq i j) k =
      if k = j then prio pq i else if k = i then prio pq j else prio pq k := by
  unfold prio
  rw [at_Swap pq i j k hi hj]
  split
  · rfl
  · split <;> rfl

theorem IndexOK_Swap (pq : PriorityQueue) (i j : Nat) (hi : i < pq.length) (hj : j < pq.length)
    (h : IndexOK pq) : IndexOK (Swap pq i j) := by
  intro k hk
  rw [length_Swap] at hk
  rw [at_Swap pq i j k hi hj]
  split
  · rename_i hkj
    rw [hkj]
  · split
    · rename_i hki
      rw [hki]
    · exact h k hk

theorem perm_cons_set {α : Type} (d : α) : ∀ (t : List α) (j : Nat) (x : α), j < t.length →
    List.Perm (t.getD j d :: t.set j x) (x :: t) := by
  intro t
  induction t with
  | nil => intro j x h; simp at h
  | cons y t ih =>
    intro j x h
    cases j with
    | zero => exact List.Perm.swap _ _ _
    | succ j =>
      simp only [List.length_cons, Nat.add_lt_add_iff_right] at h
      simp only [List.getD_cons_succ, List.set_cons_succ]
      exact (List.Perm.swap _ _ _).trans (((ih j x h).cons y).trans (List.Perm.swap _ _ _))

theorem perm_set_set {α : Type} (d : α) : ∀ (l : List α) (i j : Nat), i < l.length →
    j < l.length → List.Perm ((l.set i (l.getD j d)).set j (l.getD i d)) l := by
  intro l
  induction l with
  | nil => intro i j h; simp at h
  | cons x t ih =>
    intro i j hi hj
    cases i with
    | zero =>
      cases j with
      | zero => simp
      | succ j =>
        simp only [List.length_cons, Nat.add_lt_add_iff_right] at hj
        simp only [List.set_cons_zero, List.getD_cons_succ, List.set_cons_succ,
          List.getD_cons_zero]
        exact perm_cons_set d t j x hj
    | succ i =>
      simp only [List.length_cons, Nat.add_lt_add_iff_right] at hi
      cases j with
      | zero =>
        simp only [List.getD_cons_zero, List.set_cons_succ, List.set_cons_zero,
          List.getD_cons_succ]
        exact perm_cons_set d t i x hi
      | succ j =>
        simp only [List.length_cons, Nat.add_lt_add_iff_right] at hj
        simp only [List.getD_cons_succ, List.set_cons_succ]
        exact (ih i j hi hj).cons x

theorem key_at (pq : PriorityQueue) (i : Nat) (hi : i < pq.length) :
    (at_ pq i).key = (keys pq).getD i (Item.key ⟨"", 0, 0⟩) := by
  simp [at_, keys, List.getD_eq_getElem?_getD, hi]

theorem keys_Swap (pq : PriorityQueue) (i j : Nat) (hi : i < pq.length) (hj : j < pq.length) :
    List.Perm (keys (Swap pq i j)) (keys pq) := by
  have h : keys (Swap pq i j) =
      ((keys pq).set i ((keys pq).getD j (Item.key ⟨"", 0, 0⟩))).set j
        ((keys pq).getD i (Item.key ⟨"", 0, 0⟩)) := by
    rw [← key_at pq i hi, ← key_at pq j hj]
    simp only [keys, Swap, List.map_set]
    rfl
  rw [h]
  exact perm_set_set _ _ i j (by simpa [keys] using hi) (by simpa [keys] using hj)

/-! ## The heap order through `down` and `up` -/

theorem heapRange_of (pq : PriorityQueue) (lo n i : Nat) (hE : HeapExcept pq lo n i)
    (hU : UpOK pq lo i) (hD : DownOK pq n i) : HeapRange pq lo n := by
  intro p c hlo hcn hpc
  by_cases hci : c = i
  · rw [hci]
    exact hU p hlo (hci ▸ hpc)
  · by_cases hpi : p = i
    · rw [hpi]
      exact hD c hcn (hpi ▸ hpc)
    · exact hE.1 p c hlo hcn hpc hci hpi

theorem heapExcept_of_range (pq : PriorityQueue) (lo n i : Nat) (h : HeapRange pq lo n)
    (h2 : ∀ g c, lo ≤ g → c < n → Child g i → Child i c → prio pq c ≤ prio pq g) :
    HeapExcept pq lo n i :=
  ⟨fun p c hlo hcn hpc _ _ => h p c hlo hcn hpc, h2⟩

/-- One pass of `down` that swaps `i` with its greater child `j`. -/
theorem down_swap (pq : PriorityQueue) (lo n i j : Nat) (hi : i < pq.length)
    (hj : j < pq.length) (hjn : j < n) (hc : Child i j) (hE : HeapExcept pq lo n i)
    (hmax : ∀ c, c < n → Child i c → prio pq c ≤ prio pq j) (hlt : prio pq i < prio pq j) :
    HeapExcept (Swap pq i j) lo n j ∧ UpOK (Swap pq i j) lo j := by
  obtain ⟨E1, E2⟩ := hE
  have hij : i ≠ j := by unfold Child at hc; omega
  refine ⟨⟨?_, ?_⟩, ?_⟩
  · intro p c hlo hcn hpc hcj hpj
    rw [prio_Swap pq i j c hi hj, prio_Swap pq i j p hi hj, if_neg hcj, if_neg hpj]
    by_cases hci : c = i
    · have hpi : p ≠ i := by unfold Child at hpc; omega
      rw [if_pos hci, if_neg hpi]
      exact E2 p j hlo hjn (hci ▸ hpc) hc
    · rw [if_neg hci]
      by_cases hpi : p = i
      · rw [if_pos hpi]
        exact hmax c hcn (hpi ▸ hpc)
      · rw [if_neg hpi]
        exact E1 p c hlo hcn hpc hci hpi
  · intro g c hlo hcn hgj hjc
    have hgi : g = i := by unfold Child at hgj hc; omega
    have hcj : c ≠ j := by unfold Child at hjc; omega
    have hci : c ≠ i := by unfold Child at hjc hc; omega
    rw [prio_Swap pq i j c hi hj, prio_Swap pq i j g hi hj, if_neg hcj, if_neg hci,
      if_neg (by omega : ¬ g = j), if_pos hgi]
    exact E1 j c (by unfold Child at hc; omega) hcn hjc hci (fun h => hij h.symm)
  · intro p hlo hpj
    have hpi : p = i := by unfold Child at hpj hc; omega
    rw [prio_Swap pq i j j hi hj, prio_Swap pq i j p hi hj, if_pos rfl,
      if_neg (by omega : ¬ p = j), if_pos hpi]
    omega

/-- One pass of `up` that swaps `j` with its parent `i`. -/
theorem up_swap (pq : PriorityQueue) (n i j : Nat) (hi : i < pq.length) (hj : j < pq.length)
    (hc : Child i j) (hE : HeapExcept pq 0 n j) (hin : i < n)
    (hlt : prio pq i < prio pq j) :
    HeapExcept (Swap pq i j) 0 n i ∧ DownOK (Swap pq i j) n i := by
  obtain ⟨E1, E2⟩ := hE
  have hij : i ≠ j := by unfold Child at hc; omega
  refine ⟨⟨?_, ?_⟩, ?_⟩
  · intro p c hlo hcn hpc hci hpi
    have hcj : c ≠ j := by unfold Child at hpc hc; omega
    rw [prio_Swap pq i j c hi hj, prio_Swap pq i j p hi hj, if_neg hcj, if_neg hci, if_neg hpi]
    by_cases hpj : p = j
    · rw [if_pos hpj]
      exact E2 i c (Nat.zero_le _) hcn hc (hpj ▸ hpc)
    · rw [if_neg hpj]
      exact E1 p c hlo hcn hpc hcj hpj
  · intro g c hlo hcn hgi hic
    have hgj : g ≠ j := by unfold Child at hgi hc; omega
    have hgi2 : g ≠ i := by unfold Child at hgi; omega
    have hci : c ≠ i := by unfold Child at hic; omega
    have h1 : prio pq i ≤ prio pq g := E1 g i hlo hin hgi hij hgj
    rw [prio_Swap pq i j c hi hj, prio_Swap pq i j g hi hj, if_neg hgj, if_neg hgi2]
    by_cases hcj : c = j
    · rw [if_pos hcj]
      exact h1
    · rw [if_neg hcj, if_neg hci]
      have h2 : prio pq c ≤ prio pq i := E1 i c (Nat.zero_le _) hcn hic hcj hij
      omega
  · intro c hcn hic
    have hci : c ≠ i := by unfold Child at hic; omega
    rw [prio_Swap pq i j c hi hj, prio_Swap pq i j i hi hj, if_neg hij, if_pos rfl]
    by_cases hcj : c = j
    · rw [if_pos hcj]
      omega
    · rw [if_neg hcj, if_neg hci]
      have h2 : prio pq c ≤ prio pq i := E1 i c (Nat.zero_le _) hcn hic hcj hij
      omega

theorem downLoop_succ (fuel : Nat) (pq : PriorityQueue) (i n : Nat) :
    downLoop (fuel + 1) pq i n =
      if 2 * i + 1 ≥ n then (pq, i)
      else if Less pq (greaterChild pq i n) i = false then (pq, i)
      else downLoop fuel (Swap pq i (greaterChild pq i n)) (greaterChild pq i n) n := rfl

theorem greaterChild_spec (pq : PriorityQueue) (i n : Nat) (h : ¬ 2 * i + 1 ≥ n) :
    greaterChild pq i n < n ∧ Child i (greaterChild pq i n) ∧
      ∀ c, c < n → Child i c → prio pq c ≤ prio pq (greaterChild pq i n) := by
  unfold greaterChild Child
  split
  · rename_i hcond
    have hl : prio pq (2 * i + 1 + 1) > prio pq (2 * i + 1) := by
      simpa [Less, prio] using hcond.2
    refine ⟨hcond.1, Or.inr rfl, fun c hcn hic => ?_⟩
    rcases hic with h1 | h1
    · rw [h1]; omega
    · rw [h1]
  · rename_i hcond
    refine ⟨by omega, Or.inl rfl, fun c hcn hic => ?_⟩
    rcases hic with h1 | h1
    · rw [h1]
    · have hnl : ¬ (Less pq (2 * i + 1 + 1) (2 * i + 1) = true) := fun hl =>
        hcond ⟨by omega, hl⟩
      have hl : ¬ prio pq (2 * i + 1 + 1) > prio pq (2 * i + 1) := by
        simpa [Less, prio] using hnl
      rw [h1]
      show prio pq (2 * i + 1 + 1) ≤ prio pq (2 * i + 1)
      omega

/-- What `down` leaves alone: the length, the items as a collection, the index
fields being the positions, the positions from `n` on; it only moves forward. -/
theorem downLoop_struct (n : Nat) : ∀ (fuel : Nat) (pq : PriorityQueue) (i : Nat),
    n ≤ pq.length →
      (downLoop fuel pq i n).1.length = pq.length ∧
      List.Perm (keys (downLoop fuel pq i n).1) (keys pq) ∧
      (IndexOK pq → IndexOK (downLoop fuel pq i n).1) ∧
      (∀ k, n ≤ k → at_ (downLoop fuel pq i n).1 k = at_ pq k) ∧
      i ≤ (downLoop fuel pq i n).2 ∧
      ((downLoop fuel pq i n).2 = i → (downLoop fuel pq i n).1 = pq) := by
  intro fuel
  induction fuel with
  | zero =>
    intro pq i hn
    exact ⟨rfl, List.Perm.refl _, id, fun _ _ => rfl, Nat.le_refl _, fun _ => rfl⟩
  | succ fuel ih =>
    intro pq i hn
    rw [downLoop_succ]
    by_cases hj1 : 2 * i + 1 ≥ n
    · rw [if_pos hj1]
      exact ⟨rfl, List.Perm.refl _, id, fun _ _ => rfl, Nat.le_refl _, fun _ => rfl⟩
    · rw [if_neg hj1]
      obtain ⟨hjn, hc, -⟩ := greaterChild_spec pq i n hj1
      generalize greaterChild pq i n = j at hjn hc ⊢
      by_cases hless : Less pq j i = false
      · rw [if_pos hless]
        exact ⟨rfl, List.Perm.refl _, id, fun _ _ => rfl, Nat.le_refl _, fun _ => rfl⟩
      · rw [if_neg hless]
        have hij : i < j := by unfold Child at hc; omega
        have hi : i < pq.length := by omega
        have hj : j < pq.length := by omega
        obtain ⟨a1, a2, a3, a4, a5, a6⟩ := ih (Swap pq i j) j (by rw [length_Swap]; exact hn)
        refine ⟨by rw [a1, length_Swap], a2.trans (keys_Swap pq i j hi hj),
          fun h => a3 (IndexOK_Swap pq i j hi hj h), ?_, by omega, fun h => by omega⟩
        intro k hk
        rw [a4 k hk, at_Swap pq i j k hi hj, if_neg (by omega), if_neg (by omega)]

/-- The heap order after `down`: it holds from `lo` on except for the parent of
the position reached, and for that one too when the item has moved. -/
theorem downLoop_heap (lo n : Nat) : ∀ (fuel : Nat) (pq : PriorityQueue) (i : Nat),
    n ≤ i + fuel → n ≤ pq.length → HeapExcept pq lo n i →
      HeapExcept (downLoop fuel pq i n).1 lo n (downLoop fuel pq i n).2 ∧
      DownOK (downLoop fuel pq i n).1 n (downLoop fuel pq i n).2 ∧
      (UpOK pq lo i ∨ i < (downLoop fuel pq i n).2 →
        UpOK (downLoop fuel pq i n).1 lo (downLoop fuel pq i n).2) := by
  intro fuel
  induction fuel with
  | zero =>
    intro pq i hfuel hn hE
    have h0 : downLoop 0 pq i n = (pq, i) := rfl
    rw [h0]
    refine ⟨hE, fun c hcn hic => by unfold Child at hic; omega, fun h => ?_⟩
    rcases h with h | h
    · exact h
    · exact absurd h (Nat.lt_irrefl _)
  | succ fuel ih =>
    intro pq i hfuel hn hE
    rw [downLoop_succ]
    by_cases hj1 : 2 * i + 1 ≥ n
    · rw [if_pos hj1]
      refine ⟨hE, fun c hcn hic => by unfold Child at hic; omega, fun h => ?_⟩
      rcases h with h | h
      · exact h
      · exact absurd h (Nat.lt_irrefl _)
    · rw [if_neg hj1]
      obtain ⟨hjn, hc, hmax⟩ := greaterChild_spec pq i n hj1
      generalize greaterChild pq i n = j at hjn hc hmax ⊢
      by_cases hless : Less pq j i = false
      · rw [if_pos hless]
        have hle : prio pq j ≤ prio pq i := by
          have : ¬ prio pq j > prio pq i := by simpa [Less, prio] using hless
          omega
        refine ⟨hE, fun c hcn hic => le_trans (hmax c hcn hic) hle, fun h => ?_⟩
        rcases h with h | h
        · exact h
        · exact absurd h (Nat.lt_irrefl _)
      · rw [if_neg hless]
        have hlt : prio pq i < prio pq j := by
          have : Less pq j i = true := by simpa using hless
          simpa [Less, prio] using this
        have hi : i < pq.length := by unfold Child at hc; omega
        have hj : j < pq.length := by omega
        obtain ⟨s1, s2⟩ := down_swap pq lo n i j hi hj hjn hc hE hmax hlt
        obtain ⟨a1, a2, a3⟩ := ih (Swap pq i j) j (by unfold Child at hc; omega)
          (by rw [length_Swap]; exact hn) s1
        exact ⟨a1, a2, fun _ => a3 (Or.inl s2)⟩

theorem upLoop_succ (fuel : Nat) (pq : PriorityQueue) (j : Nat) :
    upLoop (fuel + 1) pq j =
      if (j - 1) / 2 = j ∨ Less pq j ((j - 1) / 2) = false then pq
      else upLoop fuel (Swap pq ((j - 1) / 2) j) ((j - 1) / 2) := rfl

/-- What `up` leaves alone. -/
theorem upLoop_struct : ∀ (fuel : Nat) (pq : PriorityQueue) (j : Nat), j < pq.length →
    (upLoop fuel pq j).length = pq.length ∧ List.Perm (keys (upLoop fuel pq j)) (keys pq) ∧
      (IndexOK pq → IndexOK (upLoop fuel pq j)) := by
  intro fuel
  induction fuel with
  | zero => intro pq j hj; exact ⟨rfl, List.Perm.refl _, id⟩
  | succ fuel ih =>
    intro pq j hj
    rw [upLoop_succ]
    split
    · exact ⟨rfl, List.Perm.refl _, id⟩
    · rename_i hcond
      have hi : (j - 1) / 2 < pq.length := by omega
      obtain ⟨a1, a2, a3⟩ := ih (Swap pq ((j - 1) / 2) j) ((j - 1) / 2)
        (by rw [length_Swap]; exact hi)
      exact ⟨by rw [a1, length_Swap], a2.trans (keys_Swap pq _ j hi hj),
        fun h => a3 (IndexOK_Swap pq _ j hi hj h)⟩

/-- The heap order after `up`. -/
theorem upLoop_heap (n : Nat) : ∀ (fuel : Nat) (pq : PriorityQueue) (j : Nat),
    j ≤ fuel → j < n → n ≤ pq.length → HeapExcept pq 0 n j → DownOK pq n j →
      HeapRange (upLoop fuel pq j) 0 n := by
  intro fuel
  induction fuel with
  | zero =>
    intro pq j hfuel hjn hn hE hD
    exact heapRange_of pq 0 n j hE (fun p _ hpj => by unfold Child at hpj; omega) hD
  | succ fuel ih =>
    intro pq j hfuel hjn hn hE hD
    rw [upLoop_succ]
    split
    · rename_i hcond
      refine heapRange_of pq 0 n j hE (fun p _ hpj => ?_) hD
      rcases hcond with h | h
      · unfold Child at hpj; omega
      · have hp : p = (j - 1) / 2 := by unfold Child at hpj; omega
        have : ¬ prio pq j > prio pq ((j - 1) / 2) := by simpa [Less, prio] using h
        rw [hp]
        omega
    · rename_i hcond
      have hne : ¬ (j - 1) / 2 = j := fun h => hcond (Or.inl h)
      have hless : Less pq j ((j - 1) / 2) = true := by
        cases hl : Less pq j ((j - 1) / 2)
        · exact absurd (Or.inr hl) hcond
        · rfl
      have hlt : prio pq ((j - 1) / 2) < prio pq j := by simpa [Less, prio] using hless
      have hc : Child ((j - 1) / 2) j := by unfold Child; omega
      have hj : j < pq.length := by omega
      have hi : (j - 1) / 2 < pq.length := by omega
      obtain ⟨s1, s2⟩ := up_swap pq n ((j - 1) / 2) j hi hj hc hE (by omega) hlt
      exact ih (Swap pq ((j - 1) / 2) j) ((j - 1) / 2) (by omega) (by omega)
        (by rw [length_Swap]; exact hn) s1 s2

/-- The passes `down` is given are never used up: more of them change nothing. -/
theorem downLoop_fuel (n : Nat) : ∀ (fuel : Nat) (pq : PriorityQueue) (i : Nat),
    n ≤ i + fuel → ∀ extra, downLoop (fuel + extra) pq i n = downLoop fuel pq i n := by
  intro fuel
  induction fuel with
  | zero =>
    intro pq i h extra
    cases extra with
    | zero => rfl
    | succ extra =>
      rw [Nat.zero_add, downLoop_succ, if_pos (by omega)]
      rfl
  | succ fuel ih =>
    intro pq i h extra
    rw [Nat.add_right_comm, downLoop_succ, downLoop_succ]
    by_cases hj1 : 2 * i + 1 ≥ n
    · rw [if_pos hj1, if_pos hj1]
    · rw [if_neg hj1, if_neg hj1]
      obtain ⟨-, hc, -⟩ := greaterChild_spec pq i n hj1
      rw [ih _ _ (by unfold Child at hc; omega) extra]

/-- The passes `up` is given are never used up: more of them change nothing. -/
theorem upLoop_fuel : ∀ (fuel : Nat) (pq : PriorityQueue) (j : Nat),
    j ≤ fuel → ∀ extra, upLoop (fuel + extra) pq j = upLoop fuel pq j := by
  intro fuel
  induction fuel with
  | zero =>
    intro pq j h extra
    cases extra with
    | zero => rfl
    | succ extra =>
      rw [Nat.zero_add, upLoop_succ, if_pos (Or.inl (by omega))]
      rfl
  | succ fuel ih =>
    intro pq j h extra
    rw [Nat.add_right_comm, upLoop_succ, upLoop_succ]
    split
    · rfl
    · exact ih _ _ (by omega) extra


/-! ## The heap functions -/

theorem IsHeap_iff (pq : PriorityQueue) : IsHeap pq ↔ HeapRange pq 0 pq.length := by
  constructor
  · intro h p c _ hcn hpc
    rcases hpc with hc | hc
    · rw [hc]
      exact (h p).1 (by omega)
    · rw [hc]
      exact (h p).2 (by omega)
  · intro h k
    exact ⟨fun hk => h k _ (Nat.zero_le _) hk (Or.inl rfl),
      fun hk => h k _ (Nat.zero_le _) hk (Or.inr rfl)⟩

theorem down_fst (pq : PriorityQueue) (i n : Nat) : (down pq i n).1 = (downLoop n pq i n).1 := rfl

theorem initLoop_spec (n : Nat) : ∀ (k : Nat) (pq : PriorityQueue), n = pq.length →
    HeapRange pq k n →
      (initLoop n k pq).length = pq.length ∧ List.Perm (keys (initLoop n k pq)) (keys pq) ∧
      (IndexOK pq → IndexOK (initLoop n k pq)) ∧ HeapRange (initLoop n k pq) 0 n := by
  intro k
  induction k with
  | zero => intro pq _ h; exact ⟨rfl, List.Perm.refl _, id, h⟩
  | succ k ih =>
    intro pq hn h
    have hE : HeapExcept pq k n k :=
      ⟨fun p c hlo hcn hpc _ hpk => h p c (by omega) hcn hpc,
        fun g c hlo _ hgk _ => by unfold Child at hgk; omega⟩
    have hU : UpOK pq k k := fun p hlo hpk => by unfold Child at hpk; omega
    obtain ⟨a1, a2, a3, -, -, -⟩ := downLoop_struct n n pq k (by omega)
    obtain ⟨b1, b2, b3⟩ := downLoop_heap k n n pq k (by omega) (by omega) hE
    have hR : HeapRange (downLoop n pq k n).1 k n := heapRange_of _ k n _ b1 (b3 (Or.inl hU)) b2
    obtain ⟨c1, c2, c3, c4⟩ := ih (downLoop n pq k n).1 (by rw [a1]; exact hn) hR
    show (initLoop n k (down pq k n).1).length = pq.length ∧ _
    rw [down_fst]
    exact ⟨by rw [c1, a1], c2.trans a2, fun hidx => c3 (a3 hidx), c4⟩

theorem heapInit_spec (pq : PriorityQueue) :
    (heapInit pq).length = pq.length ∧ List.Perm (keys (heapInit pq)) (keys pq) ∧
      (IndexOK pq → Inv (heapInit pq)) := by
  have h0 : HeapRange pq (pq.length / 2) pq.length := by
    intro p c hlo hcn hpc
    unfold Child at hpc
    omega
  obtain ⟨c1, c2, c3, c4⟩ := initLoop_spec pq.length (pq.length / 2) pq rfl h0
  refine ⟨c1, c2, fun hidx => ⟨(IsHeap_iff _).2 ?_, c3 hidx⟩⟩
  show HeapRange (initLoop pq.length (pq.length / 2) pq) 0 (initLoop pq.length (pq.length / 2) pq).length
  rw [c1]
  exact c4

theorem at_append_left (pq : PriorityQueue) (x : Item) (k : Nat) (hk : k < pq.length) :
    at_ (pq ++ [x]) k = at_ pq k := by
  simp [at_, List.getD_eq_getElem?_getD, List.getElem?_append_left hk]

theorem at_append_last (pq : PriorityQueue) (x : Item) : at_ (pq ++ [x]) pq.length = x := by
  simp [at_, List.getD_eq_getElem?_getD]

theorem heapPush_spec (pq : PriorityQueue) (item : Item) :
    (heapPush pq item).length = pq.length + 1 ∧
      List.Perm (keys (heapPush pq item)) (item.key :: keys pq) ∧
      (Inv pq → Inv (heapPush pq item)) := by
  have hlen : (Push pq item).length = pq.length + 1 := by simp [Push]
  have hlast : Len (Push pq item) - 1 = pq.length := by simp [Len, hlen]
  have hkeys : List.Perm (keys (Push pq item)) (item.key :: keys pq) := by
    simp only [keys, Push, List.map_append, List.map_cons, List.map_nil]
    exact List.perm_append_comm
  obtain ⟨a1, a2, a3⟩ := upLoop_struct pq.length (Push pq item) pq.length (by omega)
  unfold heapPush up
  simp only [hlast]
  refine ⟨by rw [a1, hlen], a2.trans hkeys, fun hinv => ?_⟩
  obtain ⟨hheap, hidx⟩ := hinv
  have hidx2 : IndexOK (Push pq item) := by
    intro k hk
    rw [hlen] at hk
    by_cases hkl : k < pq.length
    · rw [Push, at_append_left pq _ k hkl]
      exact hidx k hkl
    · have : k = pq.length := by omega
      rw [this, Push, at_append_last]
  have hR := (IsHeap_iff pq).1 hheap
  have hp : ∀ k, k < pq.length → prio (Push pq item) k = prio pq k := fun k hk => by
    unfold prio
    rw [Push, at_append_left pq _ k hk]
  have hE : HeapExcept (Push pq item) 0 (pq.length + 1) pq.length := by
    refine ⟨fun p c hlo hcn hpc hc hpn => ?_, fun g c _ hcn _ hnc => by
      unfold Child at hnc; omega⟩
    have hcl : c < pq.length := by omega
    have hpl : p < pq.length := by unfold Child at hpc; omega
    rw [hp c hcl, hp p hpl]
    exact hR p c hlo hcl hpc
  have hD : DownOK (Push pq item) (pq.length + 1) pq.length := fun c hcn hnc => by
    unfold Child at hnc; omega
  refine ⟨(IsHeap_iff _).2 ?_, a3 hidx2⟩
  rw [a1, hlen]
  exact upLoop_heap (pq.length + 1) pq.length (Push pq item) pq.length (Nat.le_refl _)
    (by omega) (by omega) hE hD

/-- `heap.Fix` at position `k` of a heap in which the priority at `k` has been
changed. -/
theorem heapFix_spec (pq : PriorityQueue) (k : Nat) (hk : k < pq.length) (it : Item) :
    (heapFix (pq.set k it) k).length = pq.length ∧
      List.Perm (keys (heapFix (pq.set k it) k)) ((keys pq).set k it.key) ∧
      (Inv pq → it.index = k → Inv (heapFix (pq.set k it) k)) := by
  have hlen : (pq.set k it).length = pq.length := List.length_set _ _ _
  have hkeys : keys (pq.set k it) = (keys pq).set k it.key := by simp [keys, List.map_set]
  obtain ⟨a1, a2, a3, -, a5, a6⟩ :=
    downLoop_struct (pq.set k it).length (pq.set k it).length (pq.set k it) k (Nat.le_refl _)
  have hInvPart : Inv pq → it.index = k →
      HeapExcept (pq.set k it) 0 pq.length k ∧ IndexOK (pq.set k it) := by
    rintro ⟨hheap, hidx⟩ hik
    have hR := (IsHeap_iff pq).1 hheap
    have hp : ∀ m, m ≠ k → prio (pq.set k it) m = prio pq m := fun m hm => by
      unfold prio
      rw [at_set, if_neg (fun h => hm h.1)]
    refine ⟨⟨fun p c hlo hcn hpc hc hpk => ?_, fun g c hlo hcn hgk hkc => ?_⟩, ?_⟩
    · rw [hp c hc, hp p hpk]
      exact hR p c hlo hcn hpc
    · have hck : c ≠ k := by unfold Child at hkc; omega
      have hgk2 : g ≠ k := by unfold Child at hgk; omega
      rw [hp c hck, hp g hgk2]
      exact le_trans (hR k c (Nat.zero_le _) hcn hkc) (hR g k hlo hk hgk)
    · intro m hm
      rw [hlen] at hm
      rw [at_set]
      split
      · rename_i h
        rw [h.1]
        exact hik
      · exact hidx m hm
  unfold heapFix down Len
  simp only [hlen] at a1 a2 a3 a5 a6 ⊢
  by_cases hmoved : (downLoop pq.length (pq.set k it) k pq.length).2 > k
  · simp only [hmoved, decide_True, Bool.true_eq_false, if_false]
    refine ⟨a1, hkeys ▸ a2, fun hinv hik => ?_⟩
    obtain ⟨hE, hidx⟩ := hInvPart hinv hik
    obtain ⟨b1, b2, b3⟩ := downLoop_heap 0 pq.length pq.length (pq.set k it) k (by omega)
      (by rw [hlen]) hE
    refine ⟨(IsHeap_iff _).2 ?_, a3 hidx⟩
    rw [a1]
    exact heapRange_of _ 0 _ _ b1 (b3 (Or.inr hmoved)) b2
  · simp only [hmoved, decide_False, if_true]
    have heq : (downLoop pq.length (pq.set k it) k pq.length).2 = k := by omega
    rw [a6 heq]
    obtain ⟨c1, c2, c3⟩ := upLoop_struct k (pq.set k it) k (by rw [hlen]; exact hk)
    unfold up
    refine ⟨by rw [c1, hlen], hkeys ▸ c2, fun hinv hik => ?_⟩
    obtain ⟨hE, hidx⟩ := hInvPart hinv hik
    obtain ⟨b1, b2, b3⟩ := downLoop_heap 0 pq.length pq.length (pq.set k it) k (by omega)
      (by rw [hlen]) hE
    rw [heq, a6 heq] at b2
    refine ⟨(IsHeap_iff _).2 ?_, c3 hidx⟩
    rw [c1, hlen]
    exact upLoop_heap pq.length k (pq.set k it) k (Nat.le_refl _) hk (by rw [hlen]) hE b2

/-! ## `Take` -/

theorem at_dropLast (pq : PriorityQueue) (k : Nat) (hk : k + 1 < pq.length) :
    at_ pq.dropLast k = at_ pq k := by
  have h1 : k < pq.dropLast.length := by simp; omega
  simp only [at_, List.getD_eq_getElem?_getD, List.getElem?_eq_getElem h1,
    List.getElem?_eq_getElem (by omega : k < pq.length), List.getElem_dropLast]

theorem eq_dropLast_append (pq : PriorityQueue) (h : 0 < pq.length) :
    pq = pq.dropLast ++ [at_ pq (pq.length - 1)] := by
  have hne : pq ≠ [] := by
    intro h0
    rw [h0] at h
    exact absurd h (Nat.lt_irrefl _)
  have hlast : at_ pq (pq.length - 1) = pq.getLast hne := by
    simp only [at_, List.getD_eq_getElem?_getD,
      List.getElem?_eq_getElem (by omega : pq.length - 1 < pq.length), Option.getD_some,
      List.getLast_eq_getElem]
  rw [hlast, List.dropLast_append_getLast]

/-- In a heap no priority is higher than the one at position 0. -/
theorem root_max (pq : PriorityQueue) (h : IsHeap pq) :
    ∀ k, k < pq.length → prio pq k ≤ prio pq 0 := by
  intro k
  induction k using Nat.strong_induction_on with
  | _ k ih =>
    intro hk
    by_cases h0 : k = 0
    · rw [h0]
    · have hp : (k - 1) / 2 < k := by omega
      have h1 := ih _ hp (by omega)
      have h2 : prio pq k ≤ prio pq ((k - 1) / 2) :=
        (IsHeap_iff pq).1 h _ k (Nat.zero_le _) hk (by unfold Child; omega)
      omega

theorem mem_iff_at (pq : PriorityQueue) (x : Item) : x ∈ pq ↔ ∃ k, k < pq.length ∧ at_ pq k = x := by
  rw [List.mem_iff_getElem]
  constructor
  · rintro ⟨k, hk, hx⟩
    exact ⟨k, hk, by simp [at_, List.getD_eq_getElem?_getD, List.getElem?_eq_getElem hk, hx]⟩
  · rintro ⟨k, hk, hx⟩
    refine ⟨k, hk, ?_⟩
    simpa [at_, List.getD_eq_getElem?_getD, List.getElem?_eq_getElem hk] using hx

theorem heapPop_spec (pq : PriorityQueue) (hne : 0 < pq.length) :
    (heapPop pq).1 = { at_ pq 0 with index := -1 } ∧
      (heapPop pq).2.length = pq.length - 1 ∧
      List.Perm (keys pq) ((heapPop pq).1.key :: keys (heapPop pq).2) ∧
      (Inv pq → Inv (heapPop pq).2) := by
  have h0 : 0 < pq.length := hne
  have hn : pq.length - 1 < pq.length := by omega
  have hl1 : (Swap pq 0 (pq.length - 1)).length = pq.length := length_Swap _ _ _
  obtain ⟨a1, a2, a3, a4, -, -⟩ := downLoop_struct (pq.length - 1) (pq.length - 1)
    (Swap pq 0 (pq.length - 1)) 0 (by rw [hl1]; omega)
  rw [hl1] at a1
  have hlast : at_ (downLoop (pq.length - 1) (Swap pq 0 (pq.length - 1)) 0 (pq.length - 1)).1
      (pq.length - 1) = { at_ pq 0 with index := ((pq.length - 1 : Nat) : Int) } := by
    rw [a4 _ (Nat.le_refl _), at_Swap pq 0 _ _ h0 hn, if_pos rfl]
  have hpop : heapPop pq =
      Pop (downLoop (pq.length - 1) (Swap pq 0 (pq.length - 1)) 0 (pq.length - 1)).1 := rfl
  rw [hpop]
  generalize hq : (downLoop (pq.length - 1) (Swap pq 0 (pq.length - 1)) 0 (pq.length - 1)).1 = q
    at a1 a2 a3 a4 hlast
  have hq0 : 0 < q.length := by omega
  have hsplit := eq_dropLast_append q hq0
  rw [a1, hlast] at hsplit
  refine ⟨?_, ?_, ?_, ?_⟩
  · simp only [Pop, a1, hlast]
  · simp only [Pop, List.length_dropLast, a1]
  · have hk : List.Perm (keys q) (keys pq) := a2.trans (keys_Swap pq 0 _ h0 hn)
    refine hk.symm.trans ?_
    have : keys q = keys q.dropLast ++ [(at_ pq 0).key] := by
      conv_lhs => rw [hsplit]
      simp [keys, Item.key]
    rw [this]
    simp only [Pop, a1, hlast]
    exact List.perm_append_comm
  · rintro ⟨hheap, hidx⟩
    have hR := (IsHeap_iff pq).1 hheap
    have hE : HeapExcept (Swap pq 0 (pq.length - 1)) 0 (pq.length - 1) 0 := by
      refine ⟨fun p c hlo hcn hpc hc hp => ?_, fun g c _ _ hg0 _ => by
        unfold Child at hg0; omega⟩
      have hpn : p ≠ pq.length - 1 := by unfold Child at hpc; omega
      rw [prio_Swap pq 0 _ c h0 hn, prio_Swap pq 0 _ p h0 hn, if_neg (by omega), if_neg hc,
        if_neg hpn, if_neg hp]
      exact hR p c hlo (by omega) hpc
    have hU : UpOK (Swap pq 0 (pq.length - 1)) 0 0 := fun p _ hp0 => by
      unfold Child at hp0; omega
    obtain ⟨b1, b2, b3⟩ := downLoop_heap 0 (pq.length - 1) (pq.length - 1)
      (Swap pq 0 (pq.length - 1)) 0 (by omega) (by rw [hl1]; omega) hE
    have hR2 := heapRange_of _ 0 _ _ b1 (b3 (Or.inl hU)) b2
    rw [hq] at hR2
    have hidx2 : IndexOK q := a3 (IndexOK_Swap pq 0 _ h0 hn hidx)
    have hrest : ∀ k, k < pq.length - 1 → at_ (Pop q).2 k = at_ q k := fun k hk => by
      simp only [Pop]
      exact at_dropLast q k (by omega)
    have hlen : (Pop q).2.length = pq.length - 1 := by simp only [Pop, List.length_dropLast, a1]
    refine ⟨(IsHeap_iff _).2 ?_, ?_⟩
    · rw [hlen]
      intro p c hlo hcn hpc
      have hpl : p < pq.length - 1 := by unfold Child at hpc; omega
      unfold prio
      rw [hrest c hcn, hrest p hpl]
      exact hR2 p c hlo hcn hpc
    · intro k hk
      rw [hlen] at hk
      rw [hrest k hk]
      exact hidx2 k (by omega)

theorem Take_nil : Take [] = (none, []) := rfl

theorem Take_of_pos (pq : PriorityQueue) (h : 0 < pq.length) :
    Take pq = (some (heapPop pq).1, (heapPop pq).2) := by
  unfold Take Len
  rw [if_neg (by omega)]

/-- The item `Take` returns from a queue that keeps the invariant has the
highest priority of the queue. -/
theorem heapPop_max (pq : PriorityQueue) (h : IsHeap pq) (hne : 0 < pq.length) :
    ∀ x ∈ pq, x.priority ≤ (heapPop pq).1.priority := by
  intro x hx
  obtain ⟨k, hk, hxk⟩ := (mem_iff_at pq x).1 hx
  rw [(heapPop_spec pq hne).1, ← hxk]
  exact root_max pq h k hk

/-! ## Building and updating the queue -/

theorem buildItems_length : ∀ (items : List (String × Int)) (i : Nat),
    (buildItems i items).length = items.length := by
  intro items
  induction items with
  | nil => intro i; rfl
  | cons x items ih => intro i; simp [buildItems, ih]

theorem buildItems_keys : ∀ (items : List (String × Int)) (i : Nat),
    keys (buildItems i items) = items := by
  intro items
  induction items with
  | nil => intro i; rfl
  | cons x items ih =>
    intro i
    have := ih (i + 1)
    simp only [keys] at this
    simp [buildItems, keys, Item.key, this]

theorem buildItems_index : ∀ (items : List (String × Int)) (i k : Nat), k < items.length →
    (at_ (buildItems i items) k).index = ((i + k : Nat) : Int) := by
  intro items
  induction items with
  | nil => intro i k hk; simp at hk
  | cons x items ih =>
    intro i k hk
    cases k with
    | zero => simp [buildItems, at_]
    | succ k =>
      simp only [List.length_cons, Nat.add_lt_add_iff_right] at hk
      have := ih (i + 1) k hk
      simp only [at_] at this
      simp only [buildItems, at_, List.getD_cons_succ, this]
      congr 1
      omega

theorem buildItems_IndexOK (items : List (String × Int)) : IndexOK (buildItems 0 items) := by
  intro k hk
  rw [buildItems_length] at hk
  rw [buildItems_index items 0 k hk, Nat.zero_add]

theorem InitPriorityQueueMap_spec (items : List (String × Int)) :
    (InitPriorityQueueMap items).length = items.length ∧
      List.Perm (keys (InitPriorityQueueMap items)) items ∧ Inv (InitPriorityQueueMap items) := by
  obtain ⟨h1, h2, h3⟩ := heapInit_spec (buildItems 0 items)
  rw [buildItems_length] at h1
  rw [buildItems_keys] at h2
  exact ⟨h1, h2, h3 (buildItems_IndexOK items)⟩

theorem InitPriorityQueue_spec (items : List String) :
    (InitPriorityQueue items).length = items.length ∧
      List.Perm (keys (InitPriorityQueue items)) (items.map (fun value => (value, 0))) ∧
      Inv (InitPriorityQueue items) := by
  have := InitPriorityQueueMap_spec (items.map (fun value => (value, (0 : Int))))
  rw [List.length_map] at this
  exact this

/-- The `range` loop of `UpdatePriorityQueue` finds the first item with the
value, if there is one. -/
theorem findValue_some (value : String) : ∀ (pq : PriorityQueue) (k : Nat),
    findValue value pq = some k →
      ∃ pre it post, pq = pre ++ it :: post ∧ pre.length = k ∧ it.value = value ∧
        ∀ x ∈ pre, x.value ≠ value := by
  intro pq
  induction pq with
  | nil => intro k h; simp [findValue] at h
  | cons x pq ih =>
    intro k h
    simp only [findValue] at h
    split at h
    · rename_i hx
      simp only [Option.some.injEq] at h
      exact ⟨[], x, pq, rfl, by simpa using h, hx, fun _ h => by cases h⟩
    · rename_i hx
      cases hf : findValue value pq with
      | none => rw [hf] at h; simp at h
      | some m =>
        rw [hf] at h
        simp only [Option.map_some', Option.some.injEq] at h
        obtain ⟨pre, it, post, h1, h2, h3, h4⟩ := ih m hf
        refine ⟨x :: pre, it, post, by rw [h1]; rfl, by simp [h2, h], h3, ?_⟩
        intro y hy
        rcases List.mem_cons.1 hy with hy | hy
        · rw [hy]; exact hx
        · exact h4 y hy

theorem findValue_none (value : String) : ∀ (pq : PriorityQueue),
    findValue value pq = none ↔ ∀ x ∈ pq, x.value ≠ value := by
  intro pq
  induction pq with
  | nil => simp [findValue]
  | cons x pq ih =>
    simp only [findValue]
    split
    · rename_i hx
      simp [hx]
    · rename_i hx
      simp [ih, hx]

theorem at_append_mid (pre post : PriorityQueue) (it : Item) :
    at_ (pre ++ it :: post) pre.length = it := by
  induction pre with
  | nil => rfl
  | cons x pre ih => simpa [at_] using ih

theorem set_append_mid (pre post : PriorityQueue) (it it2 : Item) :
    (pre ++ it :: post).set pre.length it2 = pre ++ it2 :: post := by
  simp [List.set_append]

/-- `UpdatePriorityQueue` on a queue whose index fields are the positions. -/
theorem UpdatePriorityQueue_found (pre post : PriorityQueue) (it : Item) (priority : Int)
    (hidx : IndexOK (pre ++ it :: post)) (hpre : ∀ x ∈ pre, x.value ≠ it.value) :
    ∃ pq2, UpdatePriorityQueue (pre ++ it :: post) it.value priority = some (pq2, false) ∧
      pq2.length = (pre ++ it :: post).length ∧
      List.Perm (keys pq2)
        (keys pre ++ (it.value, wrapInt (it.priority + priority)) :: keys post) ∧
      (Inv (pre ++ it :: post) → Inv pq2) := by
  have hfind : findValue it.value (pre ++ it :: post) = some pre.length := by
    clear hidx
    induction pre with
    | nil => simp [findValue]
    | cons x pre ih =>
      have hx : ¬ x.value = it.value := hpre x (List.mem_cons_self _ _)
      have hrec := ih (fun y hy => hpre y (List.mem_cons_of_mem _ hy))
      rw [List.cons_append, findValue, if_neg hx, hrec]
      rfl
  have hk : pre.length < (pre ++ it :: post).length := by simp
  have hindex : it.index = ((pre.length : Nat) : Int) := by
    have := hidx pre.length hk
    rwa [at_append_mid] at this
  obtain ⟨f1, f2, f3⟩ := heapFix_spec (pre ++ it :: post) pre.length hk
    { it with priority := wrapInt (it.priority + priority) }
  refine ⟨heapFix ((pre ++ it :: post).set pre.length
    { it with priority := wrapInt (it.priority + priority) }) pre.length, ?_, f1, ?_, ?_⟩
  · unfold UpdatePriorityQueue
    simp only [hfind, at_append_mid, hindex, List.length_set]
    rw [if_pos ⟨by omega, by exact_mod_cast hk⟩]
    simp
  · refine f2.trans ?_
    have : (keys (pre ++ it :: post)).set pre.length
        (Item.key { it with priority := wrapInt (it.priority + priority) }) =
        keys pre ++ (it.value, wrapInt (it.priority + priority)) :: keys post := by
      simp [keys, Item.key, List.set_append]
    rw [this]
  · intro hinv
    exact f3 hinv hindex

theorem UpdatePriorityQueue_new (pq : PriorityQueue) (value : String) (priority : Int)
    (hnone : ∀ x ∈ pq, x.value ≠ value) :
    ∃ pq2, UpdatePriorityQueue pq value priority = some (pq2, true) ∧
      pq2.length = pq.length + 1 ∧ List.Perm (keys pq2) ((value, priority) :: keys pq) ∧
      (Inv pq → Inv pq2) := by
  have hfind := (findValue_none value pq).2 hnone
  obtain ⟨p1, p2, p3⟩ := heapPush_spec pq ⟨value, priority, pq.length⟩
  exact ⟨_, by simp only [UpdatePriorityQueue, hfind], p1, p2, p3⟩

theorem UpdatePriorityQueue_Inv (pq pq2 : PriorityQueue) (value : String) (priority : Int)
    (added : Bool) (hinv : Inv pq)
    (h : UpdatePriorityQueue pq value priority = some (pq2, added)) : Inv pq2 := by
  cases hf : findValue value pq with
  | none =>
    obtain ⟨q, h1, -, -, h4⟩ := UpdatePriorityQueue_new pq value priority
      ((findValue_none value pq).1 hf)
    rw [h1] at h
    simp only [Option.some.injEq, Prod.mk.injEq] at h
    rw [← h.1]
    exact h4 hinv
  | some k =>
    obtain ⟨pre, it, post, e1, e2, e3, e4⟩ := findValue_some value pq k hf
    subst e1
    subst e3
    obtain ⟨q, h1, -, -, h4⟩ := UpdatePriorityQueue_found pre post it priority hinv.2 e4
    rw [h1] at h
    simp only [Option.some.injEq, Prod.mk.injEq] at h
    rw [← h.1]
    exact h4 hinv

theorem Take_Inv (pq : PriorityQueue) (hinv : Inv pq) : Inv (Take pq).2 := by
  by_cases h : 0 < pq.length
  · rw [Take_of_pos pq h]
    exact (heapPop_spec pq h).2.2.2 hinv
  · have : pq = [] := List.eq_nil_of_length_eq_zero (by omega)
    subst this
    exact hinv

/-- Every queue the package builds keeps the invariant. -/
theorem Reachable.inv (pq : PriorityQueue) (h : Reachable pq) : Inv pq := by
  induction h with
  | init items => exact (InitPriorityQueue_spec items).2.2
  | initMap items => exact (InitPriorityQueueMap_spec items).2.2
  | update pq pq2 value priority added _ hupd ih =>
    exact UpdatePriorityQueue_Inv pq pq2 value priority added ih hupd
  | take pq _ ih => exact Take_Inv pq ih

/-- Repeated `Take` on a queue that keeps the invariant: all items come out, in
non-increasing order of priority. -/
theorem takeAll_spec : ∀ (n : Nat) (pq : PriorityQueue), Inv pq → pq.length ≤ n →
    List.Perm ((takeAll n pq).map Item.key) (keys pq) ∧
      List.Pairwise (fun a b => a ≥ b) ((takeAll n pq).map Item.priority) := by
  intro n
  induction n with
  | zero =>
    intro pq _ hlen
    have : pq = [] := List.eq_nil_of_length_eq_zero (by omega)
    rw [this]
    exact ⟨List.Perm.refl _, List.Pairwise.nil⟩
  | succ n ih =>
    intro pq hinv hlen
    by_cases h : 0 < pq.length
    · obtain ⟨p1, p2, p3, p4⟩ := heapPop_spec pq h
      have hmax := heapPop_max pq hinv.1 h
      obtain ⟨i1, i2⟩ := ih (heapPop pq).2 (p4 hinv) (by rw [p2]; omega)
      simp only [takeAll, Take_of_pos pq h, List.map_cons]
      refine ⟨(i1.cons _).trans p3.symm, List.Pairwise.cons ?_ i2⟩
      intro b hb
      obtain ⟨y, hy, hyb⟩ := List.mem_map.1 hb
      have hykey : y.key ∈ keys pq := by
        have : y.key ∈ (takeAll n (heapPop pq).2).map Item.key := List.mem_map_of_mem _ hy
        exact p3.symm.subset (List.mem_cons_of_mem _ (i1.subset this))
      obtain ⟨x, hx, hxy⟩ := List.mem_map.1 hykey
      have hp : x.priority = y.priority := congrArg Prod.snd hxy
      have := hmax x hx
      rw [← hyb]
      show (heapPop pq).1.priority ≥ y.priority
      omega
    · have : pq = [] := List.eq_nil_of_length_eq_zero (by omega)
      rw [this]
      exact ⟨List.Perm.refl _, List.Pairwise.nil⟩

/-! ## The claims on the priority queue -/

/-- C15: on a queue built by `InitPriorityQueue` or `InitPriorityQueueMap` and
changed by `UpdatePriorityQueue` (and `Take`) calls, `Take` returns an item whose
priority is the highest of the queue, and repeated `Take` returns all items, each
once, in non-increasing order of priority; the map of the test, in whatever order
it is visited, followed by `UpdatePriorityQueue("orange", 5)` comes out with
priorities 5, 4, 3, 2. -/
theorem C15_take_order (pq : PriorityQueue) (h : Reachable pq) :
    (∀ item rest, Take pq = (some item, rest) →
      (∀ x ∈ pq, x.priority ≤ item.priority) ∧ Reachable rest) ∧
    List.Perm ((takeAll pq.length pq).map Item.key) (keys pq) ∧
    List.Pairwise (fun a b => a ≥ b) ((takeAll pq.length pq).map Item.priority) ∧
    ∀ items ∈ sampleOrders,
      (UpdatePriorityQueue (InitPriorityQueueMap items) "orange" 5).map
        (fun r => ((takeAll 4 r.1).map Item.priority, r.2)) = some ([5, 4, 3, 2], true) := by
  have hinv := Reachable.inv pq h
  obtain ⟨t1, t2⟩ := takeAll_spec pq.length pq hinv (Nat.le_refl _)
  refine ⟨fun item rest htake => ?_, t1, t2, by decide⟩
  by_cases hpos : 0 < pq.length
  · have hrest : rest = (Take pq).2 := by rw [htake]
    rw [Take_of_pos pq hpos] at htake
    simp only [Prod.mk.injEq, Option.some.injEq] at htake
    refine ⟨fun x hx => ?_, hrest ▸ Reachable.take pq h⟩
    rw [← htake.1]
    exact heapPop_max pq hinv.1 hpos x hx
  · have : pq = [] := List.eq_nil_of_length_eq_zero (by omega)
    rw [this, Take_nil] at htake
    simp at htake

theorem C15_take_order_witness :
    List.Perm ((takeAll 4 sampleQueue).map Item.key) (keys sampleQueue) ∧
      List.Pairwise (fun a b => a ≥ b) ((takeAll 4 sampleQueue).map Item.priority) ∧
      (takeAll 4 sampleQueue).map Item.priority = [5, 4, 3, 2] :=
  have h := C15_take_order sampleQueue
    (Reachable.update (InitPriorityQueueMap sampleItems) sampleQueue "orange" 5 true
      (Reachable.initMap sampleItems) (by decide))
  ⟨h.2.1, h.2.2.1, by decide⟩

/-- C16: `UpdatePriorityQueue(value, p)` on a queue whose index fields are the
positions. If no item has the value, the call returns true and the queue gains
the one item `(value, p)`. If some item has it, the call returns false, the
length is unchanged and the items are the same but for the first item with the
value, whose priority is the Go sum of its priority and `p` (the sum itself
unless it leaves the 64-bit range). -/
theorem C16_update_or_add (pq : PriorityQueue) (value : String) (p : Int) (hidx : IndexOK pq) :
    ((∀ x ∈ pq, x.value ≠ value) →
      ∃ pq2, UpdatePriorityQueue pq value p = some (pq2, true) ∧
        pq2.length = pq.length + 1 ∧ List.Perm (keys pq2) ((value, p) :: keys pq)) ∧
    ∀ pre it post, pq = pre ++ it :: post → it.value = value → (∀ x ∈ pre, x.value ≠ value) →
      ∃ pq2, UpdatePriorityQueue pq value p = some (pq2, false) ∧
        pq2.length = pq.length ∧
        List.Perm (keys pq2) (keys pre ++ (value, wrapInt (it.priority + p)) :: keys post) ∧
        (-9223372036854775808 ≤ it.priority + p → it.priority + p < 9223372036854775808 →
          wrapInt (it.priority + p) = it.priority + p) := by
  refine ⟨fun hnone => ?_, fun pre it post hpq hval hpre => ?_⟩
  · obtain ⟨pq2, h1, h2, h3, -⟩ := UpdatePriorityQueue_new pq value p hnone
    exact ⟨pq2, h1, h2, h3⟩
  · subst hpq
    subst hval
    obtain ⟨pq2, h1, h2, h3, -⟩ := UpdatePriorityQueue_found pre post it p hidx hpre
    refine ⟨pq2, h1, h2, h3, fun hlo hhi => ?_⟩
    unfold wrapInt
    omega

theorem C16_update_or_add_witness :
    (∃ pq2, UpdatePriorityQueue sampleQueue "kiwi" 1 = some (pq2, true) ∧
      pq2.length = 5 ∧ List.Perm (keys pq2) (("kiwi", 1) :: keys sampleQueue)) ∧
    ∃ pq2, UpdatePriorityQueue sampleQueue "banana" (-2) = some (pq2, false) ∧
      pq2.length = 4 ∧
      List.Perm (keys pq2) [("orange", 5), ("pear", 4), ("banana", 1), ("apple", 2)] :=
  have hidx : IndexOK sampleQueue :=
    (Reachable.inv sampleQueue
      (Reachable.update (InitPriorityQueueMap sampleItems) sampleQueue "orange" 5 true
        (Reachable.initMap sampleItems) (by decide))).2
  have h := C16_update_or_add sampleQueue "kiwi" 1 hidx
  have h2 := C16_update_or_add sampleQueue "banana" (-2) hidx
  ⟨h.1 (by decide),
    (h2.2 [⟨"orange", 5, 0⟩, ⟨"pear", 4, 1⟩] ⟨"banana", 3, 2⟩ [⟨"apple", 2, 3⟩] rfl rfl
      (by decide)).imp fun pq2 hq => ⟨hq.1, hq.2.1, hq.2.2.1⟩⟩

/-- C18: `Take` on an empty queue returns nil and leaves the queue empty; on a
queue of `n ≥ 1` items it returns an item whose index is -1 and leaves `n - 1`
items, which with the item returned are the items of before. -/
theorem C18_take (pq : PriorityQueue) :
    (pq = [] → Take pq = (none, [])) ∧
    (1 ≤ pq.length → ∃ item rest, Take pq = (some item, rest) ∧
      rest.length = pq.length - 1 ∧ List.Perm (keys pq) (item.key :: keys rest) ∧
      item.index = -1) := by
  refine ⟨fun h => by rw [h]; rfl, fun hlen => ?_⟩
  obtain ⟨p1, p2, p3, -⟩ := heapPop_spec pq hlen
  exact ⟨_, _, Take_of_pos pq hlen, p2, p3, by rw [p1]⟩

theorem C18_take_witness :
    ∃ item rest, Take sampleQueue = (some item, rest) ∧ rest.length = 3 ∧
      List.Perm (keys sampleQueue) (item.key :: keys rest) ∧ item.index = -1 :=
  (C18_take sampleQueue).2 (by decide)

theorem UpdatePriorityQueue_total (pq : PriorityQueue) (hinv : Inv pq) (value : String)
    (priority : Int) :
    ∃ pq2 added, UpdatePriorityQueue pq value priority = some (pq2, added) ∧ Inv pq2 := by
  cases hf : findValue value pq with
  | none =>
    obtain ⟨q, h1, -, -, h4⟩ := UpdatePriorityQueue_new pq value priority
      ((findValue_none value pq).1 hf)
    exact ⟨q, true, h1, h4 hinv⟩
  | some k =>
    obtain ⟨pre, it, post, e1, -, e3, e4⟩ := findValue_some value pq k hf
    subst e1
    subst e3
    obtain ⟨q, h1, -, -, h4⟩ := UpdatePriorityQueue_found pre post it priority hinv.2 e4
    exact ⟨q, false, h1, h4 hinv⟩

/-- C23: every queue produced by `InitPriorityQueue` or `InitPriorityQueueMap` and
by the `UpdatePriorityQueue` and `Take` calls after them is a max-heap on priority
and has every item's index equal to its position; `UpdatePriorityQueue` and `Take`
on it give such a queue again. On a heap whose index fields are not the positions
the `heap.Fix(found.index)` of `UpdatePriorityQueue` does not restore the heap. -/
theorem C23_queue_invariant (pq : PriorityQueue) (h : Reachable pq) :
    IsHeap pq ∧ IndexOK pq ∧
    (∀ value priority, ∃ pq2 added,
      UpdatePriorityQueue pq value priority = some (pq2, added) ∧ IsHeap pq2 ∧ IndexOK pq2) ∧
    (IsHeap (Take pq).2 ∧ IndexOK (Take pq).2) ∧
    (UpdatePriorityQueue wrongIndexQueue "b" 10 =
        some ([⟨"a", 5, 0⟩, ⟨"b", 13, 2⟩, ⟨"c", 4, 1⟩], false) ∧
      ¬ IsHeap [⟨"a", 5, 0⟩, ⟨"b", 13, 2⟩, ⟨"c", 4, 1⟩]) := by
  have hinv := Reachable.inv pq h
  refine ⟨hinv.1, hinv.2, fun value priority => ?_, Take_Inv pq hinv, by decide, fun hh => ?_⟩
  · obtain ⟨pq2, added, h1, h2⟩ := UpdatePriorityQueue_total pq hinv value priority
    exact ⟨pq2, added, h1, h2.1, h2.2⟩
  · have := (hh 0).1 (by decide)
    revert this
    decide

theorem C23_queue_invariant_witness :
    IsHeap sampleQueue ∧ IndexOK sampleQueue ∧ IsHeap (Take sampleQueue).2 ∧
      IndexOK (Take sampleQueue).2 :=
  have h := C23_queue_invariant sampleQueue
    (Reachable.update (InitPriorityQueueMap sampleItems) sampleQueue "orange" 5 true
      (Reachable.initMap sampleItems) (by decide))
  ⟨h.1, h.2.1, h.2.2.2.1.1, h.2.2.2.1.2⟩

end Priorityqueue

/-! # Properties of the logger -/

namespace Log

/-! ## The level filters -/

theorem Write_DebugOpen (hd : loggerHandler) (lm : logMesg) (h : hd.DebugOpen)
    (hl : DebugLevel ≤ lm.Level) :
    (hd.Write lm).DebugOpen ∧ (hd.Write lm).printed = hd.printed ++ [lm.Mesg] := by
  cases hd with
  | console c =>
    simp only [loggerHandler.DebugOpen] at h
    simp only [loggerHandler.Write, consoleHandler.Write, h, hl, if_true,
      loggerHandler.DebugOpen, loggerHandler.printed, and_self]
  | file f =>
    simp only [loggerHandler.DebugOpen] at h
    simp [loggerHandler.Write, fileHandler.Write, h.1, h.2, hl,
      loggerHandler.DebugOpen, loggerHandler.printed]

theorem Rotate_DebugOpen (Sprintf : String → List String → String) (hd : loggerHandler)
    (o : RotateOutcome) (h : hd.DebugOpen) (ho : o.isFailed = false) :
    (hd.Rotate Sprintf o).DebugOpen ∧ (hd.Rotate Sprintf o).printed = hd.printed := by
  cases hd with
  | console c => exact ⟨h, rfl⟩
  | file f =>
    simp only [loggerHandler.DebugOpen] at h
    cases o with
    | notDue =>
      simp only [loggerHandler.Rotate, fileHandler.Rotate]
      split <;> exact ⟨h, rfl⟩
    | done =>
      simp only [loggerHandler.Rotate, fileHandler.Rotate]
      split
      · exact ⟨h, rfl⟩
      · exact ⟨⟨h.1, rfl⟩, rfl⟩
    | failed err => simp [RotateOutcome.isFailed] at ho

/-- The state of a logger of level Debug with one printing handler of level
Debug: `lines` is what the handler has printed followed by what is queued. -/
theorem runStep_lines (l : LoggerImp) (hd : loggerHandler) (lines : List String)
    (ho : l.outputs = [hd]) (hopen : hd.DebugOpen)
    (hq : ∀ m ∈ l.mesgs, DebugLevel ≤ m.Level)
    (hlines : hd.printed ++ l.mesgs.map logMesg.Mesg = lines) :
    ∃ hd2, l.runStep.outputs = [hd2] ∧ hd2.DebugOpen ∧
      (∀ m ∈ l.runStep.mesgs, DebugLevel ≤ m.Level) ∧
      hd2.printed ++ l.runStep.mesgs.map logMesg.Mesg = lines ∧
      l.runStep.level = l.level ∧ l.runStep.mesgs.length = l.mesgs.length - 1 := by
  unfold LoggerImp.runStep
  cases hm : l.mesgs with
  | nil =>
    rw [hm] at hlines hq
    exact ⟨hd, ho, hopen, by simp [hm], by simpa [hm] using hlines, rfl, by simp [hm]⟩
  | cons m rest =>
    rw [hm] at hlines hq
    obtain ⟨w1, w2⟩ := Write_DebugOpen hd m hopen (hq m (List.mem_cons_self _ _))
    refine ⟨hd.Write m, by simp [ho], w1, fun x hx => hq x (List.mem_cons_of_mem _ hx), ?_,
      rfl, by simp⟩
    simp only [w2, List.append_assoc, List.singleton_append]
    simpa using hlines

theorem runSteps_lines : ∀ (k : Nat) (l : LoggerImp) (hd : loggerHandler) (lines : List String),
    l.outputs = [hd] → hd.DebugOpen → (∀ m ∈ l.mesgs, DebugLevel ≤ m.Level) →
    hd.printed ++ l.mesgs.map logMesg.Mesg = lines →
    ∃ hd2, (LoggerImp.runSteps k l).outputs = [hd2] ∧ hd2.DebugOpen ∧
      (∀ m ∈ (LoggerImp.runSteps k l).mesgs, DebugLevel ≤ m.Level) ∧
      hd2.printed ++ (LoggerImp.runSteps k l).mesgs.map logMesg.Mesg = lines ∧
      (LoggerImp.runSteps k l).level = l.level ∧
      (LoggerImp.runSteps k l).mesgs.length = l.mesgs.length - k := by
  intro k
  induction k with
  | zero => intro l hd lines ho hopen hq hl; exact ⟨hd, ho, hopen, hq, hl, rfl, rfl⟩
  | succ k ih =>
    intro l hd lines ho hopen hq hl
    obtain ⟨hd1, a1, a2, a3, a4, a5, a6⟩ := runStep_lines l hd lines ho hopen hq hl
    obtain ⟨hd2, b1, b2, b3, b4, b5, b6⟩ := ih l.runStep hd1 lines a1 a2 a3 a4
    exact ⟨hd2, b1, b2, b3, b4, by rw [← a5]; exact b5, by
      show (LoggerImp.runSteps k l.runStep).mesgs.length = _
      omega⟩

theorem writeMesg_lines (Sprintf : String → List String → String) (l : LoggerImp)
    (hd : loggerHandler) (lines : List String) (outcomes : List RotateOutcome) (mesg : String)
    (level : Int) (ho : l.outputs = [hd]) (hopen : hd.DebugOpen) (hlev : l.level = DebugLevel)
    (hq : ∀ m ∈ l.mesgs, DebugLevel ≤ m.Level)
    (hlines : hd.printed ++ l.mesgs.map logMesg.Mesg = lines) (hlevel : DebugLevel ≤ level)
    (hrot : NoneFailed outcomes) :
    ∃ hd2, (l.writeMesg Sprintf outcomes mesg level).outputs = [hd2] ∧ hd2.DebugOpen ∧
      (∀ m ∈ (l.writeMesg Sprintf outcomes mesg level).mesgs, DebugLevel ≤ m.Level) ∧
      hd2.printed ++ (l.writeMesg Sprintf outcomes mesg level).mesgs.map logMesg.Mesg =
        lines ++ [mesg] ∧
      (l.writeMesg Sprintf outcomes mesg level).level = DebugLevel ∧
      (l.writeMesg Sprintf outcomes mesg level).mesgs.length = l.mesgs.length + 1 := by
  have hgate : ¬ l.level > level := by rw [hlev]; exact not_lt.2 hlevel
  simp only [LoggerImp.writeMesg, hgate, if_false, ho]
  have hrot1 : ∃ hd2, rotateAll Sprintf [hd] outcomes = [hd2] ∧ hd2.DebugOpen ∧
      hd2.printed = hd.printed := by
    cases outcomes with
    | nil => exact ⟨_, rfl, Rotate_DebugOpen Sprintf hd _ hopen rfl⟩
    | cons o os =>
      exact ⟨_, by simp [rotateAll], Rotate_DebugOpen Sprintf hd o hopen
        (hrot o (List.mem_cons_self _ _))⟩
  obtain ⟨hd2, r1, r2, r3⟩ := hrot1
  refine ⟨hd2, r1, r2, ?_, ?_, hlev, by simp⟩
  · intro m hm
    rcases List.mem_append.1 hm with h | h
    · exact hq m h
    · simp only [List.mem_singleton] at h
      rw [h]
      exact hlevel
  · rw [r3, List.map_append, ← List.append_assoc, hlines]
    rfl

/-- C17 as stated fails on two counts. A file handler of level Debug whose logger
is not set prints nothing at any level. And a file handler of level Debug with its
logger set prints six lines for the five calls, not five, when the rotation of one
of the calls fails. -/
theorem C17_level_filter_counterexample :
    DebugLevel ≤ DebugLevel ∧
    ((⟨DebugLevel, false, true, []⟩ : fileHandler).Write ⟨DebugLevel, "[DEBUG] debug"⟩).printed
      = [] ∧
    (fiveCalls sampleSprintf ⟨DebugLevel, [], [loggerHandler.file ⟨DebugLevel, true, true, []⟩]⟩
      0 0 0 0 0 5 [] [] [RotateOutcome.failed "disk full"] [] []
      "debug" "info" "warn" "error" "fatal" [] [] [] [] []).outputs.map loggerHandler.printed =
      [["[DEBUG] rotate log file err disk full", "[DEBUG] debug", "[INFO] info", "[WARN] warn",
        "[ERROR] error", "[FATAL] fatal"]] := by
  decide

/-- C17 (amended): a message logged at level `m` through a logger of level `L` is
queued exactly when `L ≤ m`; a console handler of level `H` prints it exactly when
`H ≤ m`, a file handler exactly when its logger is set and `H ≤ m`. With the
logger and its one handler at level Debug, the handler printing (a console
handler, or a file handler with its logger set) and no rotation failing, one call
each of `Debug`, `Info`, `Warn`, `Error` and `Fatal` makes the handler print five
more lines, each the level tag followed by the formatted message, however the
passes of `run` fall between the calls. -/
theorem C17_level_filter (Sprintf : String → List String → String) (l : LoggerImp)
    (hd : loggerHandler) (k0 k1 k2 k3 k4 k5 : Nat) (r1 r2 r3 r4 r5 : List RotateOutcome)
    (f1 f2 f3 f4 f5 : String) (v1 v2 v3 v4 v5 : List String)
    (hfmt : CopiesTags Sprintf) (hlev : l.level = DebugLevel) (hq : l.mesgs = [])
    (ho : l.outputs = [hd]) (hopen : hd.DebugOpen) (hk : 5 ≤ k5)
    (h1 : NoneFailed r1) (h2 : NoneFailed r2) (h3 : NoneFailed r3) (h4 : NoneFailed r4)
    (h5 : NoneFailed r5) :
    (∀ (g : LoggerImp) (outcomes : List RotateOutcome) (mesg : String) (m : Int),
      (g.writeMesg Sprintf outcomes mesg m).mesgs =
        if g.level ≤ m then g.mesgs ++ [⟨m, mesg⟩] else g.mesgs) ∧
    (∀ (c : consoleHandler) (lm : logMesg),
      (c.Write lm).printed = if c.level ≤ lm.Level then c.printed ++ [lm.Mesg] else c.printed) ∧
    (∀ (f : fileHandler) (lm : logMesg),
      (f.Write lm).printed =
        if f.logger = true ∧ f.level ≤ lm.Level then f.printed ++ [lm.Mesg] else f.printed) ∧
    ∃ hd2, (fiveCalls Sprintf l k0 k1 k2 k3 k4 k5 r1 r2 r3 r4 r5
        f1 f2 f3 f4 f5 v1 v2 v3 v4 v5).outputs = [hd2] ∧
      (fiveCalls Sprintf l k0 k1 k2 k3 k4 k5 r1 r2 r3 r4 r5
        f1 f2 f3 f4 f5 v1 v2 v3 v4 v5).mesgs = [] ∧
      hd2.printed = hd.printed ++
        ["[DEBUG] " ++ Sprintf f1 v1, "[INFO] " ++ Sprintf f2 v2, "[WARN] " ++ Sprintf f3 v3,
          "[ERROR] " ++ Sprintf f4 v4, "[FATAL] " ++ Sprintf f5 v5] := by
  refine ⟨fun g outcomes mesg m => ?_, fun c lm => ?_, fun f lm => ?_, ?_⟩
  · unfold LoggerImp.writeMesg
    by_cases hg : g.level ≤ m
    · rw [if_neg (not_lt.2 hg), if_pos hg]
    · rw [if_pos (not_le.1 hg), if_neg hg]
  · unfold consoleHandler.Write
    split <;> rfl
  · unfold fileHandler.Write
    cases hlog : f.logger
    · simp
    · by_cases hlv : f.level ≤ lm.Level
      · simp [hlv]
      · simp [hlv]
  · have t1 := hfmt "[DEBUG] " (by simp) f1 v1
    have t2 := hfmt "[INFO] " (by simp) f2 v2
    have t3 := hfmt "[WARN] " (by simp) f3 v3
    have t4 := hfmt "[ERROR] " (by simp) f4 v4
    have t5 := hfmt "[FATAL] " (by simp) f5 v5
    have e0 : hd.printed ++ l.mesgs.map logMesg.Mesg = hd.printed := by simp [hq]
    obtain ⟨d0, a1, a2, a3, a4, a5, a6⟩ := runSteps_lines k0 l hd _ ho hopen (by simp [hq]) e0
    obtain ⟨d1, b1, b2, b3, b4, b5, b6⟩ := writeMesg_lines Sprintf _ d0 _ r1
      (Sprintf ("[DEBUG] " ++ f1) v1) DebugLevel a1 a2 (a5.trans hlev) a3 a4 (le_refl _) h1
    obtain ⟨d2, c1, c2, c3, c4, c5, c6⟩ := runSteps_lines k1 _ d1 _ b1 b2 b3 b4
    obtain ⟨d3, e1, e2, e3, e4, e5, e6⟩ := writeMesg_lines Sprintf _ d2 _ r2
      (Sprintf ("[INFO] " ++ f2) v2) InfoLevel c1 c2 (c5.trans b5) c3 c4 (by decide) h2
    obtain ⟨d4, g1, g2, g3, g4, g5, g6⟩ := runSteps_lines k2 _ d3 _ e1 e2 e3 e4
    obtain ⟨d5, i1, i2, i3, i4, i5, i6⟩ := writeMesg_lines Sprintf _ d4 _ r3
      (Sprintf ("[WARN] " ++ f3) v3) WarnLevel g1 g2 (g5.trans e5) g3 g4 (by decide) h3
    obtain ⟨d6, j1, j2, j3, j4, j5, j6⟩ := runSteps_lines k3 _ d5 _ i1 i2 i3 i4
    obtain ⟨d7, m1, m2, m3, m4, m5, m6⟩ := writeMesg_lines Sprintf _ d6 _ r4
      (Sprintf ("[ERROR] " ++ f4) v4) ErrorLevel j1 j2 (j5.trans i5) j3 j4 (by decide) h4
    obtain ⟨d8, n1, n2, n3, n4, n5, n6⟩ := runSteps_lines k4 _ d7 _ m1 m2 m3 m4
    obtain ⟨d9, o1, o2, o3, o4, o5, o6⟩ := writeMesg_lines Sprintf _ d8 _ r5
      (Sprintf ("[FATAL] " ++ f5) v5) FatalLevel n1 n2 (n5.trans m5) n3 n4 (by decide) h5
    obtain ⟨d10, p1, p2, p3, p4, p5, p6⟩ := runSteps_lines k5 _ d9 _ o1 o2 o3 o4
    have hlen : (fiveCalls Sprintf l k0 k1 k2 k3 k4 k5 r1 r2 r3 r4 r5
        f1 f2 f3 f4 f5 v1 v2 v3 v4 v5).mesgs.length = 0 := by
      simp only [hq, List.length_nil] at a6
      have : (fiveCalls Sprintf l k0 k1 k2 k3 k4 k5 r1 r2 r3 r4 r5
        f1 f2 f3 f4 f5 v1 v2 v3 v4 v5).mesgs.length = _ := p6
      rw [this]
      simp only [LoggerImp.Debug, LoggerImp.Info, LoggerImp.Warn, LoggerImp.Error,
        LoggerImp.Fatal] at *
      omega
    have hnil := List.eq_nil_of_length_eq_zero hlen
    refine ⟨d10, p1, hnil, ?_⟩
    have hfin : d10.printed ++ (fiveCalls Sprintf l k0 k1 k2 k3 k4 k5 r1 r2 r3 r4 r5
        f1 f2 f3 f4 f5 v1 v2 v3 v4 v5).mesgs.map logMesg.Mesg = _ := p4
    rw [hnil, List.map_nil, List.append_nil] at hfin
    rw [hfin, t1, t2, t3, t4, t5]
    simp

theorem sprintfChars_cons (c : Char) (cs : List Char) (v : List String) (hc : c ≠ '%') :
    sprintfChars (c :: cs) v = c :: sprintfChars cs v := by
  cases cs with
  | nil => rfl
  | cons d rest =>
    simp only [sprintfChars, hc, false_and, if_false]

theorem CopiesTags_sample : CopiesTags sampleSprintf := by
  intro tag htag format v
  have key : ∀ (t : List Char), (∀ c ∈ t, c ≠ '%') →
      sprintfChars (t ++ format.data) v = t ++ sprintfChars format.data v := by
    intro t
    induction t with
    | nil => intro _; rfl
    | cons c t ih =>
      intro ht
      rw [List.cons_append, sprintfChars_cons c _ v (ht c (List.mem_cons_self _ _)),
        ih (fun x hx => ht x (List.mem_cons_of_mem _ hx))]
      rfl
  have htag2 : ∀ c ∈ tag.data, c ≠ '%' := by
    simp only [List.mem_cons, List.mem_singleton, List.not_mem_nil, or_false] at htag
    rcases htag with h | h | h | h | h <;> subst h <;> decide
  apply String.ext
  simp only [sampleSprintf, String.data_append]
  exact key tag.data htag2

theorem NoneFailed_nil : NoneFailed [] := fun _ h => nomatch h

theorem C17_level_filter_witness :
    ∃ hd2, (fiveCalls sampleSprintf ⟨DebugLevel, [], [loggerHandler.console ⟨DebugLevel, []⟩]⟩
        0 1 0 2 0 5 [] [] [] [] [] "debug" "info" "warn" "error" "fatal"
        [] [] [] [] []).outputs = [hd2] ∧
      hd2.printed =
        ["[DEBUG] debug", "[INFO] info", "[WARN] warn", "[ERROR] error", "[FATAL] fatal"] :=
  have h := (C17_level_filter sampleSprintf
    ⟨DebugLevel, [], [loggerHandler.console ⟨DebugLevel, []⟩]⟩
    (loggerHandler.console ⟨DebugLevel, []⟩) 0 1 0 2 0 5 [] [] [] [] []
    "debug" "info" "warn" "error" "fatal" [] [] [] [] [] CopiesTags_sample rfl rfl rfl rfl
    (by decide) NoneFailed_nil NoneFailed_nil NoneFailed_nil NoneFailed_nil NoneFailed_nil).2.2.2
  h.imp fun hd2 hh => ⟨hh.1, hh.2.2.trans (by decide)⟩

end Log
